import Mathlib

/-!
# Verification of the `flat_spatial` spatial-partitioning crate

This file gives a shallow embedding of the core of the `flat_spatial`
repository (files `src/storage.rs`, `src/grid.rs`, `src/cell.rs`,
`src/sparsegrid.rs`, `src/aabbgrid.rs`) and proves or refutes the frozen
claims about it.

Modelling conventions:

* `f32` world coordinates are modelled as exact rationals (`ℚ`).  The
  operations the claims exercise only use the cast `as i32`, subtraction,
  multiplication and comparison on coordinates, all of which are exact on
  the rational values used by the theorems.  Where the finiteness class of
  a float matters (claim about NaN and infinities) a dedicated inductive
  `F32` of value classes is used.
* Rust's `x as i32` on an `f32` rounds toward zero and saturates at the
  `i32` bounds; NaN casts to 0.  Rust's `/` on `i32` truncates toward
  zero, which is Lean's `Int.tdiv` (not `Int.ediv`/`Int.fdiv`).
* `HashMap` and `SlotMap` are modelled as association lists with distinct
  keys; `SlotMap` handles are natural numbers handed out by a counter
  (fresh keys are never reused, matching the generational behaviour the
  claims rely on).
* A Rust `panic!` / `.expect(..)` / `.unwrap()` on a failure path is
  modelled by an `Option`-valued operation returning `none`.
-/

namespace FlatSpatial

/-! ## Numeric primitives -/

/-- Truncation of a rational toward zero, the rounding used by Rust's
`as i32` cast on a finite float. -/
def ratTrunc (q : ℚ) : ℤ := if 0 ≤ q then ⌊q⌋ else ⌈q⌉

/-- Rust's `f32 as i32` cast on a finite value: round toward zero,
saturating at the `i32` bounds. -/
def asI32 (q : ℚ) : ℤ := max (-2147483648) (min 2147483647 (ratTrunc q))

/-- Rust's `i32` division: truncation toward zero (`Int.div`). -/
def i32Div (a b : ℤ) : ℤ := Int.tdiv a b

/-- `SparseStorage::cell_id` (src/storage.rs lines 302-304):
`(pos.x as i32 / self.cell_size, pos.y as i32 / self.cell_size)`.
`SparseGrid::get_cell_id` (src/sparsegrid.rs lines 421-427) is the same
formula. -/
def cellIdQ (cellSize : ℤ) (p : ℚ × ℚ) : ℤ × ℤ :=
  (i32Div (asI32 p.1) cellSize, i32Div (asI32 p.2) cellSize)

/-! ## Integer ranges and cell rectangles -/

/-- The list `[a, a+1, ..., b]` (empty if `b < a`). -/
def rangeInt (a b : ℤ) : List ℤ :=
  (List.range (b + 1 - a).toNat).map (fun i : ℕ => a + (i : ℤ))

/-- `SparseStorage::cell_range` (src/storage.rs lines 292-300, iterator
`XYRange`, lines 323-348): row-major enumeration of the inclusive cell
rectangle `[ll.x ..= ur.x] × [ll.y ..= ur.y]`, `y` outermost.  `XYRange`
terminates with this list whenever `ll.x ≤ ur.x` (the only way it is
reached in the code paths modelled here); for `ll.x > ur.x ∧ ll.y ≤ ur.y`
the Rust iterator never terminates. -/
def cellRange (ll ur : ℤ × ℤ) : List (ℤ × ℤ) :=
  (rangeInt ll.2 ur.2).flatMap (fun y => (rangeInt ll.1 ur.1).map (fun x => (x, y)))

/-! ## Association lists (models of `HashMap` and `SlotMap`) -/

section AList

variable {κ : Type} {α : Type} [DecidableEq κ]

/-- Lookup of the first binding of a key. -/
def alookup : List (κ × α) → κ → Option α
  | [], _ => none
  | (k, v) :: r, k2 => if k = k2 then some v else alookup r k2

/-- Replace the value of the first binding of a key (no-op if absent). -/
def aset : List (κ × α) → κ → α → List (κ × α)
  | [], _, _ => []
  | (k, v) :: r, k2, v2 => if k = k2 then (k, v2) :: r else (k, v) :: aset r k2 v2

/-- Remove the first binding of a key. -/
def aremove : List (κ × α) → κ → List (κ × α)
  | [], _ => []
  | (k, v) :: r, k2 => if k = k2 then r else (k, v) :: aremove r k2

end AList

/-! ## The point grid (`src/grid.rs` with the default `SparseStorage` and
`src/cell.rs`)

`grid.rs` in this snapshot constructs `ObjectState::Relocate` with the
target position only, while `cell.rs` pattern-matches
`Relocate(pos, target_id)`; the two files are from adjacent revisions of
the crate and only compose if `Relocate` carries both the pending
position and the target cell computed in `set_position`.  We model that
combined reading.  Handles are `ℕ` (the `SlotMap` nature of never
aliasing a live handle is modelled by a fresh counter). -/

/-- `ObjectState` (src/grid.rs lines 16-22, `Relocate` payload per
src/cell.rs line 38). -/
inductive ObjectState where
  | unchanged : ObjectState
  | newPos (pos : ℚ × ℚ) : ObjectState
  | relocate (pos : ℚ × ℚ) (target : ℤ × ℤ) : ObjectState
  | removed : ObjectState
deriving DecidableEq

/-- `StoreObject` (src/grid.rs lines 25-32). -/
structure StoreObject (O : Type) where
  obj : O
  state : ObjectState
  pos : ℚ × ℚ
  cellId : ℤ × ℤ
deriving DecidableEq

/-- `GridCell` (src/cell.rs lines 8-12). -/
structure GridCell where
  objs : List (ℕ × (ℚ × ℚ))
  dirty : Bool
deriving DecidableEq

/-- The `Default` instance used by `SparseStorage`'s `or_default`. -/
def GridCell.default : GridCell := ⟨[], false⟩

/-- `Grid` (src/grid.rs lines 97-103) over the default
`SparseStorage<GridCell>`; the `to_relocate` scratch vector is drained on
every `maintain` call and is empty between operations, so it is kept
local to `maintain`. -/
structure Grid (O : Type) where
  cellSize : ℤ
  cells : List ((ℤ × ℤ) × GridCell)
  objects : List (ℕ × StoreObject O)
  nextHandle : ℕ
deriving DecidableEq

namespace Grid

variable {O : Type}

/-- `Grid::new` via `SparseStorage::new` (src/grid.rs lines 108-120,
src/storage.rs lines 264-269): no validation of `cell_size` happens
here. -/
def new (O : Type) (cellSize : ℤ) : Grid O :=
  ⟨cellSize, [], [], 0⟩

/-- The object list of the cell at `cid` (empty when the cell is not
allocated). -/
def cellObjsAt (cells : List ((ℤ × ℤ) × GridCell)) (cid : ℤ × ℤ) :
    List (ℕ × (ℚ × ℚ)) :=
  match alookup cells cid with
  | some c => c.objs
  | none => []

/-- The dirty flag of the cell at `cid` (false when not allocated). -/
def dirtyAt (cells : List ((ℤ × ℤ) × GridCell)) (cid : ℤ × ℤ) : Bool :=
  match alookup cells cid with
  | some c => c.dirty
  | none => false

/-- `SparseStorage::cell_mut` / `cell_mut_unchecked` followed by
`objs.push(e)`: `self.cells.entry(id).or_default()` then push. -/
def cellsPush (cells : List ((ℤ × ℤ) × GridCell)) (cid : ℤ × ℤ)
    (e : ℕ × (ℚ × ℚ)) : List ((ℤ × ℤ) × GridCell) :=
  match cells with
  | [] => [(cid, ⟨[e], false⟩)]
  | (k, c) :: r =>
    if k = cid then (k, ⟨c.objs ++ [e], c.dirty⟩) :: r
    else (k, c) :: cellsPush r cid e

/-- `SparseStorage::cell_mut_unchecked(id).dirty = true`:
`self.cells.entry(id).or_default()` then set the flag. -/
def cellsMarkDirty (cells : List ((ℤ × ℤ) × GridCell)) (cid : ℤ × ℤ) :
    List ((ℤ × ℤ) × GridCell) :=
  match cells with
  | [] => [(cid, ⟨[], true⟩)]
  | (k, c) :: r =>
    if k = cid then (k, ⟨c.objs, true⟩) :: r
    else (k, c) :: cellsMarkDirty r cid

/-- `Grid::insert` (src/grid.rs lines 143-159).  For the sparse storage
`cell_mut` never invokes the re-index callback. -/
def insert (g : Grid O) (pos : ℚ × ℚ) (obj : O) : Grid O × ℕ :=
  let cid := cellIdQ g.cellSize pos
  let h := g.nextHandle
  (⟨g.cellSize,
    cellsPush g.cells cid (h, pos),
    (h, ⟨obj, .unchanged, pos, cid⟩) :: g.objects,
    h + 1⟩, h)

/-- `Grid::set_position` (src/grid.rs lines 171-189).  The
`.expect("Object not in grid anymore")` panic on a dead handle is
modelled as `none`.  Note that the object's `pos` and `cell_id` fields
are NOT updated here; the pending position travels in the state. -/
def setPosition (g : Grid O) (h : ℕ) (pos : ℚ × ℚ) : Option (Grid O) :=
  match alookup g.objects h with
  | none => none
  | some obj =>
    let obj2 :=
      if obj.state = .removed then obj
      else
        let target := cellIdQ g.cellSize pos
        { obj with
          state := if target = obj.cellId then .newPos pos
                   else .relocate pos target }
    some { g with
           objects := aset g.objects h obj2,
           cells := cellsMarkDirty g.cells obj.cellId }

/-- `Grid::remove` (src/grid.rs lines 201-209); panic on a dead handle is
`none`. -/
def remove (g : Grid O) (h : ℕ) : Option (Grid O) :=
  match alookup g.objects h with
  | none => none
  | some obj =>
    some { g with
           objects := aset g.objects h { obj with state := .removed },
           cells := cellsMarkDirty g.cells obj.cellId }

/-- The transformation `GridCell::maintain` applies to the record of an
object found in a dirty cell (src/cell.rs lines 29-51). -/
def objStep (o : StoreObject O) : Option (StoreObject O) :=
  match o.state with
  | .unchanged => some o
  | .newPos p => some { o with state := .unchanged, pos := p }
  | .relocate p t => some { o with state := .unchanged, pos := p, cellId := t }
  | .removed => none

/-- The body of `GridCell::maintain`'s `retain_mut` sweep (src/cell.rs
lines 29-51): walks the cell's entry list in order, threading the object
map and accumulating the `to_relocate` pushes.  Returns
`(kept entries, objects, relocations)`.  The Rust indexing
`objects[*obj_id]` panics when the handle is absent; that case is
unreachable for the states we quantify over (the entry is kept
untouched here). -/
def cellSweep (objects : List (ℕ × StoreObject O)) :
    List (ℕ × (ℚ × ℚ)) →
    List (ℕ × (ℚ × ℚ)) × List (ℕ × StoreObject O) × List (ℕ × (ℚ × ℚ))
  | [] => ([], objects, [])
  | (h, q) :: rest =>
    match alookup objects h with
    | none =>
      let z := cellSweep objects rest
      ((h, q) :: z.1, z.2.1, z.2.2)
    | some o =>
      match o.state with
      | .unchanged =>
        let z := cellSweep objects rest
        ((h, q) :: z.1, z.2.1, z.2.2)
      | .newPos p =>
        let z := cellSweep (aset objects h { o with state := .unchanged, pos := p }) rest
        ((h, p) :: z.1, z.2.1, z.2.2)
      | .relocate p t =>
        let z := cellSweep
          (aset objects h { o with state := .unchanged, pos := p, cellId := t }) rest
        (z.1, z.2.1, (h, p) :: z.2.2)
      | .removed =>
        let z := cellSweep (aremove objects h) rest
        (z.1, z.2.1, z.2.2)

/-- The `storage.modify(..)` sweep of `Grid::maintain` (src/grid.rs
lines 233-236) over `SparseStorage::modify`'s `retain` (src/storage.rs
lines 271-273): each cell runs `GridCell::maintain` (skipping clean
cells, src/cell.rs lines 25-28) and is evicted when its object list
ends up empty. -/
def cellsSweep (objects : List (ℕ × StoreObject O)) :
    List ((ℤ × ℤ) × GridCell) →
    List ((ℤ × ℤ) × GridCell) × List (ℕ × StoreObject O) × List (ℕ × (ℚ × ℚ))
  | [] => ([], objects, [])
  | (cid, c) :: rest =>
    if c.dirty then
      let z := cellSweep objects c.objs
      let w := cellsSweep z.2.1 rest
      ((if z.1.isEmpty then w.1 else (cid, ⟨z.1, false⟩) :: w.1),
       w.2.1, z.2.2 ++ w.2.2)
    else
      let w := cellsSweep objects rest
      ((if c.objs.isEmpty then w.1 else (cid, c) :: w.1), w.2.1, w.2.2)

/-- `Grid::maintain` (src/grid.rs lines 225-244): the modify sweep, then
the drained `to_relocate` entries are pushed into the cell covering
their new position (`Self::cell_mut`; sparse, so no re-index callback). -/
def maintain (g : Grid O) : Grid O :=
  let z := cellsSweep g.objects g.cells
  { g with
    objects := z.2.1,
    cells := z.2.2.foldl
      (fun cs e => cellsPush cs (cellIdQ g.cellSize e.2) e) z.1 }

/-- `Grid::get` (src/grid.rs lines 265-267). -/
def get (g : Grid O) (h : ℕ) : Option ((ℚ × ℚ) × O) :=
  (alookup g.objects h).map (fun o => (o.pos, o.obj))

/-- A handle sits in the entry list of some dirty cell of `cs`, i.e. the
`maintain` sweep will run its record through `GridCell::maintain`. -/
def touchedIn (cs : List ((ℤ × ℤ) × GridCell)) (h : ℕ) : Prop :=
  ∃ ce ∈ cs, ce.2.dirty = true ∧ h ∈ ce.2.objs.map Prod.fst

/-- `Grid::query_raw` (src/grid.rs lines 365-377): every entry of every
allocated cell in the inclusive cell rectangle spanned by the two
corners. -/
def queryRaw (g : Grid O) (ll ur : ℚ × ℚ) : List (ℕ × (ℚ × ℚ)) :=
  (cellRange (cellIdQ g.cellSize ll) (cellIdQ g.cellSize ur)).flatMap
    (cellObjsAt g.cells)

/-- `Grid::query_around` (src/grid.rs lines 302-318): `query_raw` over
the square of half-width `radius` around `pos`, filtered by strict
squared distance. -/
def queryAround (g : Grid O) (pos : ℚ × ℚ) (radius : ℚ) :
    List (ℕ × (ℚ × ℚ)) :=
  (g.queryRaw (pos.1 - radius, pos.2 - radius)
      (pos.1 + radius, pos.2 + radius)).filter
    (fun e => decide
      ((e.2.1 - pos.1) * (e.2.1 - pos.1) + (e.2.2 - pos.2) * (e.2.2 - pos.2)
        < radius * radius))

/-- `Grid::len` (src/grid.rs lines 404-406). -/
def len (g : Grid O) : ℕ := g.objects.length

/-- Per-object state coherence: what `insert`/`set_position`/`maintain`
guarantee about the relation between an object's lifecycle state, its
`pos` and its `cell_id`. -/
def stateOk (s : ℤ) (o : StoreObject O) : Prop :=
  match o.state with
  | .unchanged => o.cellId = cellIdQ s o.pos
  | .newPos p => cellIdQ s p = o.cellId
  | .relocate p t => t = cellIdQ s p ∧ t ≠ o.cellId
  | .removed => True

/-- The well-formedness invariant of every reachable grid state. -/
structure Inv (g : Grid O) : Prop where
  cellSizePos : 0 < g.cellSize
  cellKeysNodup : (g.cells.map Prod.fst).Nodup
  objKeysNodup : (g.objects.map Prod.fst).Nodup
  handlesLt : ∀ h o, alookup g.objects h = some o → h < g.nextHandle
  entrySound : ∀ cid, ∀ e ∈ cellObjsAt g.cells cid,
    ∃ o, alookup g.objects e.1 = some o ∧ o.cellId = cid ∧ o.pos = e.2
  objComplete : ∀ h o, alookup g.objects h = some o →
    (h, o.pos) ∈ cellObjsAt g.cells o.cellId
  cellHandlesNodup : ∀ cid, ((cellObjsAt g.cells cid).map Prod.fst).Nodup
  staleDirty : ∀ h o, alookup g.objects h = some o →
    o.state ≠ .unchanged → dirtyAt g.cells o.cellId = true
  statesOk : ∀ h o, alookup g.objects h = some o → stateOk g.cellSize o
  cellsNonempty : ∀ cid c, alookup g.cells cid = some c → c.objs ≠ []

/-- A grid in a maintained state: every stored object's lifecycle state
is `Unchanged`, every object sits (with its authoritative position
cached) in the list of the cell covering its position, and every cell
entry mirrors a live object. -/
structure Maintained (g : Grid O) : Prop where
  cellSizePos : 0 < g.cellSize
  allUnchanged : ∀ h o, alookup g.objects h = some o →
    o.state = ObjectState.unchanged
  objCell : ∀ h o, alookup g.objects h = some o →
    o.cellId = cellIdQ g.cellSize o.pos
  objComplete : ∀ h o, alookup g.objects h = some o →
    (h, o.pos) ∈ cellObjsAt g.cells o.cellId
  entrySound : ∀ cid, ∀ e ∈ cellObjsAt g.cells cid,
    ∃ o, alookup g.objects e.1 = some o ∧ o.pos = e.2

/-- States reachable through the public API, starting from `Grid::new`
with a positive cell size (a non-positive one makes the very first
`cell_id` division panic in Rust). -/
inductive Reachable : Grid O → Prop where
  | new (s : ℤ) (hs : 0 < s) : Reachable (Grid.new O s)
  | insert {g : Grid O} (p : ℚ × ℚ) (o : O) :
      Reachable g → Reachable (Grid.insert g p o).1
  | setPosition {g g2 : Grid O} (h : ℕ) (p : ℚ × ℚ) :
      Reachable g → Grid.setPosition g h p = some g2 → Reachable g2
  | remove {g g2 : Grid O} (h : ℕ) :
      Reachable g → Grid.remove g h = some g2 → Reachable g2
  | maintain {g : Grid O} :
      Reachable g → Reachable (Grid.maintain g)

end Grid

/-! ## Bare storage constructors (`src/storage.rs`), for the claim about
`cell_size` validation -/

/-- `SparseStorage` (src/storage.rs lines 249-252). -/
structure SparseStorageM (T : Type) where
  cellSize : ℤ
  cells : List ((ℤ × ℤ) × T)

/-- `SparseStorage::new` (src/storage.rs lines 264-269): stores
`cell_size` as given, with no validation whatsoever. -/
def SparseStorageM.new (T : Type) (cellSize : ℤ) : SparseStorageM T :=
  ⟨cellSize, []⟩

/-- `DenseStorage` (src/storage.rs lines 29-36). -/
structure DenseStorageM (T : Type) where
  cellSize : ℤ
  startX : ℤ
  startY : ℤ
  width : ℤ
  height : ℤ
  cells : List T
deriving DecidableEq

/-- `DenseStorage::new` (src/storage.rs lines 74-83): stores `cell_size`
as given, with no validation whatsoever. -/
def DenseStorageM.new (T : Type) (cellSize : ℤ) : DenseStorageM T :=
  ⟨cellSize, 0, 0, 0, 0, []⟩

/-- `DenseStorage::new_rect` (src/storage.rs lines 49-63): the only
constructor that checks `cell_size`, via
`assert!(cell_size > 0, ..)`; the panic is modelled as `none`. -/
def DenseStorageM.newRect (T : Type) (default : T) (cellSize x y w h : ℤ) :
    Option (DenseStorageM T) :=
  if 0 < cellSize then
    some ⟨cellSize, x * cellSize, y * cellSize, w, h,
      List.replicate (w * h).toNat default⟩
  else none

/-- `DenseStorage::new_centered` (src/storage.rs lines 42-44). -/
def DenseStorageM.newCentered (T : Type) (default : T) (cellSize size : ℤ) :
    Option (DenseStorageM T) :=
  DenseStorageM.newRect T default cellSize (-size) (-size) (2 * size) (2 * size)

/-! ## The dense-storage point grid

The claims about the point grid quantify over both storage flavours.
`grid.rs` is generic over `Storage`; the definitions below instantiate
its `insert` and `query_around` at `DenseStorage<GridCell>`
(src/storage.rs lines 70-244).  `StoreObject` is the same generic record
as before with `Idx = usize`; only the operations needed by the claims
are instantiated. -/

/-- `StoreObject` with `Idx = usize`, as used by a dense-storage grid.
The `relocate` constructor of the shared `ObjectState` is never
constructed here. -/
structure DStoreObject (O : Type) where
  obj : O
  state : ObjectState
  pos : ℚ × ℚ
  cellId : ℕ
deriving DecidableEq

/-- `DenseStorage::cell_id` (src/storage.rs lines 195-199): a clamped
row-major flat index
`((y − start_y).max(0)/s · width + (x − start_x).max(0)/s).min(len)`. -/
def DenseStorageM.cellId (st : DenseStorageM GridCell) (p : ℚ × ℚ) : ℕ :=
  (min ((max (asI32 p.2 - st.startY) 0).tdiv st.cellSize * st.width
        + (max (asI32 p.1 - st.startX) 0).tdiv st.cellSize)
      (st.cells.length : ℤ)).toNat

/-- `Vec::resize_with(n, default)`: grow with defaults / truncate. -/
def resizeWith (l : List α) (n : ℕ) (default : α) : List α :=
  if n ≤ l.length then l.take n else l ++ List.replicate (n - l.length) default

/-- The first-allocation branch of `DenseStorage::cell_mut`
(src/storage.rs lines 98-105): re-base the origin on the inserted point
and allocate a single default cell. -/
def denseFirstAlloc (st0 : DenseStorageM GridCell) (p : ℚ × ℚ) :
    DenseStorageM GridCell :=
  if st0.width = 0 ∧ st0.height = 0 then
    { st0 with
      startX := (FlatSpatial.asI32 p.1).tdiv st0.cellSize * st0.cellSize,
      startY := (FlatSpatial.asI32 p.2).tdiv st0.cellSize * st0.cellSize,
      width := 1, height := 1, cells := [GridCell.default] }
  else st0

/-- The horizontal padding computation of `DenseStorage::cell_mut`
(src/storage.rs lines 119-128): returns
`(padleft, padright, start_x, width, reallocate)`. -/
def densePadHor (cellSize startX width x : ℤ) : ℤ × ℤ × ℤ × ℤ × Bool :=
  if x ≤ startX then
    let pl := 1 + (startX - x).tdiv cellSize
    (pl, 0, startX - cellSize * pl, width + pl, true)
  else if x ≥ startX + width * cellSize then
    let pr := 1 + (x - (startX + width * cellSize)).tdiv cellSize
    (0, pr, startX, width + pr, true)
  else (0, 0, startX, width, false)

/-- The vertical padding computation of `DenseStorage::cell_mut`
(src/storage.rs lines 130-143): returns
`(paddown, padup, start_y, height, cells, reallocate)`; the pad-up-only
case resizes in place instead of reallocating. -/
def densePadVert (cellSize startY height y : ℤ) (reallocX : Bool)
    (width2 : ℤ) (cells : List GridCell) :
    ℤ × ℤ × ℤ × ℤ × List GridCell × Bool :=
  if y ≤ startY then
    let pd := 1 + (startY - y).tdiv cellSize
    (pd, 0, startY - cellSize * pd, height + pd, cells, true)
  else if y ≥ startY + height * cellSize then
    let pu := 1 + (y - (startY + height * cellSize)).tdiv cellSize
    if reallocX then (0, pu, startY, height + pu, cells, true)
    else (0, pu, startY, height + pu,
      resizeWith cells (width2 * (height + pu)).toNat GridCell.default, false)
  else (0, 0, startY, height, cells, reallocX)

/-- The vector rebuild of `DenseStorage::cell_mut` (src/storage.rs lines
145-168): pad-down rows of defaults, then each old row framed by
pad-left/pad-right defaults, then pad-up rows. -/
def denseRebuild (width2 padleft padright paddown padup oldw oldh : ℤ)
    (cells2 : List GridCell) : List GridCell :=
  List.flatten (List.replicate paddown.toNat
      (List.replicate width2.toNat GridCell.default))
    ++ List.flatten ((List.range oldh.toNat).map (fun yy =>
        List.replicate padleft.toNat GridCell.default
          ++ (cells2.drop (yy * oldw.toNat)).take oldw.toNat
          ++ List.replicate padright.toNat GridCell.default))
    ++ List.flatten (List.replicate padup.toNat
        (List.replicate width2.toNat GridCell.default))

/-- `DenseStorage::cell_mut` (src/storage.rs lines 91-174): first
allocation re-bases the origin; growth pads the envelope by whole cells
and (when padding left, right or down) rebuilds the backing vector
row-by-row.  Returns the updated storage, the flat index covering `pos`
and whether the backing vector was rebuilt (i.e. whether the
`on_ids_changed` callback fired). -/
def DenseStorageM.cellMut (st0 : DenseStorageM GridCell) (p : ℚ × ℚ) :
    DenseStorageM GridCell × ℕ × Bool :=
  let st := denseFirstAlloc st0 p
  let hor := densePadHor st.cellSize st.startX st.width (FlatSpatial.asI32 p.1)
  let vert := densePadVert st.cellSize st.startY st.height
    (FlatSpatial.asI32 p.2) hor.2.2.2.2 hor.2.2.2.1 st.cells
  let reallocate := vert.2.2.2.2.2
  let cells3 :=
    if reallocate then
      denseRebuild hor.2.2.2.1 hor.1 hor.2.1 vert.1 vert.2.1
        (hor.2.2.2.1 - hor.1 - hor.2.1) (vert.2.2.2.1 - vert.1 - vert.2.1)
        vert.2.2.2.2.1
    else vert.2.2.2.2.1
  let st2 : DenseStorageM GridCell :=
    { st with startX := hor.2.2.1, startY := vert.2.2.1,
              width := hor.2.2.2.1, height := vert.2.2.2.1, cells := cells3 }
  (st2, st2.cellId p, reallocate)

/-- A point grid over `DenseStorage` (src/grid.rs lines 97-103
instantiated at `ST = DenseStorage<GridCell>`). -/
structure DGrid (O : Type) where
  storage : DenseStorageM GridCell
  objects : List (ℕ × DStoreObject O)
  nextHandle : ℕ
deriving DecidableEq

/-- `Grid::new` with dense storage. -/
def DGrid.new (O : Type) (cellSize : ℤ) : DGrid O :=
  ⟨DenseStorageM.new GridCell cellSize, [], 0⟩

/-- `Grid::insert` (src/grid.rs lines 143-159) with dense storage: the
`on_ids_changed` callback (src/grid.rs lines 127-131) recomputes every
record's `cell_id` from its stored position when the backing vector was
rebuilt, and the entry is pushed into `cells[idx]`. -/
def DGrid.insert (g : DGrid O) (pos : ℚ × ℚ) (obj : O) : DGrid O × ℕ :=
  let z := g.storage.cellMut pos
  let st2 := z.1
  let cid := z.2.1
  let objects2 :=
    if z.2.2 then
      g.objects.map (fun e => (e.1, { e.2 with cellId := st2.cellId e.2.pos }))
    else g.objects
  let h := g.nextHandle
  let st3 := { st2 with
    cells := st2.cells.set cid
      ⟨(st2.cells.getD cid GridCell.default).objs ++ [(h, pos)],
        (st2.cells.getD cid GridCell.default).dirty⟩ }
  (⟨st3, (h, ⟨obj, .unchanged, pos, cid⟩) :: objects2, h + 1⟩, h)

/-- One step of the `DenseIter` loop (src/storage.rs lines 227-244);
`diff` is carried as an integer: the Rust `usize` subtraction in
`1 + ur % w - ll % w` wraps on underflow, so a non-positive `diff` means
the `c == diff` reset never fires, which the integer comparison models.
The iterator's cursor strictly increases every step, so a fuel of
`ur + 1 - start` covers every terminating run. -/
def denseIterAux (w ur : ℕ) (diff : ℤ) : ℕ → ℕ → ℕ → List ℕ
  | 0, _, _ => []
  | fuel + 1, c, cur =>
    if cur > ur then []
    else
      cur ::
        (if ((c + 1 : ℕ) : ℤ) = diff then
          denseIterAux w ur diff fuel (c + 1) (cur + 1 - diff.toNat + w)
        else denseIterAux w ur diff fuel (c + 1) (cur + 1))

/-- `DenseStorage::cell_range` (src/storage.rs lines 184-193).  For
`w = 0` the Rust `ur % w` panics; that configuration is not reached by
any theorem below. -/
def denseCellRange (w : ℕ) (ll ur : ℕ) : List ℕ :=
  denseIterAux w ur (1 + (ur % w : ℤ) - (ll % w : ℤ)) (ur + 1 - ll) 0 ll

/-- `Grid::query_raw` with dense storage (src/grid.rs lines 365-377,
`DenseStorage::cell` is `cells.get(id)`). -/
def DGrid.queryRaw (g : DGrid O) (ll ur : ℚ × ℚ) : List (ℕ × (ℚ × ℚ)) :=
  (denseCellRange g.storage.width.toNat (g.storage.cellId ll)
      (g.storage.cellId ur)).flatMap
    (fun id => match g.storage.cells.get? id with
    | some c => c.objs
    | none => [])

/-- `Grid::query_around` with dense storage (src/grid.rs lines
302-318). -/
def DGrid.queryAround (g : DGrid O) (pos : ℚ × ℚ) (radius : ℚ) :
    List (ℕ × (ℚ × ℚ)) :=
  (g.queryRaw (pos.1 - radius, pos.2 - radius)
      (pos.1 + radius, pos.2 + radius)).filter
    (fun e => decide
      ((e.2.1 - pos.1) * (e.2.1 - pos.1) + (e.2.2 - pos.2) * (e.2.2 - pos.2)
        < radius * radius))

/-! ## Float value classes, for the claim about non-finite coordinates -/

/-- The value classes of an `f32` as far as the insert path observes
them. -/
inductive F32 where
  | finite (val : ℚ) : F32
  | nan : F32
  | posInf : F32
  | negInf : F32
deriving DecidableEq

/-- `f32::is_finite`. -/
def F32.isFinite : F32 → Bool
  | .finite _ => true
  | _ => false

/-- Rust's `f32 as i32` cast over all value classes: truncation toward
zero saturating at the `i32` bounds, with NaN mapped to 0. -/
def F32.asI32 : F32 → ℤ
  | .finite q => FlatSpatial.asI32 q
  | .nan => 0
  | .posInf => 2147483647
  | .negInf => -2147483648

/-- `SparseStorage::cell_id` over a full `f32` point. -/
def cellIdF (cellSize : ℤ) (p : F32 × F32) : ℤ × ℤ :=
  (i32Div p.1.asI32 cellSize, i32Div p.2.asI32 cellSize)

/-- The condition `DenseStorage::cell_mut` checks with `debug_assert!`
(src/storage.rs lines 95-96).  It is compiled out of release builds and
panics (rather than returning an error) in debug builds;
`SparseStorage::cell_mut` (src/storage.rs lines 276-282) has no
counterpart at all. -/
def denseCellMutDebugAssert (p : F32 × F32) : Bool :=
  p.1.isFinite && p.2.isFinite

/-- A sparse point grid whose coordinates keep their `f32` value class,
with just the state `insert` touches. -/
structure GridF (O : Type) where
  cellSize : ℤ
  cells : List ((ℤ × ℤ) × List (ℕ × (F32 × F32)))
  objects : List (ℕ × (O × ObjectState × (F32 × F32) × (ℤ × ℤ)))
  nextHandle : ℕ

/-- `Grid::new` over `F32` coordinates. -/
def GridF.new (O : Type) (cellSize : ℤ) : GridF O :=
  ⟨cellSize, [], [], 0⟩

/-- `entry(id).or_default()` followed by a push, over `F32` entries. -/
def cellsPushF (cells : List ((ℤ × ℤ) × List (ℕ × (F32 × F32))))
    (cid : ℤ × ℤ) (e : ℕ × (F32 × F32)) :
    List ((ℤ × ℤ) × List (ℕ × (F32 × F32))) :=
  match cells with
  | [] => [(cid, [e])]
  | (k, c) :: r =>
    if k = cid then (k, c ++ [e]) :: r else (k, c) :: cellsPushF r cid e

/-- `Grid::insert` (src/grid.rs lines 143-159) over the default sparse
storage, keeping the `f32` value classes: `SparseStorage::cell_mut`
performs no finiteness check, so the insert is total. -/
def GridF.insert (g : GridF O) (pos : F32 × F32) (obj : O) : GridF O × ℕ :=
  let cid := cellIdF g.cellSize pos
  let h := g.nextHandle
  (⟨g.cellSize,
    cellsPushF g.cells cid (h, pos),
    (h, (obj, .unchanged, pos, cid)) :: g.objects,
    h + 1⟩, h)

/-- `Grid::len` over `F32` coordinates. -/
def GridF.len (g : GridF O) : ℕ := g.objects.length

/-- `Grid::get` over `F32` coordinates. -/
def GridF.get (g : GridF O) (h : ℕ) : Option ((F32 × F32) × O) :=
  (alookup g.objects h).map (fun o => (o.2.2.1, o.1))

/-! ## The AABB grid (`src/aabbgrid.rs`)

`aabbgrid.rs` is written against a later revision of the storage module
(free function `cell_range`, one-argument `cell_mut`) that is not part
of this snapshot; the behaviour of those helpers is taken from the
`SparseStorage` implementation in src/storage.rs, which has the same
hash-map semantics (`cell_id` truncating projection, `entry.or_default`
allocation, inclusive row-major `cell_range`). -/

/-- An axis-aligned box, through the `AABB` trait's `ll()`/`ur()`
accessors (src/lib.rs). -/
structure Box where
  ll : ℚ × ℚ
  ur : ℚ × ℚ
deriving DecidableEq

/-- A cell of the AABB grid: `(handle, single_cell_flag)` entries
(src/cell.rs `AABBGridCell`, named `ShapeGridCell` in the older cell.rs
of this snapshot, lines 14-17). -/
structure AABBCell where
  objs : List (ℕ × Bool)
deriving DecidableEq

/-- `AABBGrid` (src/aabbgrid.rs lines 58-63). -/
structure AABBGrid (O : Type) where
  cellSize : ℤ
  cells : List ((ℤ × ℤ) × AABBCell)
  objects : List (ℕ × (Box × O))
  nextHandle : ℕ

namespace AABBGrid

variable {O : Type}

/-- `AABBGrid::new` (src/aabbgrid.rs lines 68-73). -/
def new (O : Type) (cellSize : ℤ) : AABBGrid O :=
  ⟨cellSize, [], [], 0⟩

/-- The entry list of the cell at `cid` (empty when unallocated). -/
def acellObjs (cells : List ((ℤ × ℤ) × AABBCell)) (cid : ℤ × ℤ) :
    List (ℕ × Bool) :=
  match alookup cells cid with
  | some c => c.objs
  | none => []

/-- `entry(id).or_default()` without a modification: allocates an empty
cell when missing (what `cell_mut` does to a corner it only reads). -/
def ensureCell (cells : List ((ℤ × ℤ) × AABBCell)) (cid : ℤ × ℤ) :
    List ((ℤ × ℤ) × AABBCell) :=
  match cells with
  | [] => [(cid, ⟨[]⟩)]
  | (k, c) :: r =>
    if k = cid then (k, c) :: r else (k, c) :: ensureCell r cid

/-- `cell_mut_unchecked(id).objs.push(e)` for the AABB cells. -/
def acellPush (cells : List ((ℤ × ℤ) × AABBCell)) (cid : ℤ × ℤ)
    (e : ℕ × Bool) : List ((ℤ × ℤ) × AABBCell) :=
  match cells with
  | [] => [(cid, ⟨[e]⟩)]
  | (k, c) :: r =>
    if k = cid then (k, ⟨c.objs ++ [e]⟩) :: r
    else (k, c) :: acellPush r cid e

/-- Replace the entry list of the cell at `cid` (the cell exists in
every use below). -/
def acellSetObjs (cells : List ((ℤ × ℤ) × AABBCell)) (cid : ℤ × ℤ)
    (objs : List (ℕ × Bool)) : List ((ℤ × ℤ) × AABBCell) :=
  aset cells cid ⟨objs⟩

/-- `Vec::swap_remove(p)`: replace element `p` with the last element and
pop (src/aabbgrid.rs lines 123 and 141).  Total model; every call site
has `p < l.length`. -/
def swapRemove (l : List α) (p : ℕ) : List α :=
  match l.getLast? with
  | none => l
  | some last => (l.set p last).dropLast

/-- `cells_apply` (src/aabbgrid.rs lines 270-280) specialised to a push:
allocate the two corner cells, then push `(h, ll == ur)` into every cell
of the inclusive range. -/
def insert (g : AABBGrid O) (b : Box) (obj : O) : AABBGrid O × ℕ :=
  let h := g.nextHandle
  let ll := cellIdQ g.cellSize b.ll
  let ur := cellIdQ g.cellSize b.ur
  let cs0 := ensureCell (ensureCell g.cells ll) ur
  let sing := decide (ll = ur)
  let cs := (cellRange ll ur).foldl (fun cs cid => acellPush cs cid (h, sing)) cs0
  (⟨g.cellSize, cs, (h, (b, obj)) :: g.objects, h + 1⟩, h)

/-- The eviction loop of `set_aabb` (src/aabbgrid.rs lines 117-124):
walks the old cell range; when the handle is missing from one of the
cells it RETURNS from the whole function (second component `false`),
leaving the grid partially updated. -/
def removeLoop (h : ℕ) :
    List (ℤ × ℤ) → List ((ℤ × ℤ) × AABBCell) →
    List ((ℤ × ℤ) × AABBCell) × Bool
  | [], cs => (cs, true)
  | cid :: rest, cs =>
    let cs1 := ensureCell cs cid
    match (acellObjs cs1 cid).findIdx? (fun e => e.1 = h) with
    | none => (cs1, false)
    | some p =>
      removeLoop h rest (acellSetObjs cs1 cid (swapRemove (acellObjs cs1 cid) p))

/-- `AABBGrid::set_aabb` (src/aabbgrid.rs lines 97-131).  The
`.expect(..)` panic on a dead handle is `none`; the stored bbox is
updated before the range comparison, matching the source order. -/
def setAABB (g : AABBGrid O) (h : ℕ) (b : Box) : Option (AABBGrid O) :=
  match alookup g.objects h with
  | none => none
  | some bo =>
    let oll := cellIdQ g.cellSize bo.1.ll
    let our := cellIdQ g.cellSize bo.1.ur
    let nll := cellIdQ g.cellSize b.ll
    let nur := cellIdQ g.cellSize b.ur
    let cs0 := ensureCell (ensureCell (ensureCell (ensureCell g.cells oll) our) nll) nur
    let objects2 := aset g.objects h (b, bo.2)
    if oll = nll ∧ our = nur then
      some { g with cells := cs0, objects := objects2 }
    else
      let z := removeLoop h (cellRange oll our) cs0
      if z.2 then
        let sing := decide (nll = nur)
        some { g with
               objects := objects2,
               cells := (cellRange nll nur).foldl
                 (fun cs cid => acellPush cs cid (h, sing)) z.1 }
      else some { g with objects := objects2, cells := z.1 }

/-- `AABBGrid::remove` (src/aabbgrid.rs lines 134-148): `None` on a dead
handle; otherwise evict the first matching entry from every covered
cell (the `cells_apply` closure) and release the record. -/
def remove (g : AABBGrid O) (h : ℕ) : Option (O × AABBGrid O) :=
  match alookup g.objects h with
  | none => none
  | some bo =>
    let objects2 := aremove g.objects h
    let ll := cellIdQ g.cellSize bo.1.ll
    let ur := cellIdQ g.cellSize bo.1.ur
    let cs0 := ensureCell (ensureCell g.cells ll) ur
    let cs := (cellRange ll ur).foldl (fun cs cid =>
      let cs1 := ensureCell cs cid
      match (acellObjs cs1 cid).findIdx? (fun e => e.1 = h) with
      | none => cs1
      | some p => acellSetObjs cs1 cid (swapRemove (acellObjs cs1 cid) p)) cs0
    some (bo.2, { g with objects := objects2, cells := cs })

/-- The concatenated entry stream a broad query walks (src/aabbgrid.rs
lines 195-197): every entry of every allocated cell in the query cell
range. -/
def stream (g : AABBGrid O) (llid urid : ℤ × ℤ) : List (ℕ × Bool) :=
  (cellRange llid urid).flatMap (acellObjs g.cells)

/-- `QueryIter::Dedup` (src/aabbgrid.rs lines 287-306): `single_cell`
entries are emitted directly, others through the `seen` hash set. -/
def dedupRun (seen : List ℕ) : List (ℕ × Bool) → List ℕ
  | [] => []
  | (v, sing) :: rest =>
    if sing then v :: dedupRun seen rest
    else if v ∈ seen then dedupRun seen rest
    else v :: dedupRun (v :: seen) rest

/-- `AABBGrid::query_broad` (src/aabbgrid.rs lines 189-207). -/
def queryBroad (g : AABBGrid O) (b : Box) : List ℕ :=
  let llid := cellIdQ g.cellSize b.ll
  let urid := cellIdQ g.cellSize b.ur
  if llid = urid then (stream g llid urid).map Prod.fst
  else dedupRun [] (stream g llid urid)

/-- `AABBGrid::query_broad_visitor` (src/aabbgrid.rs lines 223-257),
returning the list of visited handles; `none` models the
`storage.cell(ll_id).unwrap()` panic when the single covering cell was
never allocated.  The multi-cell loop (y outer, x inner, skipping
missing cells, same flag handling) visits exactly the `dedupRun`
emissions over the stream. -/
def queryBroadVisitor (g : AABBGrid O) (b : Box) : Option (List ℕ) :=
  let llid := cellIdQ g.cellSize b.ll
  let urid := cellIdQ g.cellSize b.ur
  if llid = urid then
    match alookup g.cells llid with
    | none => none
    | some cell => some (cell.objs.map Prod.fst)
  else some (dedupRun [] (stream g llid urid))

/-- Whether the stored box of each live handle covers a single cell. -/
def singleOf (g : AABBGrid O) (b : Box) : Bool :=
  decide (cellIdQ g.cellSize b.ll = cellIdQ g.cellSize b.ur)

/-- The cell range covered by a stored box. -/
def rangeOf (g : AABBGrid O) (b : Box) : List (ℤ × ℤ) :=
  cellRange (cellIdQ g.cellSize b.ll) (cellIdQ g.cellSize b.ur)

/-- Well-formedness of an AABB grid state: entries of a handle sit
exactly once in each cell of its stored box's range, flagged with
whether that range is a single cell; every entry belongs to a live
record. -/
structure InvA (g : AABBGrid O) : Prop where
  cellSizePos : 0 < g.cellSize
  cellKeysNodup : (g.cells.map Prod.fst).Nodup
  objKeysNodup : (g.objects.map Prod.fst).Nodup
  handlesLt : ∀ h bo, alookup g.objects h = some bo → h < g.nextHandle
  entrySound : ∀ cid, ∀ e ∈ acellObjs g.cells cid,
    ∃ bo, alookup g.objects e.1 = some bo ∧ cid ∈ rangeOf g bo.1 ∧
      e.2 = singleOf g bo.1
  objComplete : ∀ h bo, alookup g.objects h = some bo →
    ∀ cid ∈ rangeOf g bo.1, (h, singleOf g bo.1) ∈ acellObjs g.cells cid
  cellHandlesNodup : ∀ cid, ((acellObjs g.cells cid).map Prod.fst).Nodup

/-- AABB grid states reachable through the public API. -/
inductive ReachableA : AABBGrid O → Prop where
  | new (s : ℤ) (hs : 0 < s) : ReachableA (AABBGrid.new O s)
  | insert {g : AABBGrid O} (b : Box) (o : O) :
      ReachableA g → ReachableA (AABBGrid.insert g b o).1
  | setAABB {g g2 : AABBGrid O} (h : ℕ) (b : Box) :
      ReachableA g → AABBGrid.setAABB g h b = some g2 → ReachableA g2
  | remove {g g2 : AABBGrid O} (h : ℕ) (o : O) :
      ReachableA g → AABBGrid.remove g h = some (o, g2) → ReachableA g2

end AABBGrid

/-! ## Concrete states used by the claim analyses -/

/-- A point grid holding one object, then maintained: the smallest
maintained state with content. -/
def gMaintW : Grid ℕ := Grid.maintain ((Grid.new ℕ 10).insert (5, 3) 0).1

/-- A point grid with cell size 10 holding one object at the origin. -/
def gC4 : Grid ℕ := ((Grid.new ℕ 10).insert (0, 0) 5).1

/-- A point grid with cell size 10 holding one object at `(1, 2)`. -/
def gC9 : Grid ℕ := ((Grid.new ℕ 10).insert (1, 2) 42).1

/-- An AABB grid with cell size 10 holding one two-cell box. -/
def gAq : AABBGrid ℕ := (AABBGrid.insert (AABBGrid.new ℕ 10) ⟨(0, 0), (15, 0)⟩ 7).1

/-- The dense storage reached by inserting points `(5,5)` and `(15,5)` into
a fresh `DenseStorage` grid of cell size 10: origin rebased to 0, two cells
wide, one high. -/
def dstoreC2 : DenseStorageM GridCell :=
  ⟨10, 0, 0, 2, 1, [⟨[(0, (5, 5))], false⟩, ⟨[(1, (15, 5))], false⟩]⟩

/-- The dense-storage grid with objects 0 at `(5,5)` and 1 at `(15,5)`. -/
def dgC2e : DGrid ℕ :=
  ⟨dstoreC2,
   [(1, ⟨101, .unchanged, (15, 5), 1⟩), (0, ⟨100, .unchanged, (5, 5), 0⟩)], 2⟩

/-- The same dense grid, built through the public API. -/
def dgC2 : DGrid ℕ :=
  (((DGrid.new ℕ 10).insert (5, 5) 100).1.insert (15, 5) 101).1

/-! ## Lemmas: association lists -/

section AListLemmas

variable {κ : Type} {α : Type} [DecidableEq κ]

theorem alookup_nil (k : κ) : alookup ([] : List (κ × α)) k = none := rfl

theorem alookup_cons (k : κ) (v : α) (r : List (κ × α)) (k2 : κ) :
    alookup ((k, v) :: r) k2 = if k = k2 then some v else alookup r k2 := rfl

theorem alookup_eq_none {l : List (κ × α)} {k : κ} :
    alookup l k = none ↔ k ∉ l.map Prod.fst := by
  induction l with
  | nil => simp [alookup]
  | cons e r ih =>
    obtain ⟨k1, v1⟩ := e
    by_cases hk : k1 = k
    · subst hk
      simp [alookup]
    · simp only [alookup_cons, hk, if_false, List.map_cons, List.mem_cons, ih]
      constructor
      · rintro h (h1 | h1)
        · exact hk h1.symm
        · exact h h1
      · intro h h1
        exact h (Or.inr h1)

theorem alookup_mem {l : List (κ × α)} {k : κ} {v : α}
    (h : alookup l k = some v) : (k, v) ∈ l := by
  induction l with
  | nil => simp [alookup] at h
  | cons e r ih =>
    obtain ⟨k1, v1⟩ := e
    by_cases hk : k1 = k
    · subst hk
      simp [alookup] at h
      simp [h]
    · simp [alookup, hk] at h
      exact List.mem_cons_of_mem _ (ih h)

theorem mem_alookup {l : List (κ × α)} {k : κ} {v : α}
    (hnd : (l.map Prod.fst).Nodup) (h : (k, v) ∈ l) : alookup l k = some v := by
  induction l with
  | nil => simp at h
  | cons e r ih =>
    obtain ⟨k1, v1⟩ := e
    simp only [List.map_cons, List.nodup_cons] at hnd
    rcases List.mem_cons.1 h with h1 | h1
    · cases h1
      simp [alookup]
    · have hk : k1 ≠ k := by
        rintro rfl
        exact hnd.1 (List.mem_map.2 ⟨(k1, v), h1, rfl⟩)
      simp [alookup, hk]
      exact ih hnd.2 h1

theorem alookup_isSome {l : List (κ × α)} {k : κ} :
    (alookup l k).isSome ↔ k ∈ l.map Prod.fst := by
  rcases h : alookup l k with _ | v
  · simp [alookup_eq_none.1 h]
  · simp only [Option.isSome_some, true_iff]
    exact List.mem_map.2 ⟨(k, v), alookup_mem h, rfl⟩

theorem aset_map_fst (l : List (κ × α)) (k : κ) (v : α) :
    (aset l k v).map Prod.fst = l.map Prod.fst := by
  induction l with
  | nil => rfl
  | cons e r ih =>
    obtain ⟨k1, v1⟩ := e
    by_cases hk : k1 = k <;> simp [aset, hk, ih]

theorem aset_cons (k1 : κ) (v1 : α) (r : List (κ × α)) (k : κ) (v : α) :
    aset ((k1, v1) :: r) k v =
      if k1 = k then (k1, v) :: r else (k1, v1) :: aset r k v := rfl

theorem aremove_cons (k1 : κ) (v1 : α) (r : List (κ × α)) (k : κ) :
    aremove ((k1, v1) :: r) k =
      if k1 = k then r else (k1, v1) :: aremove r k := rfl

theorem alookup_aset (l : List (κ × α)) (k : κ) (v : α) (k2 : κ) :
    alookup (aset l k v) k2 =
      if k2 = k then (alookup l k).map (fun _ => v) else alookup l k2 := by
  induction l with
  | nil => by_cases h : k2 = k <;> simp [aset, alookup, h]
  | cons e r ih =>
    obtain ⟨k1, v1⟩ := e
    by_cases hk : k1 = k
    · subst hk
      by_cases h2 : k2 = k1
      · subst h2
        simp [aset_cons, alookup_cons]
      · simp [aset_cons, alookup_cons, h2, Ne.symm h2]
    · by_cases h2 : k1 = k2
      · subst h2
        simp [aset_cons, alookup_cons, hk, Ne.symm hk]
      · simp [aset_cons, alookup_cons, hk, h2, ih]

theorem aremove_sublist (l : List (κ × α)) (k : κ) :
    (aremove l k).Sublist l := by
  induction l with
  | nil => simp [aremove]
  | cons e r ih =>
    obtain ⟨k1, v1⟩ := e
    rw [aremove_cons]
    by_cases hk : k1 = k
    · rw [if_pos hk]
      exact List.sublist_cons_self _ _
    · rw [if_neg hk]
      exact ih.cons₂ _

theorem aremove_map_fst_sublist (l : List (κ × α)) (k : κ) :
    ((aremove l k).map Prod.fst).Sublist (l.map Prod.fst) :=
  (aremove_sublist l k).map Prod.fst

theorem alookup_aremove {l : List (κ × α)} (hnd : (l.map Prod.fst).Nodup)
    (k k2 : κ) :
    alookup (aremove l k) k2 = if k2 = k then none else alookup l k2 := by
  induction l with
  | nil => by_cases h : k2 = k <;> simp [aremove, alookup, h]
  | cons e r ih =>
    obtain ⟨k1, v1⟩ := e
    simp only [List.map_cons, List.nodup_cons] at hnd
    rw [aremove_cons]
    by_cases hk : k1 = k
    · subst hk
      by_cases h2 : k2 = k1
      · subst h2
        simp [alookup_eq_none.2 hnd.1]
      · simp [alookup_cons, Ne.symm h2, h2]
    · rw [if_neg hk]
      by_cases h2 : k1 = k2
      · subst h2
        simp [alookup_cons, hk, Ne.symm hk]
      · simp [alookup_cons, h2, ih hnd.2]

theorem aset_mem {l : List (κ × α)} {k : κ} {v : α} {e : κ × α}
    (h : e ∈ aset l k v) : e ∈ l ∨ e = (k, v) := by
  induction l with
  | nil => simp [aset] at h
  | cons e1 r ih =>
    obtain ⟨k1, v1⟩ := e1
    rw [aset_cons] at h
    by_cases hk : k1 = k
    · rw [if_pos hk] at h
      rcases List.mem_cons.1 h with h | h
      · right
        rw [h, hk]
      · left
        exact List.mem_cons_of_mem _ h
    · rw [if_neg hk] at h
      rcases List.mem_cons.1 h with h | h
      · left
        simp [h]
      · rcases ih h with h1 | h1
        · left
          exact List.mem_cons_of_mem _ h1
        · right
          exact h1

end AListLemmas

/-! ## Lemmas: integer ranges and cell rectangles -/

theorem mem_rangeInt {a b x : ℤ} : x ∈ rangeInt a b ↔ a ≤ x ∧ x ≤ b := by
  unfold rangeInt
  simp only [List.mem_map, List.mem_range]
  constructor
  · rintro ⟨i, hi, rfl⟩
    omega
  · rintro ⟨h1, h2⟩
    exact ⟨(x - a).toNat, by omega, by omega⟩

theorem rangeInt_nodup (a b : ℤ) : (rangeInt a b).Nodup := by
  unfold rangeInt
  exact (List.nodup_range _).map (fun i j hij => by omega)

theorem mem_cellRange {ll ur c : ℤ × ℤ} :
    c ∈ cellRange ll ur ↔ ll.1 ≤ c.1 ∧ c.1 ≤ ur.1 ∧ ll.2 ≤ c.2 ∧ c.2 ≤ ur.2 := by
  unfold cellRange
  simp only [List.mem_flatMap, List.mem_map]
  constructor
  · rintro ⟨y, hy, x, hx, rfl⟩
    have h1 := mem_rangeInt.1 hy
    have h2 := mem_rangeInt.1 hx
    exact ⟨h2.1, h2.2, h1.1, h1.2⟩
  · rintro ⟨h1, h2, h3, h4⟩
    exact ⟨c.2, mem_rangeInt.2 ⟨h3, h4⟩, c.1, mem_rangeInt.2 ⟨h1, h2⟩, rfl⟩

theorem cellRange_nodup (ll ur : ℤ × ℤ) : (cellRange ll ur).Nodup := by
  unfold cellRange
  refine List.nodup_flatMap.2 ⟨?_, ?_⟩
  · intro y _
    refine List.Nodup.map ?_ (rangeInt_nodup _ _)
    intro i j hij
    exact congrArg Prod.fst hij
  · refine (rangeInt_nodup ll.2 ur.2).imp ?_
    intro y1 y2 hne c h1 h2
    rcases List.mem_map.1 h1 with ⟨x1, _, rfl⟩
    rcases List.mem_map.1 h2 with ⟨x2, _, h⟩
    exact hne (congrArg Prod.snd h.symm)

/-! ## Lemmas: cell maps of the point grid -/

namespace Grid

theorem cellObjsAt_cons (k : ℤ × ℤ) (c : GridCell)
    (r : List ((ℤ × ℤ) × GridCell)) (cid : ℤ × ℤ) :
    cellObjsAt ((k, c) :: r) cid =
      if k = cid then c.objs else cellObjsAt r cid := by
  unfold cellObjsAt
  rw [alookup_cons]
  by_cases h : k = cid <;> simp [h]

theorem dirtyAt_cons (k : ℤ × ℤ) (c : GridCell)
    (r : List ((ℤ × ℤ) × GridCell)) (cid : ℤ × ℤ) :
    dirtyAt ((k, c) :: r) cid =
      if k = cid then c.dirty else dirtyAt r cid := by
  unfold dirtyAt
  rw [alookup_cons]
  by_cases h : k = cid <;> simp [h]

theorem alookup_cellsPush (cs : List ((ℤ × ℤ) × GridCell)) (cid : ℤ × ℤ)
    (e : ℕ × (ℚ × ℚ)) (cid2 : ℤ × ℤ) :
    alookup (cellsPush cs cid e) cid2 =
      if cid2 = cid then some ⟨cellObjsAt cs cid ++ [e], dirtyAt cs cid⟩
      else alookup cs cid2 := by
  induction cs with
  | nil =>
    by_cases h : cid2 = cid
    · subst h
      simp [cellsPush, alookup, cellObjsAt, dirtyAt]
    · simp [cellsPush, alookup, h, Ne.symm h]
  | cons ce r ih =>
    obtain ⟨k, c⟩ := ce
    by_cases hk : k = cid
    · subst hk
      by_cases h2 : cid2 = k
      · subst h2
        simp [cellsPush, alookup_cons, cellObjsAt, dirtyAt]
      · simp [cellsPush, alookup_cons, h2, Ne.symm h2]
    · by_cases h2 : k = cid2
      · subst h2
        simp [cellsPush, alookup_cons, hk, Ne.symm hk, cellObjsAt_cons,
          dirtyAt_cons]
      · simp [cellsPush, alookup_cons, hk, h2, ih, cellObjsAt_cons,
          dirtyAt_cons]

theorem cellObjsAt_cellsPush (cs : List ((ℤ × ℤ) × GridCell)) (cid : ℤ × ℤ)
    (e : ℕ × (ℚ × ℚ)) (cid2 : ℤ × ℤ) :
    cellObjsAt (cellsPush cs cid e) cid2 =
      if cid2 = cid then cellObjsAt cs cid ++ [e] else cellObjsAt cs cid2 := by
  unfold cellObjsAt
  rw [alookup_cellsPush]
  by_cases h : cid2 = cid <;> simp [h, cellObjsAt]

theorem dirtyAt_cellsPush (cs : List ((ℤ × ℤ) × GridCell)) (cid : ℤ × ℤ)
    (e : ℕ × (ℚ × ℚ)) (cid2 : ℤ × ℤ) :
    dirtyAt (cellsPush cs cid e) cid2 = dirtyAt cs cid2 := by
  unfold dirtyAt
  rw [alookup_cellsPush]
  by_cases h : cid2 = cid
  · subst h
    simp [dirtyAt]
  · simp [h]

theorem cellsPush_map_fst (cs : List ((ℤ × ℤ) × GridCell)) (cid : ℤ × ℤ)
    (e : ℕ × (ℚ × ℚ)) :
    (cellsPush cs cid e).map Prod.fst =
      if cid ∈ cs.map Prod.fst then cs.map Prod.fst
      else cs.map Prod.fst ++ [cid] := by
  induction cs with
  | nil => simp [cellsPush]
  | cons ce r ih =>
    obtain ⟨k, c⟩ := ce
    by_cases hk : k = cid
    · subst hk
      simp [cellsPush]
    · simp only [cellsPush, if_neg hk, List.map_cons, ih]
      by_cases h2 : cid ∈ r.map Prod.fst <;>
        simp [h2, hk, Ne.symm hk]

theorem cellsPush_keys_nodup {cs : List ((ℤ × ℤ) × GridCell)}
    (hnd : (cs.map Prod.fst).Nodup) (cid : ℤ × ℤ) (e : ℕ × (ℚ × ℚ)) :
    ((cellsPush cs cid e).map Prod.fst).Nodup := by
  rw [cellsPush_map_fst]
  by_cases h : cid ∈ cs.map Prod.fst
  · simpa [h]
  · simp [h, hnd, List.nodup_append]

theorem alookup_cellsMarkDirty (cs : List ((ℤ × ℤ) × GridCell))
    (cid cid2 : ℤ × ℤ) :
    alookup (cellsMarkDirty cs cid) cid2 =
      if cid2 = cid then some ⟨cellObjsAt cs cid, true⟩
      else alookup cs cid2 := by
  induction cs with
  | nil =>
    by_cases h : cid2 = cid
    · subst h
      simp [cellsMarkDirty, alookup, cellObjsAt]
    · simp [cellsMarkDirty, alookup, h, Ne.symm h]
  | cons ce r ih =>
    obtain ⟨k, c⟩ := ce
    by_cases hk : k = cid
    · subst hk
      by_cases h2 : cid2 = k
      · subst h2
        simp [cellsMarkDirty, alookup_cons, cellObjsAt]
      · simp [cellsMarkDirty, alookup_cons, h2, Ne.symm h2]
    · by_cases h2 : k = cid2
      · subst h2
        simp [cellsMarkDirty, alookup_cons, hk, Ne.symm hk, cellObjsAt_cons]
      · simp [cellsMarkDirty, alookup_cons, hk, h2, ih, cellObjsAt_cons]

theorem cellObjsAt_cellsMarkDirty (cs : List ((ℤ × ℤ) × GridCell))
    (cid cid2 : ℤ × ℤ) :
    cellObjsAt (cellsMarkDirty cs cid) cid2 = cellObjsAt cs cid2 := by
  unfold cellObjsAt
  rw [alookup_cellsMarkDirty]
  by_cases h : cid2 = cid
  · subst h
    simp [cellObjsAt]
  · simp [h]

theorem dirtyAt_cellsMarkDirty (cs : List ((ℤ × ℤ) × GridCell))
    (cid cid2 : ℤ × ℤ) :
    dirtyAt (cellsMarkDirty cs cid) cid2 =
      if cid2 = cid then true else dirtyAt cs cid2 := by
  unfold dirtyAt
  rw [alookup_cellsMarkDirty]
  by_cases h : cid2 = cid <;> simp [h]

theorem cellsMarkDirty_map_fst (cs : List ((ℤ × ℤ) × GridCell))
    (cid : ℤ × ℤ) :
    (cellsMarkDirty cs cid).map Prod.fst =
      if cid ∈ cs.map Prod.fst then cs.map Prod.fst
      else cs.map Prod.fst ++ [cid] := by
  induction cs with
  | nil => simp [cellsMarkDirty]
  | cons ce r ih =>
    obtain ⟨k, c⟩ := ce
    by_cases hk : k = cid
    · subst hk
      simp [cellsMarkDirty]
    · simp only [cellsMarkDirty, if_neg hk, List.map_cons, ih]
      by_cases h2 : cid ∈ r.map Prod.fst <;>
        simp [h2, hk, Ne.symm hk]

theorem cellsMarkDirty_keys_nodup {cs : List ((ℤ × ℤ) × GridCell)}
    (hnd : (cs.map Prod.fst).Nodup) (cid : ℤ × ℤ) :
    ((cellsMarkDirty cs cid).map Prod.fst).Nodup := by
  rw [cellsMarkDirty_map_fst]
  by_cases h : cid ∈ cs.map Prod.fst
  · simpa [h]
  · simp [h, hnd, List.nodup_append]

/-! ## Lemmas: invariant preservation by the eager operations -/

variable {O : Type}

theorem inv_handle_lt {g : Grid O} (hg : Inv g) {k : ℕ}
    (hk : k ∈ g.objects.map Prod.fst) : k < g.nextHandle := by
  rcases Option.isSome_iff_exists.1 (alookup_isSome.2 hk) with ⟨o, ho⟩
  exact hg.handlesLt k o ho

theorem inv_new (hs : 0 < (s : ℤ)) : Inv (Grid.new O s) := by
  refine ⟨hs, ?_, ?_, ?_, ?_, ?_, ?_, ?_, ?_, ?_⟩ <;>
    simp [Grid.new, alookup, cellObjsAt, dirtyAt]

theorem insert_def (g : Grid O) (p : ℚ × ℚ) (o : O) :
    Grid.insert g p o =
      (⟨g.cellSize,
        cellsPush g.cells (cellIdQ g.cellSize p) (g.nextHandle, p),
        (g.nextHandle, ⟨o, .unchanged, p, cellIdQ g.cellSize p⟩) :: g.objects,
        g.nextHandle + 1⟩, g.nextHandle) := rfl

theorem inv_insert {g : Grid O} (hg : Inv g) (p : ℚ × ℚ) (o : O) :
    Inv (Grid.insert g p o).1 := by
  rw [insert_def]
  dsimp only
  set cid := cellIdQ g.cellSize p with hcid
  set ob0 : StoreObject O := ⟨o, .unchanged, p, cid⟩ with hob0
  have hfresh : g.nextHandle ∉ g.objects.map Prod.fst := by
    intro hmem
    exact lt_irrefl _ (inv_handle_lt hg hmem)
  have hlook : ∀ k, k ≠ g.nextHandle →
      alookup ((g.nextHandle, ob0) :: g.objects) k = alookup g.objects k := by
    intro k hk
    rw [alookup_cons, if_neg (Ne.symm hk)]
  have hentrylt : ∀ cid2, ∀ e ∈ cellObjsAt g.cells cid2, e.1 < g.nextHandle := by
    intro cid2 e he
    rcases hg.entrySound cid2 e he with ⟨ob, hob, -, -⟩
    exact hg.handlesLt _ _ hob
  refine ⟨hg.cellSizePos, cellsPush_keys_nodup hg.cellKeysNodup _ _, ?_, ?_,
    ?_, ?_, ?_, ?_, ?_, ?_⟩
  · exact List.nodup_cons.2 ⟨hfresh, hg.objKeysNodup⟩
  · intro h ob hob
    rw [alookup_cons] at hob
    show h < g.nextHandle + 1
    by_cases hh : g.nextHandle = h
    · omega
    · rw [if_neg hh] at hob
      have := hg.handlesLt h ob hob
      omega
  · intro cid2 e he
    rw [cellObjsAt_cellsPush] at he
    by_cases h2 : cid2 = cid
    · rw [if_pos h2] at he
      rcases List.mem_append.1 he with he | he
      · rcases hg.entrySound cid e he with ⟨ob, hob, hc, hp2⟩
        have hne : e.1 ≠ g.nextHandle := by
          have := hg.handlesLt _ _ hob
          omega
        exact ⟨ob, by rw [hlook _ hne]; exact hob, h2 ▸ hc, hp2⟩
      · simp only [List.mem_singleton] at he
        subst he
        exact ⟨ob0, by rw [alookup_cons, if_pos rfl], h2.symm, rfl⟩
    · rw [if_neg h2] at he
      rcases hg.entrySound cid2 e he with ⟨ob, hob, hc, hp2⟩
      have hne : e.1 ≠ g.nextHandle := by
        have := hg.handlesLt _ _ hob
        omega
      exact ⟨ob, by rw [hlook _ hne]; exact hob, hc, hp2⟩
  · intro h ob hob
    rw [alookup_cons] at hob
    rw [cellObjsAt_cellsPush]
    by_cases hh : g.nextHandle = h
    · rw [if_pos hh] at hob
      cases hob
      rw [if_pos rfl]
      refine List.mem_append_right _ ?_
      simp [hh]
    · rw [if_neg hh] at hob
      have := hg.objComplete h ob hob
      by_cases h2 : ob.cellId = cid
      · rw [if_pos h2]
        exact List.mem_append_left _ (h2 ▸ this)
      · rw [if_neg h2]
        exact this
  · intro cid2
    rw [cellObjsAt_cellsPush]
    by_cases h2 : cid2 = cid
    · rw [if_pos h2, List.map_append]
      refine List.Nodup.append (hg.cellHandlesNodup cid) (by simp) ?_
      intro a ha hb
      simp only [List.map_cons, List.map_nil, List.mem_singleton] at hb
      rcases List.mem_map.1 ha with ⟨e, he, rfl⟩
      have := hentrylt cid e he
      omega
    · rw [if_neg h2]
      exact hg.cellHandlesNodup cid2
  · intro h ob hob hstale
    rw [alookup_cons] at hob
    rw [dirtyAt_cellsPush]
    by_cases hh : g.nextHandle = h
    · rw [if_pos hh] at hob
      cases hob
      simp at hstale
    · rw [if_neg hh] at hob
      exact hg.staleDirty h ob hob hstale
  · intro h ob hob
    rw [alookup_cons] at hob
    by_cases hh : g.nextHandle = h
    · rw [if_pos hh] at hob
      cases hob
      exact rfl
    · rw [if_neg hh] at hob
      exact hg.statesOk h ob hob
  · intro cid2 c hc
    rw [alookup_cellsPush] at hc
    by_cases h2 : cid2 = cid
    · rw [if_pos h2] at hc
      cases hc
      simp
    · rw [if_neg h2] at hc
      exact hg.cellsNonempty cid2 c hc


theorem setPosition_some {g : Grid O} {h : ℕ} {p : ℚ × ℚ} {obj : StoreObject O}
    (hobj : alookup g.objects h = some obj) :
    Grid.setPosition g h p = some
      { g with
        objects := aset g.objects h
          (if obj.state = .removed then obj
           else { obj with
                  state := if cellIdQ g.cellSize p = obj.cellId
                           then .newPos p else .relocate p (cellIdQ g.cellSize p) }),
        cells := cellsMarkDirty g.cells obj.cellId } := by
  unfold Grid.setPosition
  rw [hobj]

theorem inv_setPosition {g g2 : Grid O} (hg : Inv g) {h : ℕ} {p : ℚ × ℚ}
    (hset : Grid.setPosition g h p = some g2) : Inv g2 := by
  rcases hobj : alookup g.objects h with _ | obj
  · unfold Grid.setPosition at hset
    rw [hobj] at hset
    cases hset
  · rw [setPosition_some hobj] at hset
    cases hset
    set obj2 := (if obj.state = .removed then obj
      else { obj with
             state := if cellIdQ g.cellSize p = obj.cellId
                      then .newPos p else .relocate p (cellIdQ g.cellSize p) })
      with hobj2
    have hpos : obj2.pos = obj.pos := by
      rw [hobj2]
      split <;> rfl
    have hcell : obj2.cellId = obj.cellId := by
      rw [hobj2]
      split <;> rfl
    have hlook : ∀ k, alookup (aset g.objects h obj2) k =
        if k = h then some obj2 else alookup g.objects k := by
      intro k
      rw [alookup_aset]
      by_cases hk : k = h
      · simp [hk, hobj]
      · simp [hk]
    refine ⟨hg.cellSizePos, cellsMarkDirty_keys_nodup hg.cellKeysNodup _, ?_,
      ?_, ?_, ?_, ?_, ?_, ?_, ?_⟩
    · rw [aset_map_fst]
      exact hg.objKeysNodup
    · intro k ob hob
      rw [hlook] at hob
      by_cases hk : k = h
      · rw [if_pos hk] at hob
        cases hob
        exact hk ▸ hg.handlesLt h obj hobj
      · rw [if_neg hk] at hob
        exact hg.handlesLt k ob hob
    · intro cid2 e he
      rw [cellObjsAt_cellsMarkDirty] at he
      rcases hg.entrySound cid2 e he with ⟨ob, hob, hc, hp2⟩
      rw [hlook]
      by_cases hk : e.1 = h
      · rw [if_pos hk]
        rw [hk, hobj] at hob
        cases hob
        exact ⟨obj2, rfl, hcell ▸ hc, hpos ▸ hp2⟩
      · rw [if_neg hk]
        exact ⟨ob, hob, hc, hp2⟩
    · intro k ob hob
      rw [hlook] at hob
      rw [cellObjsAt_cellsMarkDirty]
      by_cases hk : k = h
      · rw [if_pos hk] at hob
        cases hob
        rw [hpos, hcell, hk]
        exact hg.objComplete h obj hobj
      · rw [if_neg hk] at hob
        exact hg.objComplete k ob hob
    · intro cid2
      rw [cellObjsAt_cellsMarkDirty]
      exact hg.cellHandlesNodup cid2
    · intro k ob hob hstale
      rw [hlook] at hob
      rw [dirtyAt_cellsMarkDirty]
      by_cases hk : k = h
      · rw [if_pos hk] at hob
        cases hob
        rw [hcell]
        simp
      · rw [if_neg hk] at hob
        by_cases hc2 : ob.cellId = obj.cellId
        · simp [hc2]
        · rw [if_neg hc2]
          exact hg.staleDirty k ob hob hstale
    · intro k ob hob
      rw [hlook] at hob
      by_cases hk : k = h
      · rw [if_pos hk] at hob
        cases hob
        rw [hobj2]
        by_cases hrem : obj.state = .removed
        · rw [if_pos hrem]
          exact hg.statesOk h obj hobj
        · rw [if_neg hrem]
          by_cases htgt : cellIdQ g.cellSize p = obj.cellId
          · rw [if_pos htgt]
            exact htgt
          · rw [if_neg htgt]
            exact ⟨rfl, htgt⟩
      · rw [if_neg hk] at hob
        exact hg.statesOk k ob hob
    · intro cid2 c hc
      rw [alookup_cellsMarkDirty] at hc
      by_cases h2 : cid2 = obj.cellId
      · rw [if_pos h2] at hc
        cases hc
        dsimp only
        intro hemp
        have := hg.objComplete h obj hobj
        rw [hemp] at this
        simp at this
      · rw [if_neg h2] at hc
        exact hg.cellsNonempty cid2 c hc

theorem remove_some {g : Grid O} {h : ℕ} {obj : StoreObject O}
    (hobj : alookup g.objects h = some obj) :
    Grid.remove g h = some
      { g with
        objects := aset g.objects h { obj with state := .removed },
        cells := cellsMarkDirty g.cells obj.cellId } := by
  unfold Grid.remove
  rw [hobj]

theorem inv_remove {g g2 : Grid O} (hg : Inv g) {h : ℕ}
    (hrem : Grid.remove g h = some g2) : Inv g2 := by
  rcases hobj : alookup g.objects h with _ | obj
  · unfold Grid.remove at hrem
    rw [hobj] at hrem
    cases hrem
  · rw [remove_some hobj] at hrem
    cases hrem
    set obj2 : StoreObject O := { obj with state := .removed } with hobj2
    have hlook : ∀ k, alookup (aset g.objects h obj2) k =
        if k = h then some obj2 else alookup g.objects k := by
      intro k
      rw [alookup_aset]
      by_cases hk : k = h
      · simp [hk, hobj]
      · simp [hk]
    refine ⟨hg.cellSizePos, cellsMarkDirty_keys_nodup hg.cellKeysNodup _, ?_,
      ?_, ?_, ?_, ?_, ?_, ?_, ?_⟩
    · rw [aset_map_fst]
      exact hg.objKeysNodup
    · intro k ob hob
      rw [hlook] at hob
      by_cases hk : k = h
      · rw [if_pos hk] at hob
        cases hob
        exact hk ▸ hg.handlesLt h obj hobj
      · rw [if_neg hk] at hob
        exact hg.handlesLt k ob hob
    · intro cid2 e he
      rw [cellObjsAt_cellsMarkDirty] at he
      rcases hg.entrySound cid2 e he with ⟨ob, hob, hc, hp2⟩
      rw [hlook]
      by_cases hk : e.1 = h
      · rw [if_pos hk]
        rw [hk, hobj] at hob
        cases hob
        exact ⟨obj2, rfl, hc, hp2⟩
      · rw [if_neg hk]
        exact ⟨ob, hob, hc, hp2⟩
    · intro k ob hob
      rw [hlook] at hob
      rw [cellObjsAt_cellsMarkDirty]
      by_cases hk : k = h
      · rw [if_pos hk] at hob
        cases hob
        rw [hk]
        exact hg.objComplete h obj hobj
      · rw [if_neg hk] at hob
        exact hg.objComplete k ob hob
    · intro cid2
      rw [cellObjsAt_cellsMarkDirty]
      exact hg.cellHandlesNodup cid2
    · intro k ob hob hstale
      rw [hlook] at hob
      rw [dirtyAt_cellsMarkDirty]
      by_cases hk : k = h
      · rw [if_pos hk] at hob
        cases hob
        simp
      · rw [if_neg hk] at hob
        by_cases hc2 : ob.cellId = obj.cellId
        · simp [hc2]
        · rw [if_neg hc2]
          exact hg.staleDirty k ob hob hstale
    · intro k ob hob
      rw [hlook] at hob
      by_cases hk : k = h
      · rw [if_pos hk] at hob
        cases hob
        simp [stateOk]
      · rw [if_neg hk] at hob
        exact hg.statesOk k ob hob
    · intro cid2 c hc
      rw [alookup_cellsMarkDirty] at hc
      by_cases h2 : cid2 = obj.cellId
      · rw [if_pos h2] at hc
        cases hc
        dsimp only
        intro hemp
        have := hg.objComplete h obj hobj
        rw [hemp] at this
        simp at this
      · rw [if_neg h2] at hc
        exact hg.cellsNonempty cid2 c hc

/-! ## Lemmas: the `GridCell::maintain` sweep of one cell -/

theorem alookup_aremove_ne {κ α : Type} [DecidableEq κ]
    (l : List (κ × α)) {k k2 : κ} (hne : k2 ≠ k) :
    alookup (aremove l k) k2 = alookup l k2 := by
  induction l with
  | nil => rfl
  | cons e r ih =>
    obtain ⟨k1, v1⟩ := e
    rw [aremove_cons]
    by_cases hk : k1 = k
    · rw [if_pos hk, alookup_cons, if_neg (by rw [hk]; exact fun h => hne h.symm)]
    · rw [if_neg hk, alookup_cons, alookup_cons, ih]

theorem cellSweep_nil (objects : List (ℕ × StoreObject O)) :
    cellSweep objects [] = ([], objects, []) := rfl

theorem cellSweep_cons_none {objects : List (ℕ × StoreObject O)}
    {h0 : ℕ} (q0 : ℚ × ℚ) (rest : List (ℕ × (ℚ × ℚ)))
    (ho : alookup objects h0 = none) :
    cellSweep objects ((h0, q0) :: rest) =
      ((h0, q0) :: (cellSweep objects rest).1, (cellSweep objects rest).2) := by
  rw [cellSweep]
  simp only [ho]

theorem cellSweep_cons_unchanged {objects : List (ℕ × StoreObject O)}
    {h0 : ℕ} {o : StoreObject O} (q0 : ℚ × ℚ) (rest : List (ℕ × (ℚ × ℚ)))
    (ho : alookup objects h0 = some o) (hs : o.state = .unchanged) :
    cellSweep objects ((h0, q0) :: rest) =
      ((h0, q0) :: (cellSweep objects rest).1, (cellSweep objects rest).2) := by
  rw [cellSweep]
  simp only [ho]
  rw [hs]

theorem cellSweep_cons_newPos {objects : List (ℕ × StoreObject O)}
    {h0 : ℕ} {o : StoreObject O} {p : ℚ × ℚ} (q0 : ℚ × ℚ)
    (rest : List (ℕ × (ℚ × ℚ)))
    (ho : alookup objects h0 = some o) (hs : o.state = .newPos p) :
    cellSweep objects ((h0, q0) :: rest) =
      ((h0, p) ::
          (cellSweep (aset objects h0 { o with state := .unchanged, pos := p }) rest).1,
        (cellSweep (aset objects h0 { o with state := .unchanged, pos := p }) rest).2) := by
  rw [cellSweep]
  simp only [ho]
  rw [hs]

theorem cellSweep_cons_relocate {objects : List (ℕ × StoreObject O)}
    {h0 : ℕ} {o : StoreObject O} {p : ℚ × ℚ} {t : ℤ × ℤ} (q0 : ℚ × ℚ)
    (rest : List (ℕ × (ℚ × ℚ)))
    (ho : alookup objects h0 = some o) (hs : o.state = .relocate p t) :
    cellSweep objects ((h0, q0) :: rest) =
      ((cellSweep (aset objects h0
          { o with state := .unchanged, pos := p, cellId := t }) rest).1,
        (cellSweep (aset objects h0
          { o with state := .unchanged, pos := p, cellId := t }) rest).2.1,
        (h0, p) :: (cellSweep (aset objects h0
          { o with state := .unchanged, pos := p, cellId := t }) rest).2.2) := by
  rw [cellSweep]
  simp only [ho]
  rw [hs]

theorem cellSweep_cons_removed {objects : List (ℕ × StoreObject O)}
    {h0 : ℕ} {o : StoreObject O} (q0 : ℚ × ℚ) (rest : List (ℕ × (ℚ × ℚ)))
    (ho : alookup objects h0 = some o) (hs : o.state = .removed) :
    cellSweep objects ((h0, q0) :: rest) =
      ((cellSweep (aremove objects h0) rest).1,
        (cellSweep (aremove objects h0) rest).2) := by
  rw [cellSweep]
  simp only [ho]
  rw [hs]

theorem objStep_unchanged {o : StoreObject O} (hs : o.state = .unchanged) :
    objStep o = some o := by
  unfold objStep
  rw [hs]

theorem objStep_newPos {o : StoreObject O} {p : ℚ × ℚ}
    (hs : o.state = .newPos p) :
    objStep o = some { o with state := .unchanged, pos := p } := by
  unfold objStep
  rw [hs]

theorem objStep_relocate {o : StoreObject O} {p : ℚ × ℚ} {t : ℤ × ℤ}
    (hs : o.state = .relocate p t) :
    objStep o = some { o with state := .unchanged, pos := p, cellId := t } := by
  unfold objStep
  rw [hs]

theorem objStep_removed {o : StoreObject O} (hs : o.state = .removed) :
    objStep o = none := by
  unfold objStep
  rw [hs]

theorem cellSweep_lookup_out {h : ℕ} :
    ∀ (l : List (ℕ × (ℚ × ℚ))) (objects : List (ℕ × StoreObject O)),
    h ∉ l.map Prod.fst →
    alookup (cellSweep objects l).2.1 h = alookup objects h := by
  intro l
  induction l with
  | nil =>
    intro objects hh
    rfl
  | cons e rest ih =>
    intro objects hh
    obtain ⟨h0, q0⟩ := e
    simp only [List.map_cons, List.mem_cons, not_or] at hh
    obtain ⟨hne, hh2⟩ := hh
    have hne2 : h ≠ h0 := hne
    rcases ho : alookup objects h0 with _ | o
    · rw [cellSweep_cons_none q0 rest ho]
      exact ih objects hh2
    · rcases hso : o.state with _ | p | ⟨p, t⟩ | _
      · rw [cellSweep_cons_unchanged q0 rest ho hso]
        exact ih objects hh2
      · rw [cellSweep_cons_newPos q0 rest ho hso]
        rw [ih _ hh2, alookup_aset, if_neg hne2]
      · rw [cellSweep_cons_relocate q0 rest ho hso]
        rw [ih _ hh2, alookup_aset, if_neg hne2]
      · rw [cellSweep_cons_removed q0 rest ho hso]
        rw [ih _ hh2, alookup_aremove_ne _ hne2]

theorem cellSweep_keys_sublist :
    ∀ (l : List (ℕ × (ℚ × ℚ))) (objects : List (ℕ × StoreObject O)),
    ((cellSweep objects l).2.1.map Prod.fst).Sublist (objects.map Prod.fst) := by
  intro l
  induction l with
  | nil =>
    intro objects
    exact List.Sublist.refl _
  | cons e rest ih =>
    intro objects
    obtain ⟨h0, q0⟩ := e
    rcases ho : alookup objects h0 with _ | o
    · rw [cellSweep_cons_none q0 rest ho]
      exact ih objects
    · rcases hso : o.state with _ | p | ⟨p, t⟩ | _
      · rw [cellSweep_cons_unchanged q0 rest ho hso]
        exact ih objects
      · rw [cellSweep_cons_newPos q0 rest ho hso]
        have := ih (aset objects h0 { o with state := .unchanged, pos := p })
        rwa [aset_map_fst] at this
      · rw [cellSweep_cons_relocate q0 rest ho hso]
        have := ih (aset objects h0 { o with state := .unchanged, pos := p, cellId := t })
        rwa [aset_map_fst] at this
      · rw [cellSweep_cons_removed q0 rest ho hso]
        exact (ih (aremove objects h0)).trans (aremove_map_fst_sublist _ _)

theorem cellSweep_keys_nodup {objects : List (ℕ × StoreObject O)}
    (hnd : (objects.map Prod.fst).Nodup) (l : List (ℕ × (ℚ × ℚ))) :
    ((cellSweep objects l).2.1.map Prod.fst).Nodup :=
  (cellSweep_keys_sublist l objects).nodup hnd

theorem cellSweep_lookup_in {h : ℕ} :
    ∀ (l : List (ℕ × (ℚ × ℚ))) (objects : List (ℕ × StoreObject O)),
    (objects.map Prod.fst).Nodup → (l.map Prod.fst).Nodup →
    ∀ q o, (h, q) ∈ l → alookup objects h = some o →
    alookup (cellSweep objects l).2.1 h = objStep o := by
  intro l
  induction l with
  | nil =>
    intro objects _ _ q o he
    simp at he
  | cons e rest ih =>
    intro objects hOnd hl q o he ho
    obtain ⟨h0, q0⟩ := e
    simp only [List.map_cons, List.nodup_cons] at hl
    rcases List.mem_cons.1 he with hhead | htail
    · obtain ⟨hh, -⟩ := Prod.mk.injEq .. ▸ hhead
      subst hh
      rcases hso : o.state with _ | p | ⟨p, t⟩ | _
      · rw [cellSweep_cons_unchanged q0 rest ho hso,
          cellSweep_lookup_out rest objects hl.1, ho, objStep_unchanged hso]
      · rw [cellSweep_cons_newPos q0 rest ho hso,
          cellSweep_lookup_out rest _ hl.1, alookup_aset, if_pos rfl, ho,
          objStep_newPos hso]
        rfl
      · rw [cellSweep_cons_relocate q0 rest ho hso,
          cellSweep_lookup_out rest _ hl.1, alookup_aset, if_pos rfl, ho,
          objStep_relocate hso]
        rfl
      · rw [cellSweep_cons_removed q0 rest ho hso,
          cellSweep_lookup_out rest _ hl.1,
          alookup_aremove hOnd, if_pos rfl, objStep_removed hso]
    · have hne : h ≠ h0 := by
        rintro rfl
        exact hl.1 (List.mem_map.2 ⟨(h, q), htail, rfl⟩)
      rcases ho0 : alookup objects h0 with _ | o0
      · rw [cellSweep_cons_none q0 rest ho0]
        exact ih objects hOnd hl.2 q o htail ho
      · rcases hso : o0.state with _ | p | ⟨p, t⟩ | _
        · rw [cellSweep_cons_unchanged q0 rest ho0 hso]
          exact ih objects hOnd hl.2 q o htail ho
        · rw [cellSweep_cons_newPos q0 rest ho0 hso]
          refine ih _ ?_ hl.2 q o htail ?_
          · rwa [aset_map_fst]
          · rw [alookup_aset, if_neg hne, ho]
        · rw [cellSweep_cons_relocate q0 rest ho0 hso]
          refine ih _ ?_ hl.2 q o htail ?_
          · rwa [aset_map_fst]
          · rw [alookup_aset, if_neg hne, ho]
        · rw [cellSweep_cons_removed q0 rest ho0 hso]
          refine ih _ ((aremove_map_fst_sublist _ _).nodup hOnd) hl.2 q o htail ?_
          rw [alookup_aremove_ne _ hne, ho]

theorem cellSweep_kept_handles_sublist :
    ∀ (l : List (ℕ × (ℚ × ℚ))) (objects : List (ℕ × StoreObject O)),
    ((cellSweep objects l).1.map Prod.fst).Sublist (l.map Prod.fst) := by
  intro l
  induction l with
  | nil =>
    intro objects
    exact List.Sublist.refl _
  | cons e rest ih =>
    intro objects
    obtain ⟨h0, q0⟩ := e
    rcases ho : alookup objects h0 with _ | o
    · rw [cellSweep_cons_none q0 rest ho]
      exact (ih objects).cons₂ _
    · rcases hso : o.state with _ | p | ⟨p, t⟩ | _
      · rw [cellSweep_cons_unchanged q0 rest ho hso]
        exact (ih objects).cons₂ _
      · rw [cellSweep_cons_newPos q0 rest ho hso]
        exact (ih _).cons₂ _
      · rw [cellSweep_cons_relocate q0 rest ho hso]
        exact (ih _).cons _
      · rw [cellSweep_cons_removed q0 rest ho hso]
        exact (ih _).cons _

theorem cellSweep_rels_handles_sublist :
    ∀ (l : List (ℕ × (ℚ × ℚ))) (objects : List (ℕ × StoreObject O)),
    ((cellSweep objects l).2.2.map Prod.fst).Sublist (l.map Prod.fst) := by
  intro l
  induction l with
  | nil =>
    intro objects
    exact List.Sublist.refl _
  | cons e rest ih =>
    intro objects
    obtain ⟨h0, q0⟩ := e
    rcases ho : alookup objects h0 with _ | o
    · rw [cellSweep_cons_none q0 rest ho]
      exact (ih objects).cons _
    · rcases hso : o.state with _ | p | ⟨p, t⟩ | _
      · rw [cellSweep_cons_unchanged q0 rest ho hso]
        exact (ih objects).cons _
      · rw [cellSweep_cons_newPos q0 rest ho hso]
        exact (ih _).cons _
      · rw [cellSweep_cons_relocate q0 rest ho hso]
        exact (ih _).cons₂ _
      · rw [cellSweep_cons_removed q0 rest ho hso]
        exact (ih _).cons _

theorem cellSweep_kept_sound :
    ∀ (l : List (ℕ × (ℚ × ℚ))) (objects : List (ℕ × StoreObject O)),
    (l.map Prod.fst).Nodup →
    (∀ e ∈ l, ∃ o, alookup objects e.1 = some o) →
    ∀ e2 ∈ (cellSweep objects l).1, ∃ q o, (e2.1, q) ∈ l ∧
      alookup objects e2.1 = some o ∧
      ((o.state = .unchanged ∧ e2.2 = q) ∨ o.state = .newPos e2.2) := by
  intro l
  induction l with
  | nil =>
    intro objects _ _ e2 he2
    simp [cellSweep_nil] at he2
  | cons e rest ih =>
    intro objects hl pre e2 he2
    obtain ⟨h0, q0⟩ := e
    simp only [List.map_cons, List.nodup_cons] at hl
    have step : ∀ objects2 : List (ℕ × StoreObject O),
        (∀ k, k ≠ h0 → alookup objects2 k = alookup objects k) →
        e2 ∈ (cellSweep objects2 rest).1 →
        ∃ q o, (e2.1, q) ∈ (h0, q0) :: rest ∧
          alookup objects e2.1 = some o ∧
          ((o.state = .unchanged ∧ e2.2 = q) ∨ o.state = .newPos e2.2) := by
      intro objects2 htrans he2r
      have pre2 : ∀ e ∈ rest, ∃ o, alookup objects2 e.1 = some o := by
        intro e3 he3
        have hne : e3.1 ≠ h0 := by
          rintro hEq
          exact hl.1 (hEq ▸ List.mem_map.2 ⟨e3, he3, rfl⟩)
        rw [htrans e3.1 hne]
        exact pre e3 (List.mem_cons_of_mem _ he3)
      rcases ih objects2 hl.2 pre2 e2 he2r with ⟨q, o, hq, hlo, hcase⟩
      have hne : e2.1 ≠ h0 := by
        rintro hEq
        exact hl.1 (hEq ▸ List.mem_map.2 ⟨(e2.1, q), hq, rfl⟩)
      rw [htrans e2.1 hne] at hlo
      exact ⟨q, o, List.mem_cons_of_mem _ hq, hlo, hcase⟩
    rcases ho : alookup objects h0 with _ | o
    · rcases pre (h0, q0) (List.mem_cons_self _ _) with ⟨o, hpre⟩
      rw [hpre] at ho
      cases ho
    · rcases hso : o.state with _ | p | ⟨p, t⟩ | _
      · rw [cellSweep_cons_unchanged q0 rest ho hso] at he2
        rcases List.mem_cons.1 he2 with h1 | h1
        · subst h1
          exact ⟨q0, o, List.mem_cons_self _ _, ho, Or.inl ⟨hso, rfl⟩⟩
        · exact step objects (fun _ _ => rfl) h1
      · rw [cellSweep_cons_newPos q0 rest ho hso] at he2
        rcases List.mem_cons.1 he2 with h1 | h1
        · subst h1
          exact ⟨q0, o, List.mem_cons_self _ _, ho, Or.inr hso⟩
        · exact step _ (fun k hk => by rw [alookup_aset, if_neg hk]) h1
      · rw [cellSweep_cons_relocate q0 rest ho hso] at he2
        exact step _ (fun k hk => by rw [alookup_aset, if_neg hk]) he2
      · rw [cellSweep_cons_removed q0 rest ho hso] at he2
        exact step _ (fun k hk => alookup_aremove_ne _ hk) he2

theorem cellSweep_rels_sound :
    ∀ (l : List (ℕ × (ℚ × ℚ))) (objects : List (ℕ × StoreObject O)),
    (l.map Prod.fst).Nodup →
    ∀ e2 ∈ (cellSweep objects l).2.2, ∃ q o t, (e2.1, q) ∈ l ∧
      alookup objects e2.1 = some o ∧ o.state = .relocate e2.2 t := by
  intro l
  induction l with
  | nil =>
    intro objects _ e2 he2
    simp [cellSweep_nil] at he2
  | cons e rest ih =>
    intro objects hl e2 he2
    obtain ⟨h0, q0⟩ := e
    simp only [List.map_cons, List.nodup_cons] at hl
    have step : ∀ objects2 : List (ℕ × StoreObject O),
        (∀ k, k ≠ h0 → alookup objects2 k = alookup objects k) →
        e2 ∈ (cellSweep objects2 rest).2.2 →
        ∃ q o t, (e2.1, q) ∈ (h0, q0) :: rest ∧
          alookup objects e2.1 = some o ∧ o.state = .relocate e2.2 t := by
      intro objects2 htrans he2r
      rcases ih objects2 hl.2 e2 he2r with ⟨q, o, t, hq, hlo, hst⟩
      have hne : e2.1 ≠ h0 := by
        rintro hEq
        exact hl.1 (hEq ▸ List.mem_map.2 ⟨(e2.1, q), hq, rfl⟩)
      rw [htrans e2.1 hne] at hlo
      exact ⟨q, o, t, List.mem_cons_of_mem _ hq, hlo, hst⟩
    rcases ho : alookup objects h0 with _ | o
    · rw [cellSweep_cons_none q0 rest ho] at he2
      exact step objects (fun _ _ => rfl) he2
    · rcases hso : o.state with _ | p | ⟨p, t⟩ | _
      · rw [cellSweep_cons_unchanged q0 rest ho hso] at he2
        exact step objects (fun _ _ => rfl) he2
      · rw [cellSweep_cons_newPos q0 rest ho hso] at he2
        exact step _ (fun k hk => by rw [alookup_aset, if_neg hk]) he2
      · rw [cellSweep_cons_relocate q0 rest ho hso] at he2
        rcases List.mem_cons.1 he2 with h1 | h1
        · subst h1
          exact ⟨q0, o, t, List.mem_cons_self _ _, ho, hso⟩
        · exact step _ (fun k hk => by rw [alookup_aset, if_neg hk]) h1
      · rw [cellSweep_cons_removed q0 rest ho hso] at he2
        exact step _ (fun k hk => alookup_aremove_ne _ hk) he2

theorem cellSweep_complete :
    ∀ (l : List (ℕ × (ℚ × ℚ))) (objects : List (ℕ × StoreObject O)),
    (l.map Prod.fst).Nodup →
    ∀ h q o, (h, q) ∈ l → alookup objects h = some o →
      (o.state = .unchanged → (h, q) ∈ (cellSweep objects l).1) ∧
      (∀ p, o.state = .newPos p → (h, p) ∈ (cellSweep objects l).1) ∧
      (∀ p t, o.state = .relocate p t → (h, p) ∈ (cellSweep objects l).2.2) := by
  intro l
  induction l with
  | nil =>
    intro objects _ h q o he
    simp at he
  | cons e rest ih =>
    intro objects hl h q o he ho
    obtain ⟨h0, q0⟩ := e
    simp only [List.map_cons, List.nodup_cons] at hl
    rcases List.mem_cons.1 he with hhead | htail
    · obtain ⟨hh, hq⟩ := Prod.mk.injEq .. ▸ hhead
      subst hh
      subst hq
      refine ⟨?_, ?_, ?_⟩
      · intro hs
        rw [cellSweep_cons_unchanged q rest ho hs]
        exact List.mem_cons_self _ _
      · intro p hs
        rw [cellSweep_cons_newPos q rest ho hs]
        exact List.mem_cons_self _ _
      · intro p t hs
        rw [cellSweep_cons_relocate q rest ho hs]
        exact List.mem_cons_self _ _
    · have hne : h ≠ h0 := by
        rintro rfl
        exact hl.1 (List.mem_map.2 ⟨(h, q), htail, rfl⟩)
      rcases ho0 : alookup objects h0 with _ | o0
      · rw [cellSweep_cons_none q0 rest ho0]
        rcases ih objects hl.2 h q o htail ho with ⟨c1, c2, c3⟩
        exact ⟨fun hs => List.mem_cons_of_mem _ (c1 hs),
          fun p hs => List.mem_cons_of_mem _ (c2 p hs), c3⟩
      · have htr : ∀ objects2 : List (ℕ × StoreObject O),
            (∀ k, k ≠ h0 → alookup objects2 k = alookup objects k) →
            (o.state = .unchanged → (h, q) ∈ (cellSweep objects2 rest).1) ∧
            (∀ p, o.state = .newPos p → (h, p) ∈ (cellSweep objects2 rest).1) ∧
            (∀ p t, o.state = .relocate p t →
              (h, p) ∈ (cellSweep objects2 rest).2.2) := by
          intro objects2 htrans
          exact ih objects2 hl.2 h q o htail ((htrans h hne).trans ho)
        rcases hso : o0.state with _ | p0 | ⟨p0, t0⟩ | _
        · rw [cellSweep_cons_unchanged q0 rest ho0 hso]
          rcases htr objects (fun _ _ => rfl) with ⟨c1, c2, c3⟩
          exact ⟨fun hs => List.mem_cons_of_mem _ (c1 hs),
            fun p hs => List.mem_cons_of_mem _ (c2 p hs), c3⟩
        · rw [cellSweep_cons_newPos q0 rest ho0 hso]
          rcases htr (aset objects h0 { o0 with state := .unchanged, pos := p0 })
            (fun k hk => by rw [alookup_aset, if_neg hk]) with ⟨c1, c2, c3⟩
          exact ⟨fun hs => List.mem_cons_of_mem _ (c1 hs),
            fun p hs => List.mem_cons_of_mem _ (c2 p hs), c3⟩
        · rw [cellSweep_cons_relocate q0 rest ho0 hso]
          rcases htr
            (aset objects h0 { o0 with state := .unchanged, pos := p0, cellId := t0 })
            (fun k hk => by rw [alookup_aset, if_neg hk]) with ⟨c1, c2, c3⟩
          exact ⟨c1, c2, fun p t hs => List.mem_cons_of_mem _ (c3 p t hs)⟩
        · rw [cellSweep_cons_removed q0 rest ho0 hso]
          exact htr (aremove objects h0) (fun k hk => alookup_aremove_ne _ hk)

/-! ## Lemmas: the whole `maintain` cell sweep -/

theorem cellsSweep_nil (objects : List (ℕ × StoreObject O)) :
    cellsSweep objects [] = ([], objects, []) := rfl

theorem cellsSweep_cons_dirty {c : GridCell} (hd : c.dirty = true)
    (objects : List (ℕ × StoreObject O)) (cid0 : ℤ × ℤ)
    (rest : List ((ℤ × ℤ) × GridCell)) :
    cellsSweep objects ((cid0, c) :: rest) =
      ((if (cellSweep objects c.objs).1.isEmpty
        then (cellsSweep (cellSweep objects c.objs).2.1 rest).1
        else (cid0, ⟨(cellSweep objects c.objs).1, false⟩)
          :: (cellsSweep (cellSweep objects c.objs).2.1 rest).1),
       (cellsSweep (cellSweep objects c.objs).2.1 rest).2.1,
       (cellSweep objects c.objs).2.2
         ++ (cellsSweep (cellSweep objects c.objs).2.1 rest).2.2) := by
  rw [cellsSweep]
  rw [if_pos hd]

theorem cellsSweep_cons_clean {c : GridCell} (hd : c.dirty = false)
    (objects : List (ℕ × StoreObject O)) (cid0 : ℤ × ℤ)
    (rest : List ((ℤ × ℤ) × GridCell)) :
    cellsSweep objects ((cid0, c) :: rest) =
      ((if c.objs.isEmpty
        then (cellsSweep objects rest).1
        else (cid0, c) :: (cellsSweep objects rest).1),
       (cellsSweep objects rest).2.1,
       (cellsSweep objects rest).2.2) := by
  rw [cellsSweep]
  rw [if_neg (by rw [hd]; exact Bool.false_ne_true)]

theorem touchedIn_cons {cid0 : ℤ × ℤ} {c : GridCell}
    {rest : List ((ℤ × ℤ) × GridCell)} {h : ℕ} :
    touchedIn ((cid0, c) :: rest) h ↔
      (c.dirty = true ∧ h ∈ c.objs.map Prod.fst) ∨ touchedIn rest h := by
  constructor
  · rintro ⟨ce, hce, hd, hm⟩
    rcases List.mem_cons.1 hce with hce | hce
    · subst hce
      exact Or.inl ⟨hd, hm⟩
    · exact Or.inr ⟨ce, hce, hd, hm⟩
  · rintro (⟨hd, hm⟩ | ⟨ce, hce, hd, hm⟩)
    · exact ⟨(cid0, c), List.mem_cons_self _ _, hd, hm⟩
    · exact ⟨ce, List.mem_cons_of_mem _ hce, hd, hm⟩

theorem cellsSweep_lookup_untouched {h : ℕ} :
    ∀ (cs : List ((ℤ × ℤ) × GridCell)) (objects : List (ℕ × StoreObject O)),
    ¬touchedIn cs h →
    alookup (cellsSweep objects cs).2.1 h = alookup objects h := by
  intro cs
  induction cs with
  | nil =>
    intro objects _
    rfl
  | cons ce rest ih =>
    intro objects hnt
    obtain ⟨cid0, c⟩ := ce
    rw [touchedIn_cons, not_or] at hnt
    rcases hd : c.dirty with _ | _
    · rw [cellsSweep_cons_clean hd]
      exact ih objects hnt.2
    · rw [cellsSweep_cons_dirty hd]
      have hout : h ∉ c.objs.map Prod.fst := fun hm => hnt.1 ⟨hd, hm⟩
      rw [ih _ hnt.2, cellSweep_lookup_out _ _ hout]

theorem cellsSweep_keys_sublist :
    ∀ (cs : List ((ℤ × ℤ) × GridCell)) (objects : List (ℕ × StoreObject O)),
    ((cellsSweep objects cs).2.1.map Prod.fst).Sublist (objects.map Prod.fst) := by
  intro cs
  induction cs with
  | nil =>
    intro objects
    exact List.Sublist.refl _
  | cons ce rest ih =>
    intro objects
    obtain ⟨cid0, c⟩ := ce
    rcases hd : c.dirty with _ | _
    · rw [cellsSweep_cons_clean hd]
      exact ih objects
    · rw [cellsSweep_cons_dirty hd]
      exact (ih _).trans (cellSweep_keys_sublist _ _)

theorem cellsSweep_keys_nodup {objects : List (ℕ × StoreObject O)}
    (hnd : (objects.map Prod.fst).Nodup) (cs : List ((ℤ × ℤ) × GridCell)) :
    ((cellsSweep objects cs).2.1.map Prod.fst).Nodup :=
  (cellsSweep_keys_sublist cs objects).nodup hnd

theorem cellsSweep_cells_keys_sublist :
    ∀ (cs : List ((ℤ × ℤ) × GridCell)) (objects : List (ℕ × StoreObject O)),
    ((cellsSweep objects cs).1.map Prod.fst).Sublist (cs.map Prod.fst) := by
  intro cs
  induction cs with
  | nil =>
    intro objects
    exact List.Sublist.refl _
  | cons ce rest ih =>
    intro objects
    obtain ⟨cid0, c⟩ := ce
    rcases hd : c.dirty with _ | _
    · rw [cellsSweep_cons_clean hd]
      by_cases he : c.objs.isEmpty
      · rw [if_pos he]
        exact (ih objects).trans (List.sublist_cons_self _ _)
      · rw [if_neg he]
        exact (ih objects).cons₂ _
    · rw [cellsSweep_cons_dirty hd]
      by_cases he : (cellSweep objects c.objs).1.isEmpty
      · rw [if_pos he]
        exact (ih _).trans (List.sublist_cons_self _ _)
      · rw [if_neg he]
        exact (ih _).cons₂ _

theorem cellsSweep_main :
    ∀ (cs : List ((ℤ × ℤ) × GridCell)) (objects : List (ℕ × StoreObject O)),
    (objects.map Prod.fst).Nodup →
    (cs.map Prod.fst).Nodup →
    (∀ cid, ((cellObjsAt cs cid).map Prod.fst).Nodup) →
    (∀ cid, ∀ e ∈ cellObjsAt cs cid,
      ∃ o, alookup objects e.1 = some o ∧ o.cellId = cid ∧ o.pos = e.2) →
    (∀ cid, dirtyAt cs cid = false → ∀ e ∈ cellObjsAt cs cid,
      ∀ o, alookup objects e.1 = some o → o.state = .unchanged) →
    (∀ h o, touchedIn cs h → alookup objects h = some o →
      alookup (cellsSweep objects cs).2.1 h = objStep o) ∧
    (∀ cid, ∀ e ∈ cellObjsAt (cellsSweep objects cs).1 cid,
      ∃ o2, alookup (cellsSweep objects cs).2.1 e.1 = some o2 ∧
        o2.cellId = cid ∧ o2.pos = e.2 ∧ o2.state = .unchanged) ∧
    (∀ cid, ∀ e ∈ cellObjsAt cs cid, ∀ o, alookup objects e.1 = some o →
      (o.state = .unchanged → e ∈ cellObjsAt (cellsSweep objects cs).1 cid) ∧
      (∀ p, o.state = .newPos p →
        (e.1, p) ∈ cellObjsAt (cellsSweep objects cs).1 cid) ∧
      (∀ p t, o.state = .relocate p t → (e.1, p) ∈ (cellsSweep objects cs).2.2)) ∧
    (∀ e2 ∈ (cellsSweep objects cs).2.2, ∃ o t,
      alookup objects e2.1 = some o ∧ o.state = .relocate e2.2 t ∧
      touchedIn cs e2.1) ∧
    ((cellsSweep objects cs).2.2.map Prod.fst).Nodup ∧
    (∀ cid, ((cellObjsAt (cellsSweep objects cs).1 cid).map Prod.fst).Sublist
      ((cellObjsAt cs cid).map Prod.fst)) ∧
    (∀ cid c2, alookup (cellsSweep objects cs).1 cid = some c2 → c2.objs ≠ []) := by
  intro cs
  induction cs with
  | nil =>
    intro objects hOnd hCnd hPer hSound hClean
    rw [cellsSweep_nil]
    refine ⟨?_, ?_, ?_, ?_, ?_, ?_, ?_⟩
    · rintro h o ⟨ce, hce, -⟩ _
      simp at hce
    · intro cid e he
      simp [cellObjsAt, alookup] at he
    · intro cid e he
      simp [cellObjsAt, alookup] at he
    · intro e2 he2
      simp at he2
    · exact List.nodup_nil
    · intro cid
      exact List.Sublist.refl _
    · intro cid c2 hc2
      simp [alookup] at hc2
  | cons ce rest ih =>
    intro objects hOnd hCnd hPer hSound hClean
    obtain ⟨cid0, c⟩ := ce
    simp only [List.map_cons, List.nodup_cons] at hCnd
    have hAt0 : cellObjsAt ((cid0, c) :: rest) cid0 = c.objs := by
      rw [cellObjsAt_cons, if_pos rfl]
    have hAtNe : ∀ cid, cid0 ≠ cid →
        cellObjsAt ((cid0, c) :: rest) cid = cellObjsAt rest cid := by
      intro cid hne
      rw [cellObjsAt_cons, if_neg hne]
    have hRest0 : cellObjsAt rest cid0 = [] := by
      unfold cellObjsAt
      rw [alookup_eq_none.2 hCnd.1]
    have hDirt0 : dirtyAt ((cid0, c) :: rest) cid0 = c.dirty := by
      rw [dirtyAt_cons, if_pos rfl]
    have hDirtNe : ∀ cid, cid0 ≠ cid →
        dirtyAt ((cid0, c) :: rest) cid = dirtyAt rest cid := by
      intro cid hne
      rw [dirtyAt_cons, if_neg hne]
    have hPerHead : (c.objs.map Prod.fst).Nodup := by
      have := hPer cid0
      rwa [hAt0] at this
    have hSoundHead : ∀ e ∈ c.objs,
        ∃ o, alookup objects e.1 = some o ∧ o.cellId = cid0 ∧ o.pos = e.2 := by
      intro e he
      exact hSound cid0 e (by rwa [hAt0])
    have hdisj : ∀ h2, h2 ∈ c.objs.map Prod.fst →
        ∀ cid, h2 ∉ (cellObjsAt rest cid).map Prod.fst := by
      intro h2 hm cid hm2
      rcases List.mem_map.1 hm with ⟨e1, he1, rfl⟩
      rcases List.mem_map.1 hm2 with ⟨e2, he2, heq⟩
      by_cases hcc : cid0 = cid
      · subst hcc
        rw [hRest0] at he2
        simp at he2
      · rcases hSoundHead e1 he1 with ⟨o1, ho1, hc1, -⟩
        have he2b : e2 ∈ cellObjsAt ((cid0, c) :: rest) cid := by
          rwa [hAtNe cid hcc]
        rcases hSound cid e2 he2b with ⟨o2, ho2, hc2, -⟩
        rw [heq, ho1] at ho2
        cases ho2
        exact hcc (hc1 ▸ hc2)
    have hPerRest : ∀ cid, ((cellObjsAt rest cid).map Prod.fst).Nodup := by
      intro cid
      by_cases hcc : cid0 = cid
      · subst hcc
        rw [hRest0]
        exact List.nodup_nil
      · have := hPer cid
        rwa [hAtNe cid hcc] at this
    have hSoundRest : ∀ cid, ∀ e ∈ cellObjsAt rest cid,
        ∃ o, alookup objects e.1 = some o ∧ o.cellId = cid ∧ o.pos = e.2 := by
      intro cid e he
      by_cases hcc : cid0 = cid
      · subst hcc
        rw [hRest0] at he
        simp at he
      · exact hSound cid e (by rwa [hAtNe cid hcc])
    have hrestnotin : ∀ cid, ∀ e ∈ cellObjsAt rest cid,
        e.1 ∉ c.objs.map Prod.fst := by
      intro cid e he hmem
      exact hdisj e.1 hmem cid (List.mem_map.2 ⟨e, he, rfl⟩)
    rcases hd : c.dirty with _ | _
    · -- clean head cell
      rw [cellsSweep_cons_clean hd]
      dsimp only
      have hCleanHead : ∀ e ∈ c.objs, ∀ o,
          alookup objects e.1 = some o → o.state = .unchanged := by
        intro e he o ho
        refine hClean cid0 ?_ e (by rwa [hAt0]) o ho
        rw [hDirt0, hd]
      have hCleanRest : ∀ cid, dirtyAt rest cid = false →
          ∀ e ∈ cellObjsAt rest cid, ∀ o,
          alookup objects e.1 = some o → o.state = .unchanged := by
        intro cid hdf e he o ho
        by_cases hcc : cid0 = cid
        · subst hcc
          rw [hRest0] at he
          simp at he
        · refine hClean cid ?_ e (by rwa [hAtNe cid hcc]) o ho
          rwa [hDirtNe cid hcc]
      obtain ⟨K1, K2, K3, K4, K5, K6, K7⟩ :=
        ih objects hOnd hCnd.2 hPerRest hSoundRest hCleanRest
      have hw1empty : cellObjsAt (cellsSweep objects rest).1 cid0 = [] := by
        unfold cellObjsAt
        rw [alookup_eq_none.2 (fun hmem =>
          hCnd.1 ((cellsSweep_cells_keys_sublist rest objects).subset hmem))]
      have hAt2 : ∀ cid,
          cellObjsAt (if c.objs.isEmpty then (cellsSweep objects rest).1
            else (cid0, c) :: (cellsSweep objects rest).1) cid =
          if cid0 = cid then c.objs else cellObjsAt (cellsSweep objects rest).1 cid := by
        intro cid
        by_cases he : c.objs.isEmpty
        · rw [if_pos he]
          by_cases hcc : cid0 = cid
          · subst hcc
            rw [if_pos rfl, hw1empty, List.isEmpty_iff.1 he]
          · rw [if_neg hcc]
        · rw [if_neg he, cellObjsAt_cons]
      have huntouched : ∀ e ∈ c.objs, ¬touchedIn rest e.1 := by
        rintro e he ⟨ce2, hce2, hd2, hm2⟩
        have : e.1 ∈ (cellObjsAt rest ce2.1).map Prod.fst := by
          unfold cellObjsAt
          rw [mem_alookup hCnd.2 hce2]
          exact hm2
        exact hdisj e.1 (List.mem_map.2 ⟨e, he, rfl⟩) ce2.1 this
      refine ⟨?_, ?_, ?_, ?_, K5, ?_, ?_⟩
      · intro h o ht ho
        rw [touchedIn_cons] at ht
        rcases ht with ⟨hdt, -⟩ | ht
        · rw [hd] at hdt
          cases hdt
        · exact K1 h o ht ho
      · intro cid e he
        rw [hAt2] at he
        by_cases hcc : cid0 = cid
        · rw [if_pos hcc] at he
          rcases hSoundHead e he with ⟨o, ho, hc2, hp2⟩
          refine ⟨o, ?_, hcc ▸ hc2, hp2, hCleanHead e he o ho⟩
          rw [cellsSweep_lookup_untouched rest objects (huntouched e he), ho]
        · rw [if_neg hcc] at he
          exact K2 cid e he
      · intro cid e he o ho
        by_cases hcc : cid0 = cid
        · subst hcc
          rw [hAt0] at he
          have hun := hCleanHead e he o ho
          refine ⟨?_, ?_, ?_⟩
          · intro _
            rw [hAt2, if_pos rfl]
            exact he
          · intro p hs
            rw [hun] at hs
            cases hs
          · intro p t hs
            rw [hun] at hs
            cases hs
        · have he2 : e ∈ cellObjsAt rest cid := by
            rwa [hAtNe cid hcc] at he
          rcases K3 cid e he2 o ho with ⟨c1, c2, c3⟩
          refine ⟨?_, ?_, c3⟩
          · intro hs
            rw [hAt2, if_neg hcc]
            exact c1 hs
          · intro p hs
            rw [hAt2, if_neg hcc]
            exact c2 p hs
      · intro e2 he2
        rcases K4 e2 he2 with ⟨o, t, ho, hs, ht⟩
        exact ⟨o, t, ho, hs, touchedIn_cons.2 (Or.inr ht)⟩
      · intro cid
        rw [hAt2]
        by_cases hcc : cid0 = cid
        · rw [if_pos hcc]
          have : cellObjsAt ((cid0, c) :: rest) cid = c.objs := by
            rw [← hcc, hAt0]
          rw [this]
        · rw [if_neg hcc, hAtNe cid hcc]
          exact K6 cid
      · intro cid c2 hc2
        by_cases he : c.objs.isEmpty
        · rw [if_pos he] at hc2
          exact K7 cid c2 hc2
        · rw [if_neg he, alookup_cons] at hc2
          by_cases hcc : cid0 = cid
          · rw [if_pos hcc] at hc2
            cases hc2
            exact fun hh => he (by rw [hh]; rfl)
          · rw [if_neg hcc] at hc2
            exact K7 cid c2 hc2
    · -- dirty head cell
      rw [cellsSweep_cons_dirty hd]
      dsimp only
      have preH : ∀ e ∈ c.objs, ∃ o, alookup objects e.1 = some o := by
        intro e he
        rcases hSoundHead e he with ⟨o, ho, -, -⟩
        exact ⟨o, ho⟩
      have zOnd : ((cellSweep objects c.objs).2.1.map Prod.fst).Nodup :=
        cellSweep_keys_nodup hOnd c.objs
      have f1 : ∀ h2, h2 ∉ c.objs.map Prod.fst →
          alookup (cellSweep objects c.objs).2.1 h2 = alookup objects h2 :=
        fun h2 hh2 => cellSweep_lookup_out c.objs objects hh2
      have hSoundRest2 : ∀ cid, ∀ e ∈ cellObjsAt rest cid,
          ∃ o, alookup (cellSweep objects c.objs).2.1 e.1 = some o ∧
            o.cellId = cid ∧ o.pos = e.2 := by
        intro cid e he
        rcases hSoundRest cid e he with ⟨o, ho, hc2, hp2⟩
        exact ⟨o, by rw [f1 e.1 (hrestnotin cid e he), ho], hc2, hp2⟩
      have hCleanRest2 : ∀ cid, dirtyAt rest cid = false →
          ∀ e ∈ cellObjsAt rest cid, ∀ o,
          alookup (cellSweep objects c.objs).2.1 e.1 = some o →
          o.state = .unchanged := by
        intro cid hdf e he o ho
        rw [f1 e.1 (hrestnotin cid e he)] at ho
        by_cases hcc : cid0 = cid
        · subst hcc
          rw [hRest0] at he
          simp at he
        · refine hClean cid ?_ e (by rwa [hAtNe cid hcc]) o ho
          rwa [hDirtNe cid hcc]
      obtain ⟨K1, K2, K3, K4, K5, K6, K7⟩ :=
        ih (cellSweep objects c.objs).2.1 zOnd hCnd.2 hPerRest hSoundRest2
          hCleanRest2
      have hw1empty :
          cellObjsAt (cellsSweep (cellSweep objects c.objs).2.1 rest).1 cid0 = [] := by
        unfold cellObjsAt
        rw [alookup_eq_none.2 (fun hmem =>
          hCnd.1 ((cellsSweep_cells_keys_sublist rest _).subset hmem))]
      have hAt2 : ∀ cid,
          cellObjsAt (if (cellSweep objects c.objs).1.isEmpty
            then (cellsSweep (cellSweep objects c.objs).2.1 rest).1
            else (cid0, ⟨(cellSweep objects c.objs).1, false⟩)
              :: (cellsSweep (cellSweep objects c.objs).2.1 rest).1) cid =
          if cid0 = cid then (cellSweep objects c.objs).1
          else cellObjsAt (cellsSweep (cellSweep objects c.objs).2.1 rest).1 cid := by
        intro cid
        by_cases he : (cellSweep objects c.objs).1.isEmpty
        · rw [if_pos he]
          by_cases hcc : cid0 = cid
          · subst hcc
            rw [if_pos rfl, hw1empty, List.isEmpty_iff.1 he]
          · rw [if_neg hcc]
        · rw [if_neg he, cellObjsAt_cons]
      have huntouched : ∀ h2, h2 ∈ c.objs.map Prod.fst → ¬touchedIn rest h2 := by
        rintro h2 hm ⟨ce2, hce2, hd2, hm2⟩
        have : h2 ∈ (cellObjsAt rest ce2.1).map Prod.fst := by
          unfold cellObjsAt
          rw [mem_alookup hCnd.2 hce2]
          exact hm2
        exact hdisj h2 hm ce2.1 this
      have hfinalHead : ∀ h2 q o, (h2, q) ∈ c.objs →
          alookup objects h2 = some o →
          alookup (cellsSweep (cellSweep objects c.objs).2.1 rest).2.1 h2 =
            objStep o := by
        intro h2 q o hm ho
        rw [cellsSweep_lookup_untouched rest _
          (huntouched h2 (List.mem_map.2 ⟨(h2, q), hm, rfl⟩))]
        exact cellSweep_lookup_in c.objs objects hOnd hPerHead q o hm ho
      refine ⟨?_, ?_, ?_, ?_, ?_, ?_, ?_⟩
      · intro h o ht ho
        rw [touchedIn_cons] at ht
        rcases ht with ⟨-, hm⟩ | ht
        · rcases List.mem_map.1 hm with ⟨e1, he1, rfl⟩
          exact hfinalHead e1.1 e1.2 o he1 ho
        · have hnotin : h ∉ c.objs.map Prod.fst := by
            intro hmem
            exact huntouched h hmem ht
          refine K1 h o ht ?_
          rw [f1 h hnotin, ho]
      · intro cid e he
        rw [hAt2] at he
        by_cases hcc : cid0 = cid
        · rw [if_pos hcc] at he
          rcases cellSweep_kept_sound c.objs objects hPerHead preH e he
            with ⟨q, o, hq, ho, hcase⟩
          rcases hSoundHead (e.1, q) hq with ⟨o2, ho2, hc2, hp2⟩
          rw [ho] at ho2
          cases ho2
          rcases hcase with ⟨hs, hpq⟩ | hs
          · refine ⟨o, ?_, hcc ▸ hc2, by rw [hpq]; exact hp2, hs⟩
            rw [hfinalHead e.1 q o hq ho, objStep_unchanged hs]
          · refine ⟨{ o with state := .unchanged, pos := e.2 }, ?_,
              hcc ▸ hc2, rfl, rfl⟩
            rw [hfinalHead e.1 q o hq ho, objStep_newPos hs]
        · rw [if_neg hcc] at he
          exact K2 cid e he
      · intro cid e he o ho
        by_cases hcc : cid0 = cid
        · subst hcc
          rw [hAt0] at he
          rcases cellSweep_complete c.objs objects hPerHead e.1 e.2 o he ho
            with ⟨c1, c2, c3⟩
          refine ⟨?_, ?_, ?_⟩
          · intro hs
            rw [hAt2, if_pos rfl]
            exact c1 hs
          · intro p hs
            rw [hAt2, if_pos rfl]
            exact c2 p hs
          · intro p t hs
            exact List.mem_append_left _ (c3 p t hs)
        · have he2 : e ∈ cellObjsAt rest cid := by
            rwa [hAtNe cid hcc] at he
          have hnotin := hrestnotin cid e he2
          rcases K3 cid e he2 o (by rw [f1 e.1 hnotin, ho]) with ⟨c1, c2, c3⟩
          refine ⟨?_, ?_, ?_⟩
          · intro hs
            rw [hAt2, if_neg hcc]
            exact c1 hs
          · intro p hs
            rw [hAt2, if_neg hcc]
            exact c2 p hs
          · intro p t hs
            exact List.mem_append_right _ (c3 p t hs)
      · intro e2 he2
        rcases List.mem_append.1 he2 with he2 | he2
        · rcases cellSweep_rels_sound c.objs objects hPerHead e2 he2
            with ⟨q, o, t, hq, ho, hs⟩
          exact ⟨o, t, ho, hs, touchedIn_cons.2 (Or.inl ⟨hd,
            List.mem_map.2 ⟨(e2.1, q), hq, rfl⟩⟩)⟩
        · rcases K4 e2 he2 with ⟨o, t, ho, hs, ht⟩
          have hnotin : e2.1 ∉ c.objs.map Prod.fst := by
            intro hmem
            exact huntouched e2.1 hmem ht
          rw [f1 e2.1 hnotin] at ho
          exact ⟨o, t, ho, hs, touchedIn_cons.2 (Or.inr ht)⟩
      · rw [List.map_append]
        refine List.Nodup.append ?_ K5 ?_
        · exact (cellSweep_rels_handles_sublist c.objs objects).nodup hPerHead
        · intro a ha hb
          have ha2 : a ∈ c.objs.map Prod.fst :=
            (cellSweep_rels_handles_sublist c.objs objects).subset ha
          rcases List.mem_map.1 hb with ⟨e2, he2, rfl⟩
          rcases K4 e2 he2 with ⟨o, t, ho, hs, ht⟩
          exact huntouched e2.1 ha2 ht
      · intro cid
        rw [hAt2]
        by_cases hcc : cid0 = cid
        · rw [if_pos hcc, ← hcc, hAt0]
          exact cellSweep_kept_handles_sublist c.objs objects
        · rw [if_neg hcc, hAtNe cid hcc]
          exact K6 cid
      · intro cid c2 hc2
        by_cases he : (cellSweep objects c.objs).1.isEmpty
        · rw [if_pos he] at hc2
          exact K7 cid c2 hc2
        · rw [if_neg he, alookup_cons] at hc2
          by_cases hcc : cid0 = cid
          · rw [if_pos hcc] at hc2
            cases hc2
            exact fun hh => he (List.isEmpty_iff.2 hh)
          · rw [if_neg hcc] at hc2
            exact K7 cid c2 hc2

/-! ## Lemmas: draining the relocation buffer -/

theorem relocFold_cellObjsAt (s : ℤ) :
    ∀ (rels : List (ℕ × (ℚ × ℚ))) (cs0 : List ((ℤ × ℤ) × GridCell))
      (cid : ℤ × ℤ),
    cellObjsAt (rels.foldl (fun cs e => cellsPush cs (cellIdQ s e.2) e) cs0) cid =
      cellObjsAt cs0 cid ++ rels.filter (fun e => decide (cellIdQ s e.2 = cid)) := by
  intro rels
  induction rels with
  | nil =>
    intro cs0 cid
    simp [List.filter]
  | cons r1 rest ih =>
    intro cs0 cid
    rw [List.foldl_cons, ih, List.filter_cons, cellObjsAt_cellsPush]
    by_cases hcc : cellIdQ s r1.2 = cid
    · rw [if_pos (hcc.symm), if_pos (by simp [hcc])]
      rw [hcc]
      simp
    · rw [if_neg (fun hEq => hcc hEq.symm), if_neg (by simp [hcc])]

theorem relocFold_dirtyAt (s : ℤ) :
    ∀ (rels : List (ℕ × (ℚ × ℚ))) (cs0 : List ((ℤ × ℤ) × GridCell))
      (cid : ℤ × ℤ),
    dirtyAt (rels.foldl (fun cs e => cellsPush cs (cellIdQ s e.2) e) cs0) cid =
      dirtyAt cs0 cid := by
  intro rels
  induction rels with
  | nil =>
    intro cs0 cid
    rfl
  | cons r1 rest ih =>
    intro cs0 cid
    rw [List.foldl_cons, ih, dirtyAt_cellsPush]

theorem relocFold_keys_nodup (s : ℤ) :
    ∀ (rels : List (ℕ × (ℚ × ℚ))) (cs0 : List ((ℤ × ℤ) × GridCell)),
    (cs0.map Prod.fst).Nodup →
    ((rels.foldl (fun cs e => cellsPush cs (cellIdQ s e.2) e) cs0).map
      Prod.fst).Nodup := by
  intro rels
  induction rels with
  | nil =>
    intro cs0 h
    exact h
  | cons r1 rest ih =>
    intro cs0 h
    rw [List.foldl_cons]
    exact ih _ (cellsPush_keys_nodup h _ _)

theorem relocFold_nonempty (s : ℤ) :
    ∀ (rels : List (ℕ × (ℚ × ℚ))) (cs0 : List ((ℤ × ℤ) × GridCell)),
    (∀ cid c, alookup cs0 cid = some c → c.objs ≠ []) →
    ∀ cid c,
      alookup (rels.foldl (fun cs e => cellsPush cs (cellIdQ s e.2) e) cs0) cid
        = some c → c.objs ≠ [] := by
  intro rels
  induction rels with
  | nil =>
    intro cs0 h
    exact h
  | cons r1 rest ih =>
    intro cs0 h
    rw [List.foldl_cons]
    refine ih _ ?_
    intro cid c hc
    rw [alookup_cellsPush] at hc
    by_cases hcc : cid = cellIdQ s r1.2
    · rw [if_pos hcc] at hc
      cases hc
      simp
    · rw [if_neg hcc] at hc
      exact h cid c hc

/-! ## Lemmas: `Grid::maintain` restores the maintained state -/

theorem objStep_state {o o2 : StoreObject O} (h : objStep o = some o2) :
    o2.state = .unchanged := by
  rcases hs : o.state with _ | p | ⟨p, t⟩ | _
  · rw [objStep_unchanged hs] at h
    cases h
    exact hs
  · rw [objStep_newPos hs] at h
    cases h
    rfl
  · rw [objStep_relocate hs] at h
    cases h
    rfl
  · rw [objStep_removed hs] at h
    cases h

theorem objStep_cellOk {s : ℤ} {o o2 : StoreObject O} (hok : stateOk s o)
    (h : objStep o = some o2) : o2.cellId = cellIdQ s o2.pos := by
  rcases hs : o.state with _ | p | ⟨p, t⟩ | _
  · rw [objStep_unchanged hs] at h
    cases h
    unfold stateOk at hok
    rw [hs] at hok
    exact hok
  · rw [objStep_newPos hs] at h
    cases h
    unfold stateOk at hok
    rw [hs] at hok
    exact hok.symm
  · rw [objStep_relocate hs] at h
    cases h
    unfold stateOk at hok
    rw [hs] at hok
    exact hok.1
  · rw [objStep_removed hs] at h
    cases h

theorem maintain_def (g : Grid O) :
    Grid.maintain g =
      { g with
        objects := (cellsSweep g.objects g.cells).2.1,
        cells := (cellsSweep g.objects g.cells).2.2.foldl
          (fun cs e => cellsPush cs (cellIdQ g.cellSize e.2) e)
          (cellsSweep g.objects g.cells).1 } := rfl

theorem maintain_inv {g : Grid O} (hg : Inv g) :
    Inv (Grid.maintain g) ∧ Maintained (Grid.maintain g) := by
  have hClean : ∀ cid, dirtyAt g.cells cid = false →
      ∀ e ∈ cellObjsAt g.cells cid, ∀ o,
      alookup g.objects e.1 = some o → o.state = .unchanged := by
    intro cid hdf e he o ho
    by_cases hs : o.state = .unchanged
    · exact hs
    · exfalso
      have hdirty := hg.staleDirty e.1 o ho hs
      rcases hg.entrySound cid e he with ⟨o2, ho2, hc2, -⟩
      rw [ho] at ho2
      cases ho2
      rw [hc2, hdf] at hdirty
      cases hdirty
  obtain ⟨K1, K2, K3, K4, K5, K6, K7⟩ :=
    cellsSweep_main g.cells g.objects hg.objKeysNodup hg.cellKeysNodup
      hg.cellHandlesNodup hg.entrySound hClean
  have hstep : ∀ h o, alookup g.objects h = some o →
      alookup (cellsSweep g.objects g.cells).2.1 h = objStep o := by
    intro h o ho
    by_cases ht : touchedIn g.cells h
    · exact K1 h o ht ho
    · have hlook := cellsSweep_lookup_untouched g.cells g.objects ht
      have hun : o.state = .unchanged := by
        by_cases hs : o.state = .unchanged
        · exact hs
        · exfalso
          have hdirty := hg.staleDirty h o ho hs
          have hmem := hg.objComplete h o ho
          rcases hcell : alookup g.cells o.cellId with _ | c
          · unfold cellObjsAt at hmem
            rw [hcell] at hmem
            simp at hmem
          · refine ht ⟨(o.cellId, c), alookup_mem hcell, ?_, ?_⟩
            · unfold dirtyAt at hdirty
              rw [hcell] at hdirty
              exact hdirty
            · unfold cellObjsAt at hmem
              rw [hcell] at hmem
              exact List.mem_map.2 ⟨(h, o.pos), hmem, rfl⟩
      rw [hlook, ho, objStep_unchanged hun]
  have hback : ∀ h o2,
      alookup (cellsSweep g.objects g.cells).2.1 h = some o2 →
      ∃ o, alookup g.objects h = some o ∧ objStep o = some o2 := by
    intro h o2 ho2
    have hk : h ∈ g.objects.map Prod.fst := by
      refine (cellsSweep_keys_sublist g.cells g.objects).subset ?_
      exact alookup_isSome.1 (by rw [ho2]; rfl)
    rcases Option.isSome_iff_exists.1 (alookup_isSome.2 hk) with ⟨o, ho⟩
    refine ⟨o, ho, ?_⟩
    rw [← hstep h o ho, ho2]
  have hObjsAtFinal : ∀ cid,
      cellObjsAt (Grid.maintain g).cells cid =
        cellObjsAt (cellsSweep g.objects g.cells).1 cid ++
          (cellsSweep g.objects g.cells).2.2.filter
            (fun e => decide (cellIdQ g.cellSize e.2 = cid)) := by
    intro cid
    rw [maintain_def]
    exact relocFold_cellObjsAt g.cellSize _ _ cid
  have hsound2 : ∀ cid, ∀ e ∈ cellObjsAt (Grid.maintain g).cells cid,
      ∃ o2, alookup (Grid.maintain g).objects e.1 = some o2 ∧
        o2.cellId = cid ∧ o2.pos = e.2 ∧ o2.state = .unchanged := by
    intro cid e he
    rw [hObjsAtFinal cid] at he
    rcases List.mem_append.1 he with he | he
    · rcases K2 cid e he with ⟨o2, ho2, hc2, hp2, hs2⟩
      exact ⟨o2, by rw [maintain_def]; exact ho2, hc2, hp2, hs2⟩
    · rcases List.mem_filter.1 he with ⟨hrel, hcid⟩
      have hcid2 : cellIdQ g.cellSize e.2 = cid := by
        exact of_decide_eq_true hcid
      rcases K4 e hrel with ⟨o, t, ho, hs, -⟩
      have hok := hg.statesOk e.1 o ho
      unfold stateOk at hok
      rw [hs] at hok
      refine ⟨{ o with state := .unchanged, pos := e.2, cellId := t }, ?_, ?_,
        rfl, rfl⟩
      · rw [maintain_def]
        rw [hstep e.1 o ho, objStep_relocate hs]
      · rw [hok.1, hcid2]
  have hcomplete2 : ∀ h o2, alookup (Grid.maintain g).objects h = some o2 →
      (h, o2.pos) ∈ cellObjsAt (Grid.maintain g).cells o2.cellId := by
    intro h o2 ho2
    rw [maintain_def] at ho2
    rcases hback h o2 ho2 with ⟨o, ho, hstepo⟩
    have hmem := hg.objComplete h o ho
    rcases K3 o.cellId (h, o.pos) hmem o ho with ⟨c1, c2, c3⟩
    rcases hs : o.state with _ | p | ⟨p, t⟩ | _
    · rw [objStep_unchanged hs] at hstepo
      cases hstepo
      rw [hObjsAtFinal]
      exact List.mem_append_left _ (c1 hs)
    · rw [objStep_newPos hs] at hstepo
      cases hstepo
      rw [hObjsAtFinal]
      exact List.mem_append_left _ (c2 p hs)
    · rw [objStep_relocate hs] at hstepo
      cases hstepo
      have hok := hg.statesOk h o ho
      unfold stateOk at hok
      rw [hs] at hok
      rw [hObjsAtFinal]
      refine List.mem_append_right _ (List.mem_filter.2 ⟨c3 p t hs, ?_⟩)
      exact decide_eq_true hok.1.symm
    · rw [objStep_removed hs] at hstepo
      cases hstepo
  have hcellnd2 : ∀ cid,
      ((cellObjsAt (Grid.maintain g).cells cid).map Prod.fst).Nodup := by
    intro cid
    rw [hObjsAtFinal cid, List.map_append]
    refine List.Nodup.append ((K6 cid).nodup (hg.cellHandlesNodup cid)) ?_ ?_
    · exact ((List.filter_sublist _).map Prod.fst).nodup K5
    · intro a ha hb
      rcases List.mem_map.1 ha with ⟨e1, he1, rfl⟩
      rcases List.mem_map.1 hb with ⟨e2, he2, heq⟩
      rcases List.mem_filter.1 he2 with ⟨hrel, -⟩
      rcases K4 e2 hrel with ⟨o, t, ho, hs, -⟩
      have hok := hg.statesOk e2.1 o ho
      unfold stateOk at hok
      rw [hs] at hok
      rcases K2 cid e1 he1 with ⟨o2, ho2, hc2, -, -⟩
      rw [← heq] at ho2
      rw [hstep e2.1 o ho, objStep_relocate hs] at ho2
      cases ho2
      have hkey : e2.1 ∈ (cellObjsAt g.cells cid).map Prod.fst :=
        (K6 cid).subset (heq ▸ List.mem_map.2 ⟨e1, he1, rfl⟩)
      rcases List.mem_map.1 hkey with ⟨e3, he3, heq3⟩
      rcases hg.entrySound cid e3 he3 with ⟨o3, ho3, hc3, -⟩
      rw [heq3, ho] at ho3
      cases ho3
      exact hok.2 (hc2.trans hc3.symm)
  constructor
  · refine ⟨hg.cellSizePos, ?_, ?_, ?_, ?_, ?_, ?_, ?_, ?_, ?_⟩
    · rw [maintain_def]
      exact relocFold_keys_nodup _ _ _
        ((cellsSweep_cells_keys_sublist _ _).nodup hg.cellKeysNodup)
    · rw [maintain_def]
      exact cellsSweep_keys_nodup hg.objKeysNodup _
    · intro h o2 ho2
      rw [maintain_def] at ho2
      rcases hback h o2 ho2 with ⟨o, ho, -⟩
      exact hg.handlesLt h o ho
    · intro cid e he
      rcases hsound2 cid e he with ⟨o2, ho2, hc2, hp2, -⟩
      exact ⟨o2, ho2, hc2, hp2⟩
    · intro h o2 ho2
      exact hcomplete2 h o2 ho2
    · exact hcellnd2
    · intro h o2 ho2 hs2
      exfalso
      rw [maintain_def] at ho2
      rcases hback h o2 ho2 with ⟨o, -, hstepo⟩
      exact hs2 (objStep_state hstepo)
    · intro h o2 ho2
      rw [maintain_def] at ho2
      rcases hback h o2 ho2 with ⟨o, ho, hstepo⟩
      unfold stateOk
      rw [objStep_state hstepo]
      exact objStep_cellOk (hg.statesOk h o ho) hstepo
    · intro cid c2 hc2
      rw [maintain_def] at hc2
      exact relocFold_nonempty _ _ _ K7 cid c2 hc2
  · refine ⟨hg.cellSizePos, ?_, ?_, ?_, ?_⟩
    · intro h o2 ho2
      rw [maintain_def] at ho2
      rcases hback h o2 ho2 with ⟨o, -, hstepo⟩
      exact objStep_state hstepo
    · intro h o2 ho2
      rw [maintain_def] at ho2
      rcases hback h o2 ho2 with ⟨o, ho, hstepo⟩
      exact objStep_cellOk (hg.statesOk h o ho) hstepo
    · intro h o2 ho2
      exact hcomplete2 h o2 ho2
    · intro cid e he
      rcases hsound2 cid e he with ⟨o2, ho2, -, hp2, -⟩
      exact ⟨o2, ho2, hp2⟩

theorem reachable_inv {g : Grid O} (hr : Reachable g) : Inv g := by
  induction hr with
  | new s hs => exact inv_new hs
  | insert p o hr ih => exact inv_insert ih p o
  | setPosition h p hr hset ih => exact inv_setPosition ih hset
  | remove h hr hrem ih => exact inv_remove ih hrem
  | maintain hr ih => exact (maintain_inv ih).1

end Grid

/-! ## Lemmas: monotonicity of the cell projection, and agreement with the
floor division on nonnegative in-range coordinates -/

theorem tdiv_le_tdiv_right {s a b : ℤ} (hs : 0 < s) (hab : a ≤ b) :
    a.tdiv s ≤ b.tdiv s := by
  rcases le_or_lt 0 a with ha | ha
  · rw [Int.tdiv_eq_ediv ha hs.le, Int.tdiv_eq_ediv (ha.trans hab) hs.le]
    exact Int.ediv_le_ediv hs hab
  · rcases le_or_lt 0 b with hb | hb
    · have h1 : (-a).tdiv s = -(a.tdiv s) := Int.neg_tdiv a s
      have h2 : (0:ℤ) ≤ (-a).tdiv s := Int.tdiv_nonneg (by omega) hs.le
      have h3 : (0:ℤ) ≤ b.tdiv s := Int.tdiv_nonneg hb hs.le
      omega
    · have h1 : (-a).tdiv s = -(a.tdiv s) := Int.neg_tdiv a s
      have h2 : (-b).tdiv s = -(b.tdiv s) := Int.neg_tdiv b s
      have h3 : (-b).tdiv s ≤ (-a).tdiv s := by
        rw [Int.tdiv_eq_ediv (by omega) hs.le, Int.tdiv_eq_ediv (by omega) hs.le]
        exact Int.ediv_le_ediv hs (by omega)
      omega

theorem ratTrunc_mono {a b : ℚ} (hab : a ≤ b) : ratTrunc a ≤ ratTrunc b := by
  unfold ratTrunc
  rcases le_or_lt 0 a with ha | ha
  · rw [if_pos ha, if_pos (ha.trans hab)]
    exact Int.floor_le_floor hab
  · rcases le_or_lt 0 b with hb | hb
    · rw [if_neg (not_le.2 ha), if_pos hb]
      have h1 : ⌈a⌉ ≤ 0 := Int.ceil_le.2 (by exact_mod_cast ha.le)
      have h2 : (0:ℤ) ≤ ⌊b⌋ := Int.floor_nonneg.2 hb
      omega
    · rw [if_neg (not_le.2 ha), if_neg (not_le.2 hb)]
      exact Int.ceil_le_ceil hab

theorem asI32_mono {a b : ℚ} (hab : a ≤ b) : asI32 a ≤ asI32 b :=
  max_le_max le_rfl (min_le_min le_rfl (ratTrunc_mono hab))

theorem cellIdQ_fst (s : ℤ) (p : ℚ × ℚ) :
    (cellIdQ s p).1 = (asI32 p.1).tdiv s := rfl

theorem cellIdQ_snd (s : ℤ) (p : ℚ × ℚ) :
    (cellIdQ s p).2 = (asI32 p.2).tdiv s := rfl

theorem cellIdQ_fst_mono {s : ℤ} (hs : 0 < s) {p q : ℚ × ℚ}
    (h : p.1 ≤ q.1) : (cellIdQ s p).1 ≤ (cellIdQ s q).1 := by
  rw [cellIdQ_fst, cellIdQ_fst]
  exact tdiv_le_tdiv_right hs (asI32_mono h)

theorem cellIdQ_snd_mono {s : ℤ} (hs : 0 < s) {p q : ℚ × ℚ}
    (h : p.2 ≤ q.2) : (cellIdQ s p).2 ≤ (cellIdQ s q).2 := by
  rw [cellIdQ_snd, cellIdQ_snd]
  exact tdiv_le_tdiv_right hs (asI32_mono h)

theorem floor_ediv_int {x : ℚ} {s : ℤ} (hs : 0 < s) :
    ⌊x / (s:ℚ)⌋ = ⌊x⌋ / s := by
  have hsq : (0:ℚ) < (s:ℚ) := by exact_mod_cast hs
  apply le_antisymm
  · rw [Int.le_ediv_iff_mul_le hs, Int.le_floor]
    push_cast
    rw [← le_div_iff₀ hsq]
    exact Int.floor_le _
  · rw [Int.le_floor, le_div_iff₀ hsq]
    have h1 : (⌊x⌋ / s) * s ≤ ⌊x⌋ := Int.ediv_mul_le ⌊x⌋ hs.ne'
    calc ((⌊x⌋ / s : ℤ) : ℚ) * (s:ℚ) = ((⌊x⌋ / s * s : ℤ) : ℚ) := by push_cast; ring
      _ ≤ ((⌊x⌋ : ℤ) : ℚ) := by exact_mod_cast h1
      _ ≤ x := Int.floor_le x

theorem asI32_of_nonneg_small {x : ℚ} (h0 : 0 ≤ x) (h1 : x < 2147483648) :
    asI32 x = ⌊x⌋ := by
  unfold asI32 ratTrunc
  rw [if_pos h0]
  have hf0 : (0:ℤ) ≤ ⌊x⌋ := Int.floor_nonneg.2 h0
  have hf1 : ⌊x⌋ < 2147483648 := Int.floor_lt.2 (by exact_mod_cast h1)
  rw [min_eq_right (by omega), max_eq_right (by omega)]

theorem tdiv_asI32_eq_floor_div {s : ℤ} (hs : 0 < s) {x : ℚ}
    (h0 : 0 ≤ x) (h1 : x < 2147483648) :
    (asI32 x).tdiv s = ⌊x / (s:ℚ)⌋ := by
  rw [asI32_of_nonneg_small h0 h1,
    Int.tdiv_eq_ediv (Int.floor_nonneg.2 h0) hs.le]
  exact (floor_ediv_int hs).symm


/-! ## Lemmas: the AABB grid (cell maps, removal loop, invariant
preservation, broad-query dedup) -/

namespace AABBGrid

variable {O : Type}

theorem acellObjs_of_alookup {cs : List ((ℤ × ℤ) × AABBCell)} {cid : ℤ × ℤ}
    {c : AABBCell} (h : alookup cs cid = some c) : acellObjs cs cid = c.objs := by
  unfold acellObjs
  rw [h]

theorem alookup_ensureCell (cs : List ((ℤ × ℤ) × AABBCell)) (cid cid2 : ℤ × ℤ) :
    alookup (ensureCell cs cid) cid2 =
      if cid2 = cid then
        some (match alookup cs cid with | some c => c | none => ⟨[]⟩)
      else alookup cs cid2 := by
  induction cs with
  | nil =>
    by_cases h : cid2 = cid
    · simp [ensureCell, alookup, h]
    · simp [ensureCell, alookup, h, Ne.symm h]
  | cons ce r ih =>
    obtain ⟨k, c⟩ := ce
    by_cases hk : k = cid
    · subst hk
      by_cases h2 : cid2 = k
      · subst h2
        simp [ensureCell, alookup_cons]
      · simp [ensureCell, alookup_cons, h2, Ne.symm h2]
    · by_cases h2 : k = cid2
      · subst h2
        simp [ensureCell, alookup_cons, hk, Ne.symm hk]
      · simp [ensureCell, alookup_cons, hk, h2, ih]

theorem acellObjs_ensureCell (cs : List ((ℤ × ℤ) × AABBCell)) (cid cid2 : ℤ × ℤ) :
    acellObjs (ensureCell cs cid) cid2 = acellObjs cs cid2 := by
  unfold acellObjs
  rw [alookup_ensureCell]
  by_cases h : cid2 = cid
  · subst h
    rcases h2 : alookup cs cid2 with _ | c <;> simp [h2]
  · simp [h]

theorem ensureCell_map_fst (cs : List ((ℤ × ℤ) × AABBCell)) (cid : ℤ × ℤ) :
    (ensureCell cs cid).map Prod.fst =
      if cid ∈ cs.map Prod.fst then cs.map Prod.fst
      else cs.map Prod.fst ++ [cid] := by
  induction cs with
  | nil => simp [ensureCell]
  | cons ce r ih =>
    obtain ⟨k, c⟩ := ce
    by_cases hk : k = cid
    · subst hk
      simp [ensureCell]
    · simp only [ensureCell, if_neg hk, List.map_cons, ih]
      by_cases h2 : cid ∈ r.map Prod.fst <;>
        simp [h2, hk, Ne.symm hk]

theorem ensureCell_keys_nodup {cs : List ((ℤ × ℤ) × AABBCell)}
    (hnd : (cs.map Prod.fst).Nodup) (cid : ℤ × ℤ) :
    ((ensureCell cs cid).map Prod.fst).Nodup := by
  rw [ensureCell_map_fst]
  by_cases h : cid ∈ cs.map Prod.fst
  · simpa [h]
  · simp [h, hnd, List.nodup_append]

theorem ensureCell_mem_key (cs : List ((ℤ × ℤ) × AABBCell)) (cid : ℤ × ℤ) :
    cid ∈ (ensureCell cs cid).map Prod.fst := by
  rw [ensureCell_map_fst]
  by_cases h : cid ∈ cs.map Prod.fst <;> simp [h]

theorem alookup_acellPush (cs : List ((ℤ × ℤ) × AABBCell)) (cid : ℤ × ℤ)
    (e : ℕ × Bool) (cid2 : ℤ × ℤ) :
    alookup (acellPush cs cid e) cid2 =
      if cid2 = cid then some ⟨acellObjs cs cid ++ [e]⟩ else alookup cs cid2 := by
  induction cs with
  | nil =>
    by_cases h : cid2 = cid <;>
      simp [acellPush, alookup_cons, h, Ne.symm, acellObjs, alookup]
  | cons ce r ih =>
    obtain ⟨k, c⟩ := ce
    by_cases hk : k = cid
    · subst hk
      by_cases h2 : cid2 = k
      · subst h2
        simp [acellPush, alookup_cons, acellObjs, alookup]
      · simp [acellPush, alookup_cons, h2, Ne.symm h2]
    · by_cases h2 : k = cid2
      · subst h2
        simp [acellPush, alookup_cons, hk, Ne.symm hk]
      · simp only [acellPush, if_neg hk, alookup_cons, if_neg h2, ih]
        by_cases h3 : cid2 = cid
        · subst h3
          simp [acellObjs, alookup_cons, if_neg h2, if_neg hk]
        · simp [h3]

theorem acellObjs_acellPush (cs : List ((ℤ × ℤ) × AABBCell)) (cid : ℤ × ℤ)
    (e : ℕ × Bool) (cid2 : ℤ × ℤ) :
    acellObjs (acellPush cs cid e) cid2 =
      if cid2 = cid then acellObjs cs cid ++ [e] else acellObjs cs cid2 := by
  unfold acellObjs
  rw [alookup_acellPush]
  by_cases h : cid2 = cid <;> simp [h, acellObjs]

theorem acellPush_map_fst (cs : List ((ℤ × ℤ) × AABBCell)) (cid : ℤ × ℤ)
    (e : ℕ × Bool) :
    (acellPush cs cid e).map Prod.fst =
      if cid ∈ cs.map Prod.fst then cs.map Prod.fst
      else cs.map Prod.fst ++ [cid] := by
  induction cs with
  | nil => simp [acellPush]
  | cons ce r ih =>
    obtain ⟨k, c⟩ := ce
    by_cases hk : k = cid
    · subst hk
      simp [acellPush]
    · simp only [acellPush, if_neg hk, List.map_cons, ih]
      by_cases h2 : cid ∈ r.map Prod.fst <;>
        simp [h2, hk, Ne.symm hk]

theorem acellPush_keys_nodup {cs : List ((ℤ × ℤ) × AABBCell)}
    (hnd : (cs.map Prod.fst).Nodup) (cid : ℤ × ℤ) (e : ℕ × Bool) :
    ((acellPush cs cid e).map Prod.fst).Nodup := by
  rw [acellPush_map_fst]
  by_cases h : cid ∈ cs.map Prod.fst
  · simpa [h]
  · simp [h, hnd, List.nodup_append]

theorem acellObjs_acellSetObjs {cs : List ((ℤ × ℤ) × AABBCell)} {cid : ℤ × ℤ}
    (hmem : cid ∈ cs.map Prod.fst) (objs : List (ℕ × Bool)) (cid2 : ℤ × ℤ) :
    acellObjs (acellSetObjs cs cid objs) cid2 =
      if cid2 = cid then objs else acellObjs cs cid2 := by
  unfold acellObjs acellSetObjs
  rw [alookup_aset]
  by_cases h : cid2 = cid
  · rcases Option.isSome_iff_exists.1 (alookup_isSome.2 hmem) with ⟨c, hc⟩
    simp [h, hc]
  · simp [h]

theorem acellSetObjs_map_fst (cs : List ((ℤ × ℤ) × AABBCell)) (cid : ℤ × ℤ)
    (objs : List (ℕ × Bool)) :
    (acellSetObjs cs cid objs).map Prod.fst = cs.map Prod.fst :=
  aset_map_fst cs cid ⟨objs⟩

theorem acellObjs_pushFold (e : ℕ × Bool) :
    ∀ (cids : List (ℤ × ℤ)) (cs : List ((ℤ × ℤ) × AABBCell)) (cid2 : ℤ × ℤ),
    cids.Nodup →
    acellObjs (cids.foldl (fun cs cid => acellPush cs cid (e : ℕ × Bool)) cs) cid2 =
      if cid2 ∈ cids then acellObjs cs cid2 ++ [e] else acellObjs cs cid2
  | [], cs, cid2, _ => by simp
  | cid :: rest, cs, cid2, hnd => by
    rw [List.foldl_cons]
    rw [acellObjs_pushFold e rest (acellPush cs cid e) cid2 (List.nodup_cons.1 hnd).2]
    by_cases h2 : cid2 ∈ rest
    · have hne : cid2 ≠ cid := by
        rintro rfl
        exact (List.nodup_cons.1 hnd).1 h2
      simp [h2, hne, acellObjs_acellPush, List.mem_cons]
    · by_cases h3 : cid2 = cid
      · subst h3
        simp [h2, acellObjs_acellPush]
      · simp [h2, h3, acellObjs_acellPush, List.mem_cons]

theorem pushFold_keys_nodup (e : ℕ × Bool) :
    ∀ (cids : List (ℤ × ℤ)) {cs : List ((ℤ × ℤ) × AABBCell)},
    (cs.map Prod.fst).Nodup →
    ((cids.foldl (fun cs cid => acellPush cs cid (e : ℕ × Bool)) cs).map
      Prod.fst).Nodup
  | [], _, hnd => hnd
  | cid :: rest, cs, hnd => by
    rw [List.foldl_cons]
    exact pushFold_keys_nodup e rest (acellPush_keys_nodup hnd cid e)

theorem findIdx?_decomp {α : Type} {p : α → Bool} :
    ∀ {l : List α} {s i : ℕ}, List.findIdx? p l s = some i →
    ∃ l1 a l2, l = l1 ++ a :: l2 ∧ s + l1.length = i ∧ p a = true ∧
      ∀ b ∈ l1, p b = false
  | [], s, i, h => by simp [List.findIdx?_nil] at h
  | a :: l, s, i, h => by
    rw [List.findIdx?_cons] at h
    by_cases hp : p a
    · rw [if_pos hp] at h
      exact ⟨[], a, l, by simp, by simpa using Option.some.inj h, hp, by simp⟩
    · rw [if_neg hp] at h
      rcases findIdx?_decomp h with ⟨l1, b, l2, rfl, hlen, hb, hl1⟩
      refine ⟨a :: l1, b, l2, by simp, by simp; omega, hb, ?_⟩
      intro c hc
      rcases List.mem_cons.1 hc with rfl | hc
      · exact Bool.not_eq_true _ ▸ (by simpa using hp)
      · exact hl1 c hc

theorem findIdx?_isSome_of_mem {α : Type} {p : α → Bool} :
    ∀ {l : List α} {a : α}, a ∈ l → p a = true → ∀ (s : ℕ),
    (List.findIdx? p l s).isSome
  | [], a, ha, _, _ => by simp at ha
  | b :: l, a, ha, hp, s => by
    rw [List.findIdx?_cons]
    by_cases hb : p b
    · simp [hb]
    · rcases List.mem_cons.1 ha with rfl | ha
      · exact absurd hp hb
      · rw [if_neg hb]
        exact findIdx?_isSome_of_mem ha hp (s + 1)

theorem set_append_len {α : Type} :
    ∀ (l1 : List α) (a x : α) (l2 : List α),
    (l1 ++ a :: l2).set l1.length x = l1 ++ x :: l2
  | [], a, x, l2 => rfl
  | b :: l1, a, x, l2 => by
    simp only [List.cons_append, List.length_cons, List.set_cons_succ]
    rw [set_append_len l1 a x l2]

theorem swapRemove_at {α : Type} (l1 : List α) (a : α) (l2 : List α) :
    (swapRemove (l1 ++ a :: l2) l1.length).Perm (l1 ++ l2) := by
  rcases List.eq_nil_or_concat l2 with rfl | ⟨l2x, b, rfl⟩
  · unfold swapRemove
    rw [show (l1 ++ [a] : List α).getLast? = some a from List.getLast?_concat _]
    show ((l1 ++ [a]).set l1.length a).dropLast.Perm (l1 ++ [])
    rw [set_append_len, List.dropLast_concat]
    simp
  · simp only [List.concat_eq_append]
    unfold swapRemove
    have h1 : l1 ++ a :: (l2x ++ [b]) = (l1 ++ a :: l2x) ++ [b] := by simp
    rw [h1, List.getLast?_concat]
    show (((l1 ++ a :: l2x) ++ [b]).set l1.length b).dropLast.Perm
      (l1 ++ (l2x ++ [b]))
    rw [← h1, set_append_len,
      show l1 ++ b :: (l2x ++ [b]) = (l1 ++ b :: l2x) ++ [b] from by simp,
      List.dropLast_concat]
    refine List.Perm.append_left l1 ?_
    exact (List.perm_append_singleton b l2x).symm

theorem removeCell_perm {l : List (ℕ × Bool)} {h : ℕ} {p : ℕ}
    (hnd : (l.map Prod.fst).Nodup)
    (hfind : l.findIdx? (fun e => decide (e.1 = h)) = some p) :
    (swapRemove l p).Perm (l.filter (fun e => decide (e.1 ≠ h))) := by
  rcases findIdx?_decomp hfind with ⟨l1, a, l2, rfl, hlen, ha, hl1⟩
  have hah : a.1 = h := by simpa using ha
  have hl1h : ∀ b ∈ l1, b.1 ≠ h := by
    intro b hb
    simpa using hl1 b hb
  have hl2h : ∀ b ∈ l2, b.1 ≠ h := by
    intro b hb hbh
    rw [List.map_append, List.map_cons, List.nodup_append] at hnd
    have h2 := (List.nodup_cons.1 hnd.2.1).1
    exact h2 (by rw [hah, ← hbh]; exact List.mem_map.2 ⟨b, hb, rfl⟩)
  have hfilter : (l1 ++ a :: l2).filter (fun e => decide (e.1 ≠ h)) = l1 ++ l2 := by
    rw [List.filter_append, List.filter_cons,
      List.filter_eq_self.2 (fun b hb => by simpa using hl1h b hb),
      List.filter_eq_self.2 (fun b hb => by simpa using hl2h b hb)]
    simp [hah]
  have hp : p = l1.length := by omega
  rw [hfilter, hp]
  exact swapRemove_at l1 a l2

theorem removeCell_mem {l : List (ℕ × Bool)} {h : ℕ} {p : ℕ}
    (hnd : (l.map Prod.fst).Nodup)
    (hfind : l.findIdx? (fun e => decide (e.1 = h)) = some p) (e : ℕ × Bool) :
    e ∈ swapRemove l p ↔ e ∈ l ∧ e.1 ≠ h := by
  rw [(removeCell_perm hnd hfind).mem_iff, List.mem_filter]
  simp

theorem removeCell_nodup {l : List (ℕ × Bool)} {h : ℕ} {p : ℕ}
    (hnd : (l.map Prod.fst).Nodup)
    (hfind : l.findIdx? (fun e => decide (e.1 = h)) = some p) :
    ((swapRemove l p).map Prod.fst).Nodup := by
  refine (((removeCell_perm hnd hfind).map Prod.fst).nodup_iff).2 ?_
  exact ((List.filter_sublist _).map Prod.fst).nodup hnd

theorem removeSteps {h : ℕ} :
    ∀ (cids : List (ℤ × ℤ)) (cs : List ((ℤ × ℤ) × AABBCell)),
    cids.Nodup →
    (cs.map Prod.fst).Nodup →
    (∀ cid, ((acellObjs cs cid).map Prod.fst).Nodup) →
    (∀ cid ∈ cids, h ∈ (acellObjs cs cid).map Prod.fst) →
    removeLoop h cids cs =
      (cids.foldl (fun cs cid =>
        let cs1 := ensureCell cs cid
        match (acellObjs cs1 cid).findIdx? (fun e => e.1 = h) with
        | none => cs1
        | some p => acellSetObjs cs1 cid (swapRemove (acellObjs cs1 cid) p)) cs,
       true) ∧
    (∀ cid2 e, e ∈ acellObjs (removeLoop h cids cs).1 cid2 ↔
      (e ∈ acellObjs cs cid2 ∧ (cid2 ∈ cids → e.1 ≠ h))) ∧
    (∀ cid2, ((acellObjs (removeLoop h cids cs).1 cid2).map Prod.fst).Nodup) ∧
    ((removeLoop h cids cs).1.map Prod.fst).Nodup
  | [], cs, _, hknd, hcnd, _ => by
    refine ⟨by simp [removeLoop], ?_, ?_, ?_⟩
    · intro cid2 e
      simp [removeLoop]
    · intro cid2
      simpa [removeLoop] using hcnd cid2
    · simpa [removeLoop] using hknd
  | cid :: rest, cs, hnd, hknd, hcnd, hpres => by
    have hcid := hpres cid (List.mem_cons_self _ _)
    rcases List.mem_map.1 hcid with ⟨e0, he0, he0h⟩
    have hissome := findIdx?_isSome_of_mem (p := fun e => decide (e.1 = h))
      he0 (by simpa using he0h) 0
    obtain ⟨p, hp⟩ := Option.isSome_iff_exists.1 hissome
    have hobj := acellObjs_ensureCell cs cid cid
    have heq : removeLoop h (cid :: rest) cs =
        removeLoop h rest (acellSetObjs (ensureCell cs cid) cid
          (swapRemove (acellObjs cs cid) p)) := by
      rw [removeLoop]
      simp only [hobj, hp]
    set cs2 := acellSetObjs (ensureCell cs cid) cid
      (swapRemove (acellObjs cs cid) p) with hcs2
    have hkey : cid ∈ (ensureCell cs cid).map Prod.fst := ensureCell_mem_key cs cid
    have hobjs2 : ∀ cid2, acellObjs cs2 cid2 =
        if cid2 = cid then swapRemove (acellObjs cs cid) p
        else acellObjs cs cid2 := by
      intro cid2
      rw [hcs2, acellObjs_acellSetObjs hkey]
      by_cases h2 : cid2 = cid
      · simp [h2]
      · simp [h2, acellObjs_ensureCell]
    have hknd2 : (cs2.map Prod.fst).Nodup := by
      rw [hcs2, acellSetObjs_map_fst]
      exact ensureCell_keys_nodup hknd cid
    have hcnd2 : ∀ cid2, ((acellObjs cs2 cid2).map Prod.fst).Nodup := by
      intro cid2
      rw [hobjs2]
      by_cases h2 : cid2 = cid
      · simpa [h2] using removeCell_nodup (hcnd cid) hp
      · simpa [h2] using hcnd cid2
    have hrest_nd := (List.nodup_cons.1 hnd).2
    have hcid_notin := (List.nodup_cons.1 hnd).1
    have hpres2 : ∀ cid2 ∈ rest, h ∈ (acellObjs cs2 cid2).map Prod.fst := by
      intro cid2 h2
      have hne : cid2 ≠ cid := by
        rintro rfl
        exact hcid_notin h2
      rw [hobjs2, if_neg hne]
      exact hpres cid2 (List.mem_cons_of_mem _ h2)
    obtain ⟨ih1, ih2, ih3, ih4⟩ := removeSteps rest cs2 hrest_nd hknd2 hcnd2 hpres2
    have hfcs : (let cs1 := ensureCell cs cid
        match (acellObjs cs1 cid).findIdx? (fun e => e.1 = h) with
        | none => cs1
        | some p => acellSetObjs cs1 cid (swapRemove (acellObjs cs1 cid) p)) = cs2 := by
      simp only [hobj, hp, hcs2]
    refine ⟨?_, ?_, ?_, ?_⟩
    · rw [heq, ih1, List.foldl_cons, hfcs]
    · intro cid2 e
      rw [heq, ih2 cid2 e, hobjs2 cid2]
      by_cases h2 : cid2 = cid
      · subst h2
        rw [if_pos rfl, removeCell_mem (hcnd cid2) hp e]
        constructor
        · rintro ⟨⟨he, heh⟩, -⟩
          exact ⟨he, fun _ => heh⟩
        · rintro ⟨he, himp⟩
          exact ⟨⟨he, himp (List.mem_cons_self _ _)⟩, fun _ => himp (List.mem_cons_self _ _)⟩
      · rw [if_neg h2]
        constructor
        · rintro ⟨he, himp⟩
          refine ⟨he, fun hm => ?_⟩
          rcases List.mem_cons.1 hm with rfl | hm
          · exact absurd rfl h2
          · exact himp hm
        · rintro ⟨he, himp⟩
          exact ⟨he, fun hm => himp (List.mem_cons_of_mem _ hm)⟩
    · intro cid2
      rw [heq]
      exact ih3 cid2
    · rw [heq]
      exact ih4

theorem rangeOf_cellSize_eq {g g2 : AABBGrid O} (h : g2.cellSize = g.cellSize)
    (b : Box) : rangeOf g2 b = rangeOf g b := by
  unfold rangeOf
  rw [h]

theorem singleOf_cellSize_eq {g g2 : AABBGrid O} (h : g2.cellSize = g.cellSize)
    (b : Box) : singleOf g2 b = singleOf g b := by
  unfold singleOf
  rw [h]

theorem invA_new {s : ℤ} (hs : 0 < s) : InvA (AABBGrid.new O s) := by
  refine ⟨hs, ?_, ?_, ?_, ?_, ?_, ?_⟩ <;>
    simp [AABBGrid.new, alookup, acellObjs]

theorem invA_insert {g : AABBGrid O} (hg : InvA g) (b : Box) (o : O) :
    InvA (AABBGrid.insert g b o).1 := by
  set hnew := g.nextHandle with hh
  set ll := cellIdQ g.cellSize b.ll with hll
  set ur := cellIdQ g.cellSize b.ur with hur
  set cs0 := ensureCell (ensureCell g.cells ll) ur with hcs0
  set sing := decide (ll = ur) with hsing
  set cs := (cellRange ll ur).foldl
    (fun cs cid => acellPush cs cid (hnew, sing)) cs0 with hcs
  have hg2 : (AABBGrid.insert g b o).1 =
      ⟨g.cellSize, cs, (hnew, (b, o)) :: g.objects, hnew + 1⟩ := rfl
  rw [hg2]
  have hfresh : alookup g.objects hnew = none := by
    rcases hl : alookup g.objects hnew with _ | bo
    · rfl
    · exact absurd (hg.handlesLt _ _ hl) (lt_irrefl _)
  have hobjs : ∀ cid2, acellObjs cs cid2 =
      if cid2 ∈ cellRange ll ur then acellObjs g.cells cid2 ++ [(hnew, sing)]
      else acellObjs g.cells cid2 := by
    intro cid2
    rw [hcs, acellObjs_pushFold _ _ _ _ (cellRange_nodup ll ur)]
    simp only [hcs0, acellObjs_ensureCell]
  have hrange2 : ∀ b2 : Box,
      rangeOf (⟨g.cellSize, cs, (hnew, (b, o)) :: g.objects, hnew + 1⟩ :
        AABBGrid O) b2 = rangeOf g b2 := fun b2 => rfl
  have hsingle2 : ∀ b2 : Box,
      singleOf (⟨g.cellSize, cs, (hnew, (b, o)) :: g.objects, hnew + 1⟩ :
        AABBGrid O) b2 = singleOf g b2 := fun b2 => rfl
  have hrangeb : rangeOf g b = cellRange ll ur := rfl
  have hsingb : singleOf g b = sing := rfl
  have hentry_lt : ∀ cid2, ∀ e ∈ acellObjs g.cells cid2, e.1 < hnew := by
    intro cid2 e he
    rcases hg.entrySound cid2 e he with ⟨bo, hbo, -, -⟩
    exact hg.handlesLt _ _ hbo
  have hcell_no_new : ∀ cid2, hnew ∉ (acellObjs g.cells cid2).map Prod.fst := by
    intro cid2 hmem
    rcases List.mem_map.1 hmem with ⟨e, he, heq⟩
    exact absurd (heq ▸ hentry_lt cid2 e he) (lt_irrefl _)
  refine ⟨hg.cellSizePos, ?_, ?_, ?_, ?_, ?_, ?_⟩
  · rw [hcs]
    refine pushFold_keys_nodup _ _ ?_
    rw [hcs0]
    exact ensureCell_keys_nodup (ensureCell_keys_nodup hg.cellKeysNodup ll) ur
  · exact List.nodup_cons.2 ⟨alookup_eq_none.1 hfresh, hg.objKeysNodup⟩
  · intro k bo hbo
    rw [alookup_cons] at hbo
    show k < hnew + 1
    by_cases hk : hnew = k
    · omega
    · rw [if_neg hk] at hbo
      have := hg.handlesLt k bo hbo
      omega
  · intro cid2 e he
    rw [hobjs] at he
    by_cases hin : cid2 ∈ cellRange ll ur
    · rw [if_pos hin] at he
      rcases List.mem_append.1 he with he | he
      · rcases hg.entrySound cid2 e he with ⟨bo, hbo, hr, hf⟩
        have hne : e.1 ≠ hnew := by
          have := hg.handlesLt _ _ hbo
          omega
        refine ⟨bo, ?_, ?_, ?_⟩
        · rw [alookup_cons, if_neg (Ne.symm hne)]
          exact hbo
        · rw [hrange2]
          exact hr
        · rw [hsingle2]
          exact hf
      · simp only [List.mem_singleton] at he
        subst he
        refine ⟨(b, o), ?_, ?_, ?_⟩
        · rw [alookup_cons, if_pos rfl]
        · rw [hrange2, hrangeb]
          exact hin
        · rw [hsingle2, hsingb]
    · rw [if_neg hin] at he
      rcases hg.entrySound cid2 e he with ⟨bo, hbo, hr, hf⟩
      have hne : e.1 ≠ hnew := by
        have := hg.handlesLt _ _ hbo
        omega
      refine ⟨bo, ?_, ?_, ?_⟩
      · rw [alookup_cons, if_neg (Ne.symm hne)]
        exact hbo
      · rw [hrange2]
        exact hr
      · rw [hsingle2]
        exact hf
  · intro k bo hbo cid hcid
    rw [alookup_cons] at hbo
    rw [hrange2] at hcid
    rw [hsingle2]
    by_cases hk : hnew = k
    · rw [if_pos hk] at hbo
      cases hbo
      rw [hrangeb] at hcid
      rw [hobjs, if_pos hcid, hsingb]
      subst hk
      exact List.mem_append_right _ (List.mem_singleton.2 rfl)
    · rw [if_neg hk] at hbo
      have hold := hg.objComplete k bo hbo cid hcid
      rw [hobjs]
      by_cases hin : cid ∈ cellRange ll ur
      · rw [if_pos hin]
        exact List.mem_append_left _ hold
      · rw [if_neg hin]
        exact hold
  · intro cid2
    rw [hobjs]
    by_cases hin : cid2 ∈ cellRange ll ur
    · rw [if_pos hin, List.map_append]
      refine List.Nodup.append (hg.cellHandlesNodup cid2) (by simp) ?_
      intro a ha hb
      simp only [List.map_cons, List.map_nil, List.mem_singleton] at hb
      subst hb
      exact hcell_no_new cid2 ha
    · rw [if_neg hin]
      exact hg.cellHandlesNodup cid2

theorem remove_eq_some {g : AABBGrid O} {h : ℕ} {bo : Box × O}
    (hbo : alookup g.objects h = some bo) :
    AABBGrid.remove g h = some (bo.2,
      { g with objects := aremove g.objects h,
               cells := (cellRange (cellIdQ g.cellSize bo.1.ll)
                   (cellIdQ g.cellSize bo.1.ur)).foldl (fun cs cid =>
                 let cs1 := ensureCell cs cid
                 match (acellObjs cs1 cid).findIdx? (fun e => e.1 = h) with
                 | none => cs1
                 | some p => acellSetObjs cs1 cid (swapRemove (acellObjs cs1 cid) p))
                 (ensureCell (ensureCell g.cells (cellIdQ g.cellSize bo.1.ll))
                   (cellIdQ g.cellSize bo.1.ur)) }) := by
  unfold AABBGrid.remove
  rw [hbo]

theorem invA_remove {g g2 : AABBGrid O} (hg : InvA g) {h : ℕ} {o : O}
    (hrem : AABBGrid.remove g h = some (o, g2)) : InvA g2 := by
  rcases hbo : alookup g.objects h with _ | bo
  · unfold AABBGrid.remove at hrem
    rw [hbo] at hrem
    cases hrem
  · rw [remove_eq_some hbo] at hrem
    obtain rfl := (congrArg Prod.snd (Option.some.inj hrem))
    set ll := cellIdQ g.cellSize bo.1.ll with hll
    set ur := cellIdQ g.cellSize bo.1.ur with hur
    set cs0 := ensureCell (ensureCell g.cells ll) ur with hcs0
    have hobjs0 : ∀ cid2, acellObjs cs0 cid2 = acellObjs g.cells cid2 := by
      intro cid2
      rw [hcs0, acellObjs_ensureCell, acellObjs_ensureCell]
    have hknd0 : (cs0.map Prod.fst).Nodup := by
      rw [hcs0]
      exact ensureCell_keys_nodup (ensureCell_keys_nodup hg.cellKeysNodup _) _
    have hcnd0 : ∀ cid2, ((acellObjs cs0 cid2).map Prod.fst).Nodup := by
      intro cid2
      rw [hobjs0]
      exact hg.cellHandlesNodup cid2
    have hrange_bo : rangeOf g bo.1 = cellRange ll ur := by
      rw [hll, hur]
      rfl
    have hpres0 : ∀ cid ∈ cellRange ll ur, h ∈ (acellObjs cs0 cid).map Prod.fst := by
      intro cid hcid
      rw [hobjs0]
      exact List.mem_map.2
        ⟨(h, singleOf g bo.1), hg.objComplete h bo hbo cid (hrange_bo ▸ hcid), rfl⟩
    obtain ⟨ih1, ih2, ih3, ih4⟩ := removeSteps (cellRange ll ur) cs0
      (cellRange_nodup ll ur) hknd0 hcnd0 hpres0
    have hfold : (cellRange ll ur).foldl (fun cs cid =>
          let cs1 := ensureCell cs cid
          match (acellObjs cs1 cid).findIdx? (fun e => e.1 = h) with
          | none => cs1
          | some p => acellSetObjs cs1 cid (swapRemove (acellObjs cs1 cid) p)) cs0 =
        (removeLoop h (cellRange ll ur) cs0).1 := by
      rw [ih1]
    rw [hfold]
    set csf := (removeLoop h (cellRange ll ur) cs0).1 with hcsf
    have hlook : ∀ k, alookup (aremove g.objects h) k =
        if k = h then none else alookup g.objects k :=
      alookup_aremove hg.objKeysNodup h
    have hrange3 : ∀ b2 : Box,
        rangeOf ({ g with objects := aremove g.objects h, cells := csf } :
          AABBGrid O) b2 = rangeOf g b2 := fun _ => rfl
    have hsingle3 : ∀ b2 : Box,
        singleOf ({ g with objects := aremove g.objects h, cells := csf } :
          AABBGrid O) b2 = singleOf g b2 := fun _ => rfl
    have hnoth : ∀ cid2, ∀ e, e ∈ acellObjs csf cid2 →
        e ∈ acellObjs g.cells cid2 ∧ e.1 ≠ h := by
      intro cid2 e he
      rw [ih2 cid2 e, hobjs0] at he
      refine ⟨he.1, ?_⟩
      rcases hg.entrySound cid2 e he.1 with ⟨bo2, hbo2, hr2, -⟩
      intro heh
      rw [heh, hbo] at hbo2
      cases hbo2
      exact (he.2 (hrange_bo ▸ hr2)) heh
    refine ⟨hg.cellSizePos, ih4, ?_, ?_, ?_, ?_, ?_⟩
    · exact (aremove_map_fst_sublist g.objects h).nodup hg.objKeysNodup
    · intro k bo2 hbo2
      rw [hlook] at hbo2
      by_cases hk : k = h
      · rw [if_pos hk] at hbo2
        cases hbo2
      · rw [if_neg hk] at hbo2
        exact hg.handlesLt k bo2 hbo2
    · intro cid2 e he
      rcases hnoth cid2 e he with ⟨hold, hne⟩
      rcases hg.entrySound cid2 e hold with ⟨bo2, hbo2, hr2, hf2⟩
      refine ⟨bo2, ?_, ?_, ?_⟩
      · rw [hlook, if_neg hne]
        exact hbo2
      · rw [hrange3]
        exact hr2
      · rw [hsingle3]
        exact hf2
    · intro k bo2 hbo2 cid hcid
      rw [hlook] at hbo2
      by_cases hk : k = h
      · rw [if_pos hk] at hbo2
        cases hbo2
      · rw [if_neg hk] at hbo2
        rw [hrange3] at hcid
        rw [hsingle3]
        have hold := hg.objComplete k bo2 hbo2 cid hcid
        rw [hcsf, ih2]
        refine ⟨by rw [hobjs0]; exact hold, fun _ => hk⟩
    · intro cid2
      exact ih3 cid2

theorem invA_setAABB {g g2 : AABBGrid O} (hg : InvA g) {h : ℕ} {b : Box}
    (hset : AABBGrid.setAABB g h b = some g2) : InvA g2 := by
  rcases hbo : alookup g.objects h with _ | bo
  · unfold AABBGrid.setAABB at hset
    rw [hbo] at hset
    cases hset
  · have hdef : AABBGrid.setAABB g h b =
        (if cellIdQ g.cellSize bo.1.ll = cellIdQ g.cellSize b.ll ∧
            cellIdQ g.cellSize bo.1.ur = cellIdQ g.cellSize b.ur then
          some { g with
                 cells := ensureCell (ensureCell (ensureCell (ensureCell g.cells
                     (cellIdQ g.cellSize bo.1.ll)) (cellIdQ g.cellSize bo.1.ur))
                   (cellIdQ g.cellSize b.ll)) (cellIdQ g.cellSize b.ur),
                 objects := aset g.objects h (b, bo.2) }
        else if (removeLoop h
            (cellRange (cellIdQ g.cellSize bo.1.ll) (cellIdQ g.cellSize bo.1.ur))
            (ensureCell (ensureCell (ensureCell (ensureCell g.cells
                (cellIdQ g.cellSize bo.1.ll)) (cellIdQ g.cellSize bo.1.ur))
              (cellIdQ g.cellSize b.ll)) (cellIdQ g.cellSize b.ur))).2 then
          some { g with
                 objects := aset g.objects h (b, bo.2),
                 cells := (cellRange (cellIdQ g.cellSize b.ll)
                     (cellIdQ g.cellSize b.ur)).foldl
                   (fun cs cid => acellPush cs cid
                     (h, decide (cellIdQ g.cellSize b.ll = cellIdQ g.cellSize b.ur)))
                   (removeLoop h
                     (cellRange (cellIdQ g.cellSize bo.1.ll)
                       (cellIdQ g.cellSize bo.1.ur))
                     (ensureCell (ensureCell (ensureCell (ensureCell g.cells
                         (cellIdQ g.cellSize bo.1.ll)) (cellIdQ g.cellSize bo.1.ur))
                       (cellIdQ g.cellSize b.ll)) (cellIdQ g.cellSize b.ur))).1 }
        else
          some { g with
                 objects := aset g.objects h (b, bo.2),
                 cells := (removeLoop h
                   (cellRange (cellIdQ g.cellSize bo.1.ll)
                     (cellIdQ g.cellSize bo.1.ur))
                   (ensureCell (ensureCell (ensureCell (ensureCell g.cells
                       (cellIdQ g.cellSize bo.1.ll)) (cellIdQ g.cellSize bo.1.ur))
                     (cellIdQ g.cellSize b.ll)) (cellIdQ g.cellSize b.ur))).1 }) := by
      unfold AABBGrid.setAABB
      rw [hbo]
    set oll := cellIdQ g.cellSize bo.1.ll with holl
    set our := cellIdQ g.cellSize bo.1.ur with hour
    set nll := cellIdQ g.cellSize b.ll with hnll
    set nur := cellIdQ g.cellSize b.ur with hnur
    set cs0 := ensureCell (ensureCell (ensureCell (ensureCell g.cells oll) our)
      nll) nur with hcs0
    rw [hdef] at hset
    have hobjs0 : ∀ cid2, acellObjs cs0 cid2 = acellObjs g.cells cid2 := by
      intro cid2
      rw [hcs0, acellObjs_ensureCell, acellObjs_ensureCell, acellObjs_ensureCell,
        acellObjs_ensureCell]
    have hknd0 : (cs0.map Prod.fst).Nodup := by
      rw [hcs0]
      exact ensureCell_keys_nodup (ensureCell_keys_nodup (ensureCell_keys_nodup
        (ensureCell_keys_nodup hg.cellKeysNodup _) _) _) _
    have hcnd0 : ∀ cid2, ((acellObjs cs0 cid2).map Prod.fst).Nodup := by
      intro cid2
      rw [hobjs0]
      exact hg.cellHandlesNodup cid2
    have hrange_bo : rangeOf g bo.1 = cellRange oll our := by
      rw [holl, hour]
      rfl
    have hrange_b : rangeOf g b = cellRange nll nur := by
      rw [hnll, hnur]
      rfl
    have hsing_bo : singleOf g bo.1 = decide (oll = our) := by
      rw [holl, hour]
      rfl
    have hsing_b : singleOf g b = decide (nll = nur) := by
      rw [hnll, hnur]
      rfl
    have hlook2 : ∀ k, alookup (aset g.objects h (b, bo.2)) k =
        if k = h then some (b, bo.2) else alookup g.objects k := by
      intro k
      rw [alookup_aset]
      by_cases hk : k = h
      · simp [hk, hbo]
      · simp [hk]
    have hond2 : ((aset g.objects h (b, bo.2)).map Prod.fst).Nodup := by
      rw [aset_map_fst]
      exact hg.objKeysNodup
    have hlt2 : ∀ k bo2, alookup (aset g.objects h (b, bo.2)) k = some bo2 →
        k < g.nextHandle := by
      intro k bo2 hk2
      rw [hlook2] at hk2
      by_cases hk : k = h
      · rw [if_pos hk] at hk2
        exact hk ▸ hg.handlesLt h bo hbo
      · rw [if_neg hk] at hk2
        exact hg.handlesLt k bo2 hk2
    have hpres0 : ∀ cid ∈ cellRange oll our, h ∈ (acellObjs cs0 cid).map Prod.fst := by
      intro cid hcid
      rw [hobjs0]
      exact List.mem_map.2
        ⟨(h, singleOf g bo.1), hg.objComplete h bo hbo cid (hrange_bo ▸ hcid), rfl⟩
    obtain ⟨ih1, ih2, ih3, ih4⟩ := removeSteps (cellRange oll our) cs0
      (cellRange_nodup oll our) hknd0 hcnd0 hpres0
    by_cases hcond : oll = nll ∧ our = nur
    · rw [if_pos hcond] at hset
      obtain rfl := Option.some.inj hset
      have hrangeA : ∀ b2 : Box,
          rangeOf ({ g with cells := cs0, objects := aset g.objects h (b, bo.2) } :
            AABBGrid O) b2 = rangeOf g b2 := fun _ => rfl
      have hsingleA : ∀ b2 : Box,
          singleOf ({ g with cells := cs0, objects := aset g.objects h (b, bo.2) } :
            AABBGrid O) b2 = singleOf g b2 := fun _ => rfl
      have hrange_eq : rangeOf g b = rangeOf g bo.1 := by
        rw [hrange_b, hrange_bo, hcond.1, hcond.2]
      have hsing_eq : singleOf g b = singleOf g bo.1 := by
        rw [hsing_b, hsing_bo, hcond.1, hcond.2]
      refine ⟨hg.cellSizePos, hknd0, hond2, hlt2, ?_, ?_, ?_⟩
      · intro cid2 e he
        rw [hobjs0] at he
        rcases hg.entrySound cid2 e he with ⟨bo2, hbo2, hr2, hf2⟩
        by_cases hk : e.1 = h
        · rw [hk, hbo] at hbo2
          cases hbo2
          refine ⟨(b, bo.2), ?_, ?_, ?_⟩
          · rw [hlook2, if_pos hk]
          · rw [hrangeA, hrange_eq]
            exact hr2
          · rw [hsingleA, hsing_eq]
            exact hf2
        · refine ⟨bo2, ?_, ?_, ?_⟩
          · rw [hlook2, if_neg hk]
            exact hbo2
          · rw [hrangeA]
            exact hr2
          · rw [hsingleA]
            exact hf2
      · intro k bo2 hbo2 cid hcid
        rw [hlook2] at hbo2
        rw [hrangeA] at hcid
        rw [hsingleA]
        by_cases hk : k = h
        · rw [if_pos hk] at hbo2
          cases hbo2
          rw [hrange_eq] at hcid
          rw [hobjs0, hsing_eq, hk]
          exact hg.objComplete h bo hbo cid hcid
        · rw [if_neg hk] at hbo2
          rw [hobjs0]
          exact hg.objComplete k bo2 hbo2 cid hcid
      · intro cid2
        rw [hobjs0]
        exact hg.cellHandlesNodup cid2
    · rw [if_neg hcond] at hset
      have hz2 : (removeLoop h (cellRange oll our) cs0).2 = true := by
        rw [ih1]
      rw [if_pos hz2] at hset
      obtain rfl := Option.some.inj hset
      set z1 := (removeLoop h (cellRange oll our) cs0).1 with hz1
      set csf := (cellRange nll nur).foldl
        (fun cs cid => acellPush cs cid (h, decide (nll = nur))) z1 with hcsf
      have hnoth : ∀ cid2, ∀ e, e ∈ acellObjs z1 cid2 →
          e ∈ acellObjs g.cells cid2 ∧ e.1 ≠ h := by
        intro cid2 e he
        rw [hz1, ih2 cid2 e, hobjs0] at he
        refine ⟨he.1, ?_⟩
        rcases hg.entrySound cid2 e he.1 with ⟨bo2, hbo2, hr2, -⟩
        intro heh
        rw [heh, hbo] at hbo2
        cases hbo2
        exact (he.2 (hrange_bo ▸ hr2)) heh
      have hpushf : ∀ cid2, acellObjs csf cid2 =
          if cid2 ∈ cellRange nll nur then
            acellObjs z1 cid2 ++ [(h, decide (nll = nur))]
          else acellObjs z1 cid2 := by
        intro cid2
        rw [hcsf, acellObjs_pushFold _ _ _ _ (cellRange_nodup nll nur)]
      have hrangeB : ∀ b2 : Box,
          rangeOf ({ g with objects := aset g.objects h (b, bo.2), cells := csf } :
            AABBGrid O) b2 = rangeOf g b2 := fun _ => rfl
      have hsingleB : ∀ b2 : Box,
          singleOf ({ g with objects := aset g.objects h (b, bo.2), cells := csf } :
            AABBGrid O) b2 = singleOf g b2 := fun _ => rfl
      refine ⟨hg.cellSizePos, ?_, hond2, hlt2, ?_, ?_, ?_⟩
      · rw [hcsf]
        exact pushFold_keys_nodup _ _ ih4
      · intro cid2 e he
        rw [hpushf] at he
        have hmain : ∀ e2, e2 ∈ acellObjs z1 cid2 →
            ∃ bo2, alookup (aset g.objects h (b, bo.2)) e2.1 = some bo2 ∧
              cid2 ∈ rangeOf g bo2.1 ∧ e2.2 = singleOf g bo2.1 := by
          intro e2 he2
          rcases hnoth cid2 e2 he2 with ⟨hold, hne⟩
          rcases hg.entrySound cid2 e2 hold with ⟨bo2, hbo2, hr2, hf2⟩
          refine ⟨bo2, ?_, hr2, hf2⟩
          rw [hlook2, if_neg hne]
          exact hbo2
        by_cases hin : cid2 ∈ cellRange nll nur
        · rw [if_pos hin] at he
          rcases List.mem_append.1 he with he | he
          · rcases hmain e he with ⟨bo2, hbo2, hr2, hf2⟩
            refine ⟨bo2, hbo2, ?_, ?_⟩
            · rw [hrangeB]
              exact hr2
            · rw [hsingleB]
              exact hf2
          · simp only [List.mem_singleton] at he
            subst he
            refine ⟨(b, bo.2), ?_, ?_, ?_⟩
            · rw [hlook2, if_pos rfl]
            · rw [hrangeB, hrange_b]
              exact hin
            · rw [hsingleB, hsing_b]
        · rw [if_neg hin] at he
          rcases hmain e he with ⟨bo2, hbo2, hr2, hf2⟩
          refine ⟨bo2, hbo2, ?_, ?_⟩
          · rw [hrangeB]
            exact hr2
          · rw [hsingleB]
            exact hf2
      · intro k bo2 hbo2 cid hcid
        rw [hlook2] at hbo2
        rw [hrangeB] at hcid
        rw [hsingleB, hpushf]
        by_cases hk : k = h
        · rw [if_pos hk] at hbo2
          cases hbo2
          rw [hrange_b] at hcid
          rw [if_pos hcid, hsing_b, hk]
          exact List.mem_append_right _ (List.mem_singleton.2 rfl)
        · rw [if_neg hk] at hbo2
          have hold := hg.objComplete k bo2 hbo2 cid hcid
          have hz1mem : (k, singleOf g bo2.1) ∈ acellObjs z1 cid := by
            rw [hz1, ih2]
            exact ⟨by rw [hobjs0]; exact hold, fun _ => hk⟩
          by_cases hin : cid ∈ cellRange nll nur
          · rw [if_pos hin]
            exact List.mem_append_left _ hz1mem
          · rw [if_neg hin]
            exact hz1mem
      · intro cid2
        rw [hpushf]
        by_cases hin : cid2 ∈ cellRange nll nur
        · rw [if_pos hin, List.map_append]
          refine List.Nodup.append (hz1 ▸ ih3 cid2) (by simp) ?_
          intro a ha hb
          simp only [List.map_cons, List.map_nil, List.mem_singleton] at hb
          subst hb
          rcases List.mem_map.1 ha with ⟨e, he, heq⟩
          exact (hnoth cid2 e he).2 heq
        · rw [if_neg hin]
          exact hz1 ▸ ih3 cid2

theorem reachableA_inv {g : AABBGrid O} (hr : ReachableA g) : InvA g := by
  induction hr with
  | new s hs => exact invA_new hs
  | insert b o hr ih => exact invA_insert ih b o
  | setAABB h b hr hset ih => exact invA_setAABB ih hset
  | remove h o hr hrem ih => exact invA_remove ih hrem

theorem rangeInt_self (a : ℤ) : rangeInt a a = [a] := by
  unfold rangeInt
  norm_num [List.range_succ]

theorem cellRange_self (x : ℤ × ℤ) : cellRange x x = [x] := by
  unfold cellRange
  rw [rangeInt_self, rangeInt_self]
  simp

theorem countP_cons_self (w : ℕ) (sing : Bool) (rest : List (ℕ × Bool)) :
    ((w, sing) :: rest).countP (fun e => decide (e.1 = w)) =
      rest.countP (fun e => decide (e.1 = w)) + 1 := by
  rw [List.countP_cons]
  norm_num

theorem countP_cons_le (e : ℕ × Bool) (rest : List (ℕ × Bool)) (hh : ℕ) :
    rest.countP (fun e => decide (e.1 = hh)) ≤
      (e :: rest).countP (fun e => decide (e.1 = hh)) := by
  rw [List.countP_cons]
  omega

theorem countP_to_count (hh : ℕ) :
    ∀ (l : List (ℕ × Bool)),
    l.countP (fun e => decide (e.1 = hh)) = (l.map Prod.fst).count hh
  | [] => by simp
  | e :: r => by
    rw [List.countP_cons, List.map_cons, List.count_cons,
      countP_to_count hh r]
    by_cases he : e.1 = hh <;> simp [he]

theorem countP_flatMap_zero {α β : Type} {pr : α → Bool} {f : β → List α} :
    ∀ {cids : List β}, (∀ c ∈ cids, (f c).countP pr = 0) →
    (cids.flatMap f).countP pr = 0
  | [], _ => by simp
  | c :: rest, h0 => by
    rw [List.flatMap_cons, List.countP_append,
      h0 c (List.mem_cons_self _ _),
      countP_flatMap_zero (fun c2 hc2 => h0 c2 (List.mem_cons_of_mem _ hc2))]

theorem countP_flatMap_le_one {α β : Type} {pr : α → Bool} {f : β → List α}
    {x : β} :
    ∀ {cids : List β}, cids.Nodup →
    (∀ c ∈ cids, c ≠ x → (f c).countP pr = 0) →
    (f x).countP pr ≤ 1 →
    (cids.flatMap f).countP pr ≤ 1
  | [], _, _, _ => by simp
  | c :: rest, hnd, h0, h1 => by
    rw [List.flatMap_cons, List.countP_append]
    by_cases hc : c = x
    · subst hc
      have hz : (rest.flatMap f).countP pr = 0 :=
        countP_flatMap_zero (fun c2 hc2 => h0 c2 (List.mem_cons_of_mem _ hc2)
          (fun he => (List.nodup_cons.1 hnd).1 (he ▸ hc2)))
      omega
    · rw [h0 c (List.mem_cons_self _ _) hc]
      have := countP_flatMap_le_one (x := x) (List.nodup_cons.1 hnd).2
        (fun c2 hc2 hne => h0 c2 (List.mem_cons_of_mem _ hc2) hne) h1
      omega

theorem stream_true_once {g : AABBGrid O} (hg : InvA g) {hh : ℕ}
    (llid urid : ℤ × ℤ) (hmem : (hh, true) ∈ stream g llid urid) :
    (stream g llid urid).countP (fun e => decide (e.1 = hh)) ≤ 1 := by
  unfold stream at hmem ⊢
  rcases List.mem_flatMap.1 hmem with ⟨cid, hcid, hcell⟩
  rcases hg.entrySound cid (hh, true) hcell with ⟨bo, hbo, hr, hf⟩
  have heq : cellIdQ g.cellSize bo.1.ll = cellIdQ g.cellSize bo.1.ur :=
    of_decide_eq_true hf.symm
  have hrange : rangeOf g bo.1 = [cellIdQ g.cellSize bo.1.ll] := by
    unfold rangeOf
    rw [← heq]
    exact cellRange_self _
  have hcid_eq : cid = cellIdQ g.cellSize bo.1.ll := by
    rw [hrange] at hr
    simpa using hr
  refine countP_flatMap_le_one (x := cid) (cellRange_nodup llid urid) ?_ ?_
  · intro c2 _ hne
    rw [countP_to_count, List.count_eq_zero]
    intro hmem2
    rcases List.mem_map.1 hmem2 with ⟨e, he, heh⟩
    rcases hg.entrySound c2 e he with ⟨bo2, hbo2, hr2, -⟩
    rw [heh, hbo] at hbo2
    cases hbo2
    rw [hrange] at hr2
    simp only [List.mem_singleton] at hr2
    exact hne (hr2.trans hcid_eq.symm)
  · rw [countP_to_count]
    exact List.nodup_iff_count_le_one.1 (hg.cellHandlesNodup cid) hh

theorem dedupRun_subset : ∀ (seen : List ℕ) (l : List (ℕ × Bool)) (v : ℕ),
    v ∈ dedupRun seen l → v ∈ l.map Prod.fst
  | _, [], v, h => by simp [dedupRun] at h
  | seen, (w, false) :: rest, v, h => by
    rw [dedupRun, if_neg Bool.false_ne_true] at h
    simp only [List.map_cons]
    by_cases hv : w ∈ seen
    · rw [if_pos hv] at h
      exact List.mem_cons_of_mem _ (dedupRun_subset seen rest v h)
    · rw [if_neg hv] at h
      rcases List.mem_cons.1 h with rfl | h
      · exact List.mem_cons_self _ _
      · exact List.mem_cons_of_mem _ (dedupRun_subset _ rest v h)
  | seen, (w, true) :: rest, v, h => by
    rw [dedupRun, if_pos rfl] at h
    simp only [List.map_cons]
    rcases List.mem_cons.1 h with rfl | h
    · exact List.mem_cons_self _ _
    · exact List.mem_cons_of_mem _ (dedupRun_subset seen rest v h)

theorem dedupRun_mem_of_seen : ∀ (seen : List ℕ) (l : List (ℕ × Bool)) (v : ℕ),
    v ∈ dedupRun seen l → v ∈ seen → (v, true) ∈ l
  | _, [], v, h, _ => by simp [dedupRun] at h
  | seen, (w, true) :: rest, v, h, hs => by
    rw [dedupRun, if_pos rfl] at h
    rcases List.mem_cons.1 h with rfl | h
    · exact List.mem_cons_self _ _
    · exact List.mem_cons_of_mem _ (dedupRun_mem_of_seen seen rest v h hs)
  | seen, (w, false) :: rest, v, h, hs => by
    rw [dedupRun, if_neg Bool.false_ne_true] at h
    by_cases hv : w ∈ seen
    · rw [if_pos hv] at h
      exact List.mem_cons_of_mem _ (dedupRun_mem_of_seen seen rest v h hs)
    · rw [if_neg hv] at h
      rcases List.mem_cons.1 h with rfl | h
      · exact absurd hs hv
      · exact List.mem_cons_of_mem _
          (dedupRun_mem_of_seen _ rest v h (List.mem_cons_of_mem _ hs))

theorem dedupRun_nodup : ∀ (seen : List ℕ) (l : List (ℕ × Bool)),
    (∀ hh : ℕ, (hh, true) ∈ l → l.countP (fun e => decide (e.1 = hh)) ≤ 1) →
    (dedupRun seen l).Nodup
  | _, [], _ => by simp [dedupRun]
  | seen, (w, true) :: rest, h1 => by
    rw [dedupRun, if_pos rfl]
    refine List.nodup_cons.2 ⟨?_, ?_⟩
    · intro hmem
      have hw := dedupRun_subset seen rest w hmem
      rcases List.mem_map.1 hw with ⟨e, he, heq⟩
      have hcount := h1 w (List.mem_cons_self _ _)
      rw [countP_cons_self] at hcount
      have hpos : 0 < rest.countP (fun e => decide (e.1 = w)) :=
        List.countP_pos_iff.2 ⟨e, he, by simp [heq]⟩
      omega
    · refine dedupRun_nodup seen rest ?_
      intro hh hmem
      have h2 := h1 hh (List.mem_cons_of_mem _ hmem)
      have h3 := countP_cons_le (w, true) rest hh
      omega
  | seen, (w, false) :: rest, h1 => by
    rw [dedupRun, if_neg Bool.false_ne_true]
    by_cases hv : w ∈ seen
    · rw [if_pos hv]
      refine dedupRun_nodup seen rest ?_
      intro hh hmem
      have h2 := h1 hh (List.mem_cons_of_mem _ hmem)
      have h3 := countP_cons_le (w, false) rest hh
      omega
    · rw [if_neg hv]
      refine List.nodup_cons.2 ⟨?_, ?_⟩
      · intro hmem
        have htrue := dedupRun_mem_of_seen (w :: seen) rest w hmem
          (List.mem_cons_self _ _)
        have hcount := h1 w (List.mem_cons_of_mem _ htrue)
        rw [countP_cons_self] at hcount
        have hpos : 0 < rest.countP (fun e => decide (e.1 = w)) :=
          List.countP_pos_iff.2 ⟨(w, true), htrue, by simp⟩
        omega
      · refine dedupRun_nodup (w :: seen) rest ?_
        intro hh hmem
        have h2 := h1 hh (List.mem_cons_of_mem _ hmem)
        have h3 := countP_cons_le (w, false) rest hh
        omega

end AABBGrid


end FlatSpatial

namespace FlatSpatial

/-- C1: the cell projection is NOT the floor division `(⌊x/s⌋, ⌊y/s⌋)` in
general: Rust's `as i32` cast truncates toward zero and `i32` division
truncates toward zero, so `cell_id` agrees with the floor semantics only
away from the negative axes.  Amended: for a positive cell size and
nonnegative in-`i32`-range coordinates, `cell_id` computes
`(⌊x/s⌋, ⌊y/s⌋)`. -/
theorem C1_cellId_floor_nonneg {s : ℤ} (hs : 0 < s) (p : ℚ × ℚ)
    (hx0 : 0 ≤ p.1) (hx1 : p.1 < 2147483648) (hy0 : 0 ≤ p.2)
    (hy1 : p.2 < 2147483648) :
    cellIdQ s p = (⌊p.1 / (s:ℚ)⌋, ⌊p.2 / (s:ℚ)⌋) := by
  unfold cellIdQ i32Div
  rw [tdiv_asI32_eq_floor_div hs hx0 hx1, tdiv_asI32_eq_floor_div hs hy0 hy1]

/-- C1, counterexample: at `x = -1`, `s = 10` the code yields cell 0, not
the floor-semantics cell -1 claimed by the specification. -/
theorem C1_trunc_cex :
    cellIdQ 10 (-1, 0) = (0, 0) ∧
    (⌊(-1:ℚ) / ((10:ℤ):ℚ)⌋, ⌊(0:ℚ) / ((10:ℤ):ℚ)⌋) = (-1, 0) := by
  constructor
  · norm_num [cellIdQ, i32Div, asI32, ratTrunc]
    decide
  · norm_num

/-- C1, witness: the amended statement at `s = 10`, `p = (25, 7)`. -/
theorem C1_floor_witness :
    (0:ℤ) < 10 ∧ (0:ℚ) ≤ 25 ∧ (25:ℚ) < 2147483648 ∧ (0:ℚ) ≤ 7 ∧
    (7:ℚ) < 2147483648 ∧
    cellIdQ 10 (25, 7) = (⌊(25:ℚ) / ((10:ℤ):ℚ)⌋, ⌊(7:ℚ) / ((10:ℤ):ℚ)⌋) :=
  ⟨by decide, by norm_num, by norm_num, by norm_num, by norm_num,
   C1_cellId_floor_nonneg (by decide) (25, 7) (by norm_num) (by norm_num)
     (by norm_num) (by norm_num)⟩

/-- C2: over the default sparse storage, for a maintained grid and a
nonnegative radius, `query_around(c, r)` yields exactly the entries of live
objects at squared distance strictly below `r²` (amended: the spec's claim
fails for dense storage, see the counterexample, and needs `0 ≤ r`). -/
theorem C2_queryAround_exact {O : Type} {g : Grid O} (hm : Grid.Maintained g)
    {c : ℚ × ℚ} {r : ℚ} (hr : 0 ≤ r) (h : ℕ) (q : ℚ × ℚ) :
    (h, q) ∈ Grid.queryAround g c r ↔
      ∃ o : StoreObject O, alookup g.objects h = some o ∧ o.pos = q ∧
        (q.1 - c.1) * (q.1 - c.1) + (q.2 - c.2) * (q.2 - c.2) < r * r := by
  have hs := hm.cellSizePos
  constructor
  · intro hmem
    unfold Grid.queryAround at hmem
    rcases List.mem_filter.1 hmem with ⟨hraw, hdist⟩
    unfold Grid.queryRaw at hraw
    rcases List.mem_flatMap.1 hraw with ⟨cid, hcid, hcell⟩
    rcases hm.entrySound cid (h, q) hcell with ⟨o, ho, hpos⟩
    refine ⟨o, ho, hpos, ?_⟩
    simpa using hdist
  · rintro ⟨o, ho, hpos, hdist⟩
    have hx1 : c.1 - r ≤ q.1 := by
      by_contra hlt
      push_neg at hlt
      have h1 : (0:ℚ) < -(q.1 - c.1 + r) := by linarith
      have h2 : (0:ℚ) < -(q.1 - c.1 - r) := by linarith
      have h3 := mul_pos h1 h2
      nlinarith [mul_self_nonneg (q.2 - c.2)]
    have hx2 : q.1 ≤ c.1 + r := by
      by_contra hlt
      push_neg at hlt
      have h1 : (0:ℚ) < (q.1 - c.1 + r) := by linarith
      have h2 : (0:ℚ) < (q.1 - c.1 - r) := by linarith
      have h3 := mul_pos h1 h2
      nlinarith [mul_self_nonneg (q.2 - c.2)]
    have hy1 : c.2 - r ≤ q.2 := by
      by_contra hlt
      push_neg at hlt
      have h1 : (0:ℚ) < -(q.2 - c.2 + r) := by linarith
      have h2 : (0:ℚ) < -(q.2 - c.2 - r) := by linarith
      have h3 := mul_pos h1 h2
      nlinarith [mul_self_nonneg (q.1 - c.1)]
    have hy2 : q.2 ≤ c.2 + r := by
      by_contra hlt
      push_neg at hlt
      have h1 : (0:ℚ) < (q.2 - c.2 + r) := by linarith
      have h2 : (0:ℚ) < (q.2 - c.2 - r) := by linarith
      have h3 := mul_pos h1 h2
      nlinarith [mul_self_nonneg (q.1 - c.1)]
    unfold Grid.queryAround
    refine List.mem_filter.2 ⟨?_, ?_⟩
    · unfold Grid.queryRaw
      refine List.mem_flatMap.2 ⟨o.cellId, ?_, ?_⟩
      · rw [hm.objCell h o ho, hpos]
        refine mem_cellRange.2 ⟨?_, ?_, ?_, ?_⟩
        · exact cellIdQ_fst_mono hs (show ((c.1 - r, c.2 - r) : ℚ × ℚ).1 ≤ q.1 from hx1)
        · exact cellIdQ_fst_mono hs (show q.1 ≤ ((c.1 + r, c.2 + r) : ℚ × ℚ).1 from hx2)
        · exact cellIdQ_snd_mono hs (show ((c.1 - r, c.2 - r) : ℚ × ℚ).2 ≤ q.2 from hy1)
        · exact cellIdQ_snd_mono hs (show q.2 ≤ ((c.1 + r, c.2 + r) : ℚ × ℚ).2 from hy2)
      · rw [← hpos]
        exact hm.objComplete h o ho
    · simpa using hdist

/-- C2, counterexample: with `DenseStorage`, a maintained grid (all states
`Unchanged`, cached cells correct) misses the in-range object 1 at
`(15, 5)` from `query_around((5,5), 100)`, because the dense cell range
only covers the allocated envelope and `DenseIter` skips the middle cell. -/
theorem C2_dense_miss_cex :
    DGrid.queryAround dgC2 (5, 5) 100 = [(0, (5, 5))] ∧
    alookup dgC2.objects 1 = some ⟨101, .unchanged, (15, 5), 1⟩ ∧
    (∀ e ∈ dgC2.objects, e.2.state = ObjectState.unchanged) ∧
    ((15:ℚ) - 5) * ((15:ℚ) - 5) + ((5:ℚ) - 5) * ((5:ℚ) - 5) < 100 * 100 ∧
    (1, ((15:ℚ), (5:ℚ))) ∉ DGrid.queryAround dgC2 (5, 5) 100 := by
  have heq : dgC2 = dgC2e := by decide
  have hA1 : asI32 ((5:ℚ) - 100) = -95 := by
    norm_num [asI32, ratTrunc]
    decide
  have hA2 : asI32 ((5:ℚ) + 100) = 105 := by norm_num [asI32, ratTrunc]
  have hll : dstoreC2.cellId (5 - 100, 5 - 100) = 0 := by
    simp only [DenseStorageM.cellId, dstoreC2, hA1]
    decide
  have hur : dstoreC2.cellId (5 + 100, 5 + 100) = 2 := by
    simp only [DenseStorageM.cellId, dstoreC2, hA2]
    decide
  have hrange : denseCellRange 2 0 2 = [0, 2] := by decide
  have hquery : DGrid.queryAround dgC2 (5, 5) 100 = [(0, (5, 5))] := by
    rw [heq]
    simp only [DGrid.queryAround, DGrid.queryRaw, dgC2e]
    rw [show dstoreC2.width.toNat = 2 from rfl, hll, hur, hrange]
    simp only [dstoreC2, List.flatMap_cons, List.flatMap_nil]
    norm_num [List.filter]
  refine ⟨hquery, ?_, ?_, by norm_num, ?_⟩
  · rw [heq]
    decide
  · rw [heq]
    decide
  · rw [hquery]
    decide

/-- C2, witness: the amended statement at the one-object maintained grid. -/
theorem C2_queryAround_witness :
    (0:ℚ) ≤ 1 ∧
    ((0, ((5:ℚ), (3:ℚ))) ∈ Grid.queryAround gMaintW (5, 3) 1 ↔
      ∃ o : StoreObject ℕ, alookup gMaintW.objects 0 = some o ∧
        o.pos = (5, 3) ∧
        ((5:ℚ) - 5) * ((5:ℚ) - 5) + ((3:ℚ) - 3) * ((3:ℚ) - 3) < 1 * 1) :=
  ⟨by norm_num,
   C2_queryAround_exact
     ((Grid.maintain_inv (Grid.reachable_inv
       (Grid.Reachable.insert _ _ (Grid.Reachable.new 10 (by decide))))).2)
     (by norm_num) 0 (5, 3)⟩

/-- C3: after `maintain()` every surviving object is `Unchanged`, carries
its authoritative position in the cell covering it, every cell entry
mirrors a live object, and no empty cell stays allocated. -/
theorem C3_maintain_sync {O : Type} {g : Grid O} (hr : Grid.Reachable g) :
    Grid.Maintained (Grid.maintain g) ∧
      ∀ cid c, alookup (Grid.maintain g).cells cid = some c → c.objs ≠ [] := by
  have hinv := Grid.reachable_inv hr
  rcases Grid.maintain_inv hinv with ⟨hinv2, hm⟩
  exact ⟨hm, hinv2.cellsNonempty⟩

/-- C3, witness: the one-insert grid. -/
theorem C3_maintain_witness :
    Grid.Reachable ((Grid.new ℕ 10).insert (5, 3) 0).1 ∧
    (Grid.Maintained (Grid.maintain ((Grid.new ℕ 10).insert (5, 3) 0).1) ∧
      ∀ cid c, alookup (Grid.maintain
        ((Grid.new ℕ 10).insert (5, 3) 0).1).cells cid = some c →
        c.objs ≠ []) :=
  ⟨Grid.Reachable.insert _ _ (Grid.Reachable.new 10 (by decide)),
   C3_maintain_sync (Grid.Reachable.insert _ _ (Grid.Reachable.new 10 (by decide)))⟩

/-- C4: `set_position` fails exactly on a dead handle, marks the OLD cell
dirty and rewrites only the record's lifecycle state (`NewPos` when the
target cell matches the cached one, `Relocate` otherwise); contrary to the
claim it does NOT update the record's stored position or cell reference,
and it modifies no cell's object list. -/
theorem C4_setPosition_spec {O : Type} (g : Grid O) (h : ℕ) (p : ℚ × ℚ) :
    (alookup g.objects h = none → Grid.setPosition g h p = none) ∧
    (∀ o, alookup g.objects h = some o →
      Grid.setPosition g h p = some
        { g with
          objects := aset g.objects h
            (if o.state = .removed then o
             else { o with
                    state := if cellIdQ g.cellSize p = o.cellId then .newPos p
                             else .relocate p (cellIdQ g.cellSize p) }),
          cells := Grid.cellsMarkDirty g.cells o.cellId }) ∧
    (∀ cid0 cid, Grid.cellObjsAt (Grid.cellsMarkDirty g.cells cid0) cid =
      Grid.cellObjsAt g.cells cid) := by
  refine ⟨?_, ?_, ?_⟩
  · intro hn
    unfold Grid.setPosition
    rw [hn]
  · intro o ho
    exact Grid.setPosition_some ho
  · intro cid0 cid
    exact Grid.cellObjsAt_cellsMarkDirty g.cells cid0 cid

/-- C4, counterexample: moving object 0 from `(0,0)` to `(25,3)` leaves its
stored position at `(0,0)` and its cell reference at `(0,0)`, with the
pending data only in the `Relocate` state. -/
theorem C4_stale_record_cex :
    Grid.setPosition gC4 0 (25, 3) = some
      ⟨10, [((0, 0), ⟨[(0, (0, 0))], true⟩)],
       [(0, ⟨5, .relocate (25, 3) (2, 0), (0, 0), (0, 0)⟩)], 1⟩ ∧
    ((0 : ℚ), (0 : ℚ)) ≠ ((25 : ℚ), (3 : ℚ)) ∧
    ((0 : ℤ), (0 : ℤ)) ≠ ((2 : ℤ), (0 : ℤ)) := by
  refine ⟨by decide, by decide, by decide⟩

/-- C5: in a reachable AABB grid, a multi-cell broad query never yields a
handle twice: single-cell entries occur once in the whole stream, and the
rest pass through the seen set. -/
theorem C5_queryBroad_nodup {O : Type} {g : AABBGrid O}
    (hr : AABBGrid.ReachableA g) (b : Box)
    (hmulti : cellIdQ g.cellSize b.ll ≠ cellIdQ g.cellSize b.ur) :
    (AABBGrid.queryBroad g b).Nodup := by
  have hg := AABBGrid.reachableA_inv hr
  simp only [AABBGrid.queryBroad]
  rw [if_neg hmulti]
  exact AABBGrid.dedupRun_nodup [] _
    (fun hh hmem => AABBGrid.stream_true_once hg _ _ hmem)

/-- C5, witness: a two-cell box over a one-object grid. -/
theorem C5_queryBroad_witness :
    cellIdQ gAq.cellSize (Box.mk (0, 0) (15, 0)).ll ≠
      cellIdQ gAq.cellSize (Box.mk (0, 0) (15, 0)).ur ∧
    (AABBGrid.queryBroad gAq ⟨(0, 0), (15, 0)⟩).Nodup :=
  ⟨by decide,
   C5_queryBroad_nodup
     (AABBGrid.ReachableA.insert _ _ (AABBGrid.ReachableA.new 10 (by decide)))
     ⟨(0, 0), (15, 0)⟩ (by decide)⟩

/-- C6: the `Storage::new` constructors perform NO validation and store the
given cell size even when it is nonpositive; only `new_rect` (and through
it `new_centered`) assert `cell_size > 0`. -/
theorem C6_new_unvalidated (s : ℤ) :
    (SparseStorageM.new ℕ s).cellSize = s ∧
    (DenseStorageM.new ℕ s).cellSize = s ∧
    ∀ (df : ℕ) (x y w hh : ℤ),
      ((DenseStorageM.newRect ℕ df s x y w hh).isSome ↔ 0 < s) := by
  refine ⟨rfl, rfl, ?_⟩
  intro df x y w hh
  unfold DenseStorageM.newRect
  by_cases hs : 0 < s <;> simp [hs]

/-- C6, counterexample: `new(-5)` succeeds and keeps the nonpositive cell
size. -/
theorem C6_negative_cellSize_cex :
    (SparseStorageM.new ℕ (-5)).cellSize = -5 ∧
    (DenseStorageM.new ℕ (-7)).cellSize = -7 ∧
    ¬ 0 < (SparseStorageM.new ℕ (-5)).cellSize :=
  ⟨rfl, rfl, by decide⟩

/-- C7: over the default sparse storage, `insert` never fails: there is no
`PositionInvalid` error; a non-finite coordinate is simply cast (NaN to 0,
infinities saturating) and the object is stored and retrievable.  Only
`DenseStorage::cell_mut` checks finiteness, and with `debug_assert!`. -/
theorem C7_insert_total {O : Type} (g : GridF O) (p : F32 × F32) (o : O)
    (hnf : p.1.isFinite = false ∨ p.2.isFinite = false) :
    (GridF.insert g p o).2 = g.nextHandle ∧
    ((GridF.insert g p o).1).len = g.len + 1 ∧
    ((GridF.insert g p o).1).get (GridF.insert g p o).2 = some (p, o) ∧
    denseCellMutDebugAssert p = false := by
  refine ⟨rfl, ?_, ?_, ?_⟩
  · show ((g.nextHandle, (o, ObjectState.unchanged, p, cellIdF g.cellSize p)) ::
      g.objects).length = g.objects.length + 1
    simp
  · show (alookup ((g.nextHandle, (o, ObjectState.unchanged, p,
      cellIdF g.cellSize p)) :: g.objects) g.nextHandle).map
        (fun ob => (ob.2.2.1, ob.1)) = some (p, o)
    rw [alookup_cons, if_pos rfl]
    rfl
  · unfold denseCellMutDebugAssert
    rcases hnf with hnf | hnf <;> simp [hnf]

/-- C7, counterexample: inserting at `(NaN, -∞)` succeeds (handle 0, length
1, retrievable), instead of failing with `PositionInvalid`; NaN lands in
cell 0 and `-∞` saturates. -/
theorem C7_nan_insert_cex :
    (GridF.insert (GridF.new ℕ 10) (F32.nan, F32.negInf) 7).2 = 0 ∧
    ((GridF.insert (GridF.new ℕ 10) (F32.nan, F32.negInf) 7).1).len = 1 ∧
    ((GridF.insert (GridF.new ℕ 10) (F32.nan, F32.negInf) 7).1).get 0 =
      some ((F32.nan, F32.negInf), 7) ∧
    cellIdF 10 (F32.nan, F32.negInf) = (0, -214748364) := by
  refine ⟨rfl, rfl, by decide, by decide⟩

/-- C7, witness: the amended statement at `(NaN, +∞)`. -/
theorem C7_insert_total_witness :
    (((F32.nan, F32.posInf) : F32 × F32).1.isFinite = false ∨
      ((F32.nan, F32.posInf) : F32 × F32).2.isFinite = false) ∧
    ((GridF.insert (GridF.new ℕ 10) (F32.nan, F32.posInf) 3).2 =
        (GridF.new ℕ 10).nextHandle ∧
      ((GridF.insert (GridF.new ℕ 10) (F32.nan, F32.posInf) 3).1).len =
        (GridF.new ℕ 10).len + 1 ∧
      ((GridF.insert (GridF.new ℕ 10) (F32.nan, F32.posInf) 3).1).get
          (GridF.insert (GridF.new ℕ 10) (F32.nan, F32.posInf) 3).2 =
        some ((F32.nan, F32.posInf), 3) ∧
      denseCellMutDebugAssert (F32.nan, F32.posInf) = false) :=
  ⟨Or.inl rfl,
   C7_insert_total (GridF.new ℕ 10) (F32.nan, F32.posInf) 3 (Or.inl rfl)⟩

/-- C8: `set_aabb` and `remove` on a handle that is not live fail
immediately (the `.expect` / early `None` on the slot-map lookup). -/
theorem C8_dead_handle_error {O : Type} (g : AABBGrid O) (h : ℕ) (b : Box)
    (hd : alookup g.objects h = none) :
    AABBGrid.setAABB g h b = none ∧ AABBGrid.remove g h = none := by
  constructor
  · unfold AABBGrid.setAABB
    rw [hd]
  · unfold AABBGrid.remove
    rw [hd]

/-- C8, witness: handle 0 on a fresh grid. -/
theorem C8_dead_handle_witness :
    alookup (AABBGrid.new ℕ 10).objects 0 = none ∧
    (AABBGrid.setAABB (AABBGrid.new ℕ 10) 0 ⟨(0, 0), (1, 1)⟩ = none ∧
      AABBGrid.remove (AABBGrid.new ℕ 10) 0 = none) :=
  ⟨rfl, C8_dead_handle_error (AABBGrid.new ℕ 10) 0 ⟨(0, 0), (1, 1)⟩ rfl⟩

/-- C9: removing a live handle keeps its record until the next `maintain`:
`get` still returns the same position and payload right after `remove`. -/
theorem C9_remove_get_stable {O : Type} {g : Grid O} {h : ℕ}
    {o : StoreObject O} (ho : alookup g.objects h = some o) :
    ∃ g2, Grid.remove g h = some g2 ∧
      Grid.get g2 h = some (o.pos, o.obj) ∧
      Grid.get g h = some (o.pos, o.obj) := by
  refine ⟨_, Grid.remove_some ho, ?_, ?_⟩
  · show (alookup (aset g.objects h { o with state := .removed }) h).map
      (fun ob => (ob.pos, ob.obj)) = some (o.pos, o.obj)
    rw [alookup_aset, if_pos rfl, ho]
    rfl
  · show (alookup g.objects h).map (fun ob => (ob.pos, ob.obj)) =
      some (o.pos, o.obj)
    rw [ho]
    rfl

/-- C9, witness: object 0 at `(1, 2)` with payload 42. -/
theorem C9_remove_get_witness :
    alookup gC9.objects 0 = some ⟨42, .unchanged, (1, 2), (0, 0)⟩ ∧
    ∃ g2, Grid.remove gC9 0 = some g2 ∧
      Grid.get g2 0 = some ((1, 2), 42) ∧
      Grid.get gC9 0 = some ((1, 2), 42) :=
  ⟨by decide,
   C9_remove_get_stable (g := gC9) (h := 0)
     (o := ⟨42, .unchanged, (1, 2), (0, 0)⟩) (by decide)⟩

/-- C10: `query_broad_visitor` on a single-cell bounding box whose cell was
never allocated returns `none` (the `.unwrap()` panics in Rust), while the
iterator form `query_broad` on the same input yields the empty result. -/
theorem C10_visitor_unwrap_none :
    AABBGrid.queryBroadVisitor (AABBGrid.new ℕ 10) ⟨(1, 1), (2, 2)⟩ = none ∧
    AABBGrid.queryBroad (AABBGrid.new ℕ 10) ⟨(1, 1), (2, 2)⟩ = [] := by
  exact ⟨by decide, by decide⟩

end FlatSpatial
